import Mathlib

/-! # Reactive observer core (`src/vue/src/core/observer/index.ts`)

A shallow embedding of the observer: the JavaScript heap is an explicit
`World`, every function of the source is a Lean function that takes the world
and returns the new one.  Recursion through the object graph is bounded by a
`fuel` argument; `Err.outOfFuel` is the only way fuel shows, `Err.typeError`
stands for a `TypeError` thrown by a language primitive (strict mode) and
`Err.rangeError` for the `RangeError` of an invalid array length.

Modelling decisions, all local to the data model:
* numbers are integers plus `NaN`;
* the marker properties `__ob__`, `__v_skip`, `__v_isRef`, `__v_isReadonly`
  and `_isVue` are dedicated fields of an object, user keys never collide
  with them;
* own index properties of an array are the list `elems` (a hole is `none`),
  each an ordinary writable, configurable data slot; an array index is a
  number below `2^32 - 1`, a larger number names an ordinary property;
* a user-defined accessor reads or writes a backing cell of the world;
* the closure that `defineReactive` creates is a record in `World.closures`;
* the prototype chain is only consulted by the `in` operator, for the keys of
  `Object.prototype` and `Array.prototype`.
-/

namespace VueObserver

/-! ## Results -/

inductive Err
  | outOfFuel
  | typeError
  | rangeError
deriving DecidableEq, Repr

inductive Res (α : Type) where
  | ok (a : α)
  | err (e : Err)
deriving DecidableEq, Repr

def Res.bind {α β : Type} (x : Res α) (f : α → Res β) : Res β :=
  match x with
  | .ok a => f a
  | .err e => .err e

instance : Monad Res where
  pure := Res.ok
  bind := Res.bind

/-! ## Values, properties, objects -/

/-- JavaScript values; `obj a` is a reference to the heap object at address `a`. -/
inductive Val
  | undefined
  | null
  | bool (b : Bool)
  | num (n : Int)
  | nan
  | str (s : String)
  | obj (a : Nat)
deriving DecidableEq, Repr

/-- Property keys as `set` and `del` receive them: a valid array index
(`isValidArrayIndex(key)`, the number `3` and the string `"3"` alike) or any other name. -/
inductive Key
  | idx (n : Nat)
  | name (s : String)
deriving DecidableEq, Repr

def Key.toName : Key → String
  | .idx n => toString n
  | .name s => s

/-- `isValidArrayIndex(key)`. -/
def isValidArrayIndex : Key → Bool
  | .idx _ => true
  | .name _ => false

/-- The key as the number `splice` receives. -/
def Key.index : Key → Nat
  | .idx n => n
  | .name _ => 0

inductive Getter
  | user (cell : Nat)
  | reactive (c : Nat)
deriving DecidableEq, Repr

inductive Setter
  | user (cell : Nat)
  | reactive (c : Nat)
deriving DecidableEq, Repr

/-- Property descriptors. -/
inductive PropDesc
  | data (value : Val) (writable enumerable configurable : Bool)
  | accessor (get : Option Getter) (set : Option Setter) (enumerable configurable : Bool)
deriving DecidableEq, Repr

def PropDesc.enumerable : PropDesc → Bool
  | .data _ _ e _ => e
  | .accessor _ _ e _ => e

def PropDesc.configurable : PropDesc → Bool
  | .data _ _ _ c => c
  | .accessor _ _ _ c => c

def PropDesc.getter : PropDesc → Option Getter
  | .data _ _ _ _ => none
  | .accessor g _ _ _ => g

def PropDesc.setter : PropDesc → Option Setter
  | .data _ _ _ _ => none
  | .accessor _ s _ _ => s

/-- What `Object.prototype.toString` and `instanceof` tell apart: `plain` and `vnode`
both answer `[object Object]` (`isPlainObject`), `other` is any other object
(a function, a `Date`, ...). -/
inductive Cls
  | plain
  | array
  | vnode
  | other
deriving DecidableEq, Repr

structure Obj where
  cls : Cls
  extensible : Bool
  props : List (String × PropDesc)
  elems : List (Option Val)
  ob : Option Nat
  vSkip : Bool
  vIsRef : Bool
  vIsReadonly : Bool
  isVue : Bool
  patched : Bool
deriving DecidableEq, Repr

/-- The `dep` field of an Observer: `mock ? mockDep : new Dep()`. -/
inductive DepRef
  | mockDep
  | dep (id : Nat)
deriving DecidableEq, Repr

/-- `class Observer`. -/
structure Observer where
  value : Nat
  shallow : Bool
  mock : Bool
  dep : DepRef
  vmCount : Nat
deriving DecidableEq, Repr

/-- The variables one call of `defineReactive` closes over. -/
structure Closure where
  obj : Nat
  key : String
  dep : Nat
  val : Val
  childOb : Option Nat
  getter : Option Getter
  setter : Option Setter
  customSetter : Option Nat
  shallow : Bool
  mock : Bool
deriving DecidableEq, Repr

/-- What the world records of the calls that leave the observer. -/
inductive Event
  | notify (d : DepRef)
  | update (sub : Nat)
  | hook (h : Nat)
  | userSet (cell : Nat) (v : Val)
deriving DecidableEq, Repr

structure World where
  heap : List Obj
  observers : List Observer
  deps : List (List Nat)
  closures : List Closure
  cells : List Val
  target : Option Nat
  shouldObserve : Bool
  serverRendering : Bool
  dev : Bool
  log : List Event
deriving DecidableEq, Repr

/-- `const NO_INITIAL_VALUE = {}`: the sentinel object lives at address 0. -/
def NO_INITIAL_VALUE : Val := .obj 0

/-! ## Utilities of `../util/index` and `../../v3` -/

def truthy : Val → Bool
  | .undefined => false
  | .null => false
  | .nan => false
  | .bool b => b
  | .num n => n != 0
  | .str s => s != ""
  | .obj _ => true

/-- `x === y`. -/
def strictEq (x y : Val) : Bool :=
  x != .nan && x == y

/-- Modelled from the spec: `hasChanged` of `../util/index`, which is not among the
sources: the new value is identical to the current one under a strict equality check
that additionally treats two `NaN`s as equal. -/
def hasChanged (x y : Val) : Bool :=
  !(strictEq x y || (x == .nan && y == .nan))

def World.objOf (w : World) : Val → Option Obj
  | .obj a => w.heap[a]?
  | _ => none

def isArray (w : World) (v : Val) : Bool :=
  match w.objOf v with
  | some o => o.cls == .array
  | none => false

/-- `isPlainObject`: `_toString.call(obj) === '[object Object]'`. -/
def isPlainObject (w : World) (v : Val) : Bool :=
  match w.objOf v with
  | some o => o.cls == .plain || o.cls == .vnode
  | none => false

/-- `value instanceof VNode`. -/
def isVNode (w : World) (v : Val) : Bool :=
  match w.objOf v with
  | some o => o.cls == .vnode
  | none => false

/-- Modelled from the spec: `isRef` of `../../v3`, which is not among the sources:
the value is a reference-cell-like wrapper. -/
def isRef (w : World) (v : Val) : Bool :=
  match w.objOf v with
  | some o => o.vIsRef
  | none => false

/-- Modelled from the spec: `isReadonly` of `../../v3`, which is not among the sources:
the composite is explicitly marked read-only. -/
def isReadonly (w : World) (v : Val) : Bool :=
  match w.objOf v with
  | some o => o.vIsReadonly
  | none => false

/-- `Object.isExtensible(value)`. -/
def isExtensible (w : World) (v : Val) : Bool :=
  match w.objOf v with
  | some o => o.extensible
  | none => false

/-- `value.__v_skip`, as a condition. -/
def vSkip (w : World) (v : Val) : Bool :=
  match w.objOf v with
  | some o => o.vSkip
  | none => false

/-- `value.__ob__`, as far as it is an Observer. -/
def obOf (w : World) (v : Val) : Option Nat :=
  match w.objOf v with
  | some o => o.ob
  | none => none

def elemsOf (w : World) (v : Val) : List (Option Val) :=
  match w.objOf v with
  | some o => o.elems
  | none => []

def lookupProp (k : String) : List (String × PropDesc) → Option PropDesc
  | [] => none
  | (k1, d) :: ps => if k1 = k then some d else lookupProp k ps

/-- `Object.defineProperty` on the property list: an existing key keeps its place. -/
def defineProp (k : String) (d : PropDesc) : List (String × PropDesc) → List (String × PropDesc)
  | [] => [(k, d)]
  | (k1, d1) :: ps => if k1 = k then (k, d) :: ps else (k1, d1) :: defineProp k d ps

def removeProp (k : String) (ps : List (String × PropDesc)) : List (String × PropDesc) :=
  ps.filter (fun p => p.1 != k)

def dedupKeys : List String → List String
  | [] => []
  | k :: ks => k :: (dedupKeys ks).filter (fun x => x != k)

/-- `Object.keys(value)`: the own enumerable keys, each once. -/
def objectKeys (o : Obj) : List String :=
  dedupKeys ((o.props.filter (fun p => p.2.enumerable)).map (fun p => p.1))

/-- The greatest length of an array, `2^32 - 1`: the array indices are the numbers
below it. -/
def maxArrayLength : Nat := 4294967295

/-- The greatest length the array methods compute with, `2^53 - 1`. -/
def maxSafeInteger : Nat := 9007199254740991

/-- `Object.getOwnPropertyDescriptor(obj, key)`. -/
def ownDesc (o : Obj) (key : Key) : Option PropDesc :=
  if o.cls = .array then
    match key with
    | .idx n =>
      if n < maxArrayLength then
        match o.elems[n]? with
        | some (some v) => some (.data v true true true)
        | _ => none
      else lookupProp (toString n) o.props
    | .name s =>
      if s = "length" then some (.data (.num o.elems.length) true false false)
      else lookupProp s o.props
  else lookupProp key.toName o.props

/-- `hasOwn(target, key)`. -/
def hasOwn (o : Obj) (key : Key) : Bool :=
  (ownDesc o key).isSome

def objectPrototypeKeys : List String :=
  ["constructor", "__defineGetter__", "__defineSetter__", "hasOwnProperty",
   "__lookupGetter__", "__lookupSetter__", "isPrototypeOf", "propertyIsEnumerable",
   "toString", "valueOf", "__proto__", "toLocaleString"]

def arrayPrototypeKeys : List String :=
  ["at", "concat", "copyWithin", "fill", "find", "findIndex", "findLast",
   "findLastIndex", "lastIndexOf", "pop", "push", "reverse", "shift", "unshift",
   "slice", "sort", "splice", "includes", "indexOf", "join", "keys", "entries",
   "values", "forEach", "filter", "flat", "flatMap", "map", "every", "some",
   "reduce", "reduceRight"]

/-- `key in Object.prototype`. -/
def inObjectPrototype (key : Key) : Bool :=
  objectPrototypeKeys.contains key.toName

/-- `key in target`. -/
def keyIn (o : Obj) (key : Key) : Bool :=
  hasOwn o key || inObjectPrototype key ||
    (o.cls == .array && arrayPrototypeKeys.contains key.toName)

def World.setObj (w : World) (a : Nat) (o : Obj) : World :=
  { w with heap := w.heap.set a o }

def World.emit (w : World) (e : Event) : World :=
  { w with log := w.log ++ [e] }

/-! ## DependencyNode -/

/-- Modelled from the spec: `new Dep()` of `./dep`, which is not among the sources:
a registry of subscribers for one reactive unit, created empty. -/
def newDep (w : World) : Nat × World :=
  (w.deps.length, { w with deps := w.deps ++ [[]] })

/-- Modelled from the spec: `subscribe(handle)` of `./dep`, which is not among the
sources: adds handle to the subscriber set if absent. -/
def addSub (w : World) (d : Nat) (s : Nat) : World :=
  match w.deps[d]? with
  | some subs => if s ∈ subs then w else { w with deps := w.deps.set d (subs ++ [s]) }
  | none => w

/-- Modelled from the spec: `depend()` of `./dep`, which is not among the sources: if
ReadContext holds an active subscriber, that subscriber is added via `subscribe`;
every method of `mockDep` is `noop`. -/
def depend (w : World) (d : DepRef) : World :=
  match d, w.target with
  | .dep id, some s => addSub w id s
  | _, _ => w

def subsOf (w : World) (d : DepRef) : List Nat :=
  match d with
  | .dep id => w.deps.getD id []
  | .mockDep => []

/-- Modelled from the spec: `notify()` of `./dep`, which is not among the sources:
invokes every subscriber's re-run callback, in subscription order.  The call and
each re-run are recorded in the log. -/
def notify (w : World) (d : DepRef) : World :=
  { w with log := w.log ++ [Event.notify d] ++ (subsOf w d).map Event.update }

/-- The `dep` of the Observer `id`. -/
def obDep (w : World) (id : Nat) : DepRef :=
  match w.observers[id]? with
  | some ob => ob.dep
  | none => .mockDep

/-- `if (e && e.__ob__) { e.__ob__.dep.depend() }`. -/
def dependOn (w : World) (e : Val) : World :=
  match obOf w e with
  | some id => depend w (obDep w id)
  | none => w

def updClosure (w : World) (c : Nat) (f : Closure → Closure) : World :=
  match w.closures[c]? with
  | some cl => { w with closures := w.closures.set c (f cl) }
  | none => w

/-- `export function toggleObserving(value: boolean)`. -/
def toggleObserving (w : World) (value : Bool) : World :=
  { w with shouldObserve := value }

/-- `def(value, '__ob__', this)`. -/
def defOb (w : World) (a : Nat) (id : Nat) : World :=
  match w.heap[a]? with
  | some o => w.setObj a { o with ob := some id }
  | none => w

/-- Installing `arrayMethods` on an array (`value.__proto__ = arrayMethods`, or one
`def` per method where `hasProto` is false). -/
def installArrayMethods (w : World) (a : Nat) : World :=
  match w.heap[a]? with
  | some o => w.setObj a { o with patched := true }
  | none => w

/-- `Object.defineProperty(obj, key, desc)` for a key that is absent or configurable. -/
def defineProperty (w : World) (a : Nat) (key : String) (d : PropDesc) : Res World :=
  match w.heap[a]? with
  | none => .err .typeError
  | some o =>
    if (lookupProp key o.props).isSome || o.extensible then
      .ok (w.setObj a { o with props := defineProp key d o.props })
    else .err .typeError

/-! ## Language primitives on arrays and named properties -/

def setElem (es : List (Option Val)) (n : Nat) (v : Val) : List (Option Val) :=
  if n < es.length then es.set n (some v)
  else es ++ List.replicate (n - es.length) none ++ [some v]

/-- What `target.length = n` leaves for a valid length `n`; the assignment throws a
`RangeError` for every other `n`, which the callers test. -/
def setLength (es : List (Option Val)) (n : Nat) : List (Option Val) :=
  if n ≤ es.length then es.take n else es ++ List.replicate (n - es.length) none

/-- Whether writing `new` over `old` creates an own index property that `old` lacks. -/
def createsIndex : List (Option Val) → List (Option Val) → Bool
  | _, [] => false
  | [], n :: ns => n.isSome || createsIndex [] ns
  | o :: os, n :: ns => (n.isSome && o.isNone) || createsIndex os ns

/-- The calls of the seven array methods the bridge wraps, with their numeric arguments
already converted to integers.  `splice()` without arguments acts as `splice 0 (some 0) []`;
`splice start none` is the call with one argument.  The `comparefn` of `sort` is taken to
be a pure function whose result is already converted to an integer (`NaN` to 0). -/
inductive ArrayCall
  | push (items : List Val)
  | pop
  | shift
  | unshift (items : List Val)
  | splice (start : Int) (deleteCount : Option Int) (items : List Val)
  | sort (comparefn : Option (Val → Val → Int))
  | reverse

def spliceStart (len : Nat) (start : Int) : Nat :=
  if start < 0 then (Int.toNat (len + start)) else min start.toNat len

def spliceCount (len actualStart : Nat) (deleteCount : Option Int) : Nat :=
  match deleteCount with
  | none => len - actualStart
  | some dc => min dc.toNat (len - actualStart)

/-- The UTF-16 code units of a string: what `<` on strings compares. -/
def utf16 (s : String) : List Nat :=
  s.toList.flatMap (fun c =>
    if c.toNat < 0x10000 then [c.toNat]
    else [0xD800 + (c.toNat - 0x10000) / 0x400, 0xDC00 + (c.toNat - 0x10000) % 0x400])

/-- `x < y` on strings: lexicographic on code units. -/
def lexLt : List Nat → List Nat → Bool
  | [], [] => false
  | [], _ :: _ => true
  | _ :: _, [] => false
  | a :: as, b :: bs => a < b || (a == b && lexLt as bs)

/-- `ToString(v)`.  An array is joined with commas (`null`, `undefined` and holes give the
empty string; an array met again inside itself gives the empty string, as engines do);
every other object gives `[object Object]`, the prototype chain not being modelled.
`seen` holds the arrays being joined. -/
def jsToString : Nat → World → List Nat → Val → String
  | _, _, _, .undefined => "undefined"
  | _, _, _, .null => "null"
  | _, _, _, .bool b => toString b
  | _, _, _, .num n => toString n
  | _, _, _, .nan => "NaN"
  | _, _, _, .str s => s
  | 0, _, _, .obj _ => ""
  | fuel + 1, w, seen, .obj a =>
    match w.heap[a]? with
    | none => ""
    | some o =>
      if o.cls = .array then
        if a ∈ seen then ""
        else ",".intercalate (o.elems.map (fun e =>
          match e with
          | none => ""
          | some .undefined => ""
          | some .null => ""
          | some v => jsToString fuel w (a :: seen) v))
      else "[object Object]"

/-- `SortCompare(x, y)` of `Array.prototype.sort`. -/
def sortCompare (w : World) (comparefn : Option (Val → Val → Int)) (x y : Val) : Int :=
  if x = .undefined ∧ y = .undefined then 0
  else if x = .undefined then 1
  else if y = .undefined then -1
  else
    match comparefn with
    | some f => f x y
    | none =>
      let xs := utf16 (jsToString (w.heap.length + 1) w [] x)
      let ys := utf16 (jsToString (w.heap.length + 1) w [] y)
      if lexLt xs ys then -1 else if lexLt ys xs then 1 else 0

/-- Insertion of `x` into a sorted list, before the first element it does not follow. -/
def sortInsert (cmp : Val → Val → Int) (x : Val) : List Val → List Val
  | [] => [x]
  | y :: ys => if cmp x y ≤ 0 then x :: y :: ys else y :: sortInsert cmp x ys

/-- The stable sort of the present elements; the holes move to the end. -/
def sortElems (cmp : Val → Val → Int) (es : List (Option Val)) : List (Option Val) :=
  let present := es.filterMap (fun e => e)
  (present.foldr (sortInsert cmp) []).map some ++
    List.replicate (es.length - present.length) none

def emptyArray (es : List (Option Val)) : Obj :=
  { cls := .array, extensible := true, props := [], elems := es, ob := none,
    vSkip := false, vIsRef := false, vIsReadonly := false, isVue := false, patched := false }

/-- The native `Array.prototype` method applied to the array at `a`: the result and the
new world.  `splice` allocates the array of the removed elements.  The methods that can
lengthen the array (`push`, `unshift`, `splice`) throw a `TypeError` where the new length
would exceed `2^53 - 1` and a `RangeError` where the assignment of the new length fails,
that is beyond `2^32 - 1`. -/
def nativeApply (w : World) (a : Nat) (call : ArrayCall) : Res (Val × World) :=
  match w.heap[a]? with
  | none => .err .typeError
  | some o =>
    let finish := fun (es : List (Option Val)) (r : Val) (w1 : World) =>
      if !o.extensible && createsIndex o.elems es then (Res.err .typeError : Res (Val × World))
      else Res.ok (r, w1.setObj a { o with elems := es })
    let grow := fun (es : List (Option Val)) (r : Val) (w1 : World) =>
      if maxSafeInteger < es.length then (Res.err .typeError : Res (Val × World))
      else if !o.extensible && createsIndex o.elems es then Res.err .typeError
      else if maxArrayLength < es.length then Res.err .rangeError
      else Res.ok (r, w1.setObj a { o with elems := es })
    match call with
    | .push items =>
      let es := o.elems ++ items.map some
      grow es (.num es.length) w
    | .pop =>
      match o.elems.getLast? with
      | none => .ok (.undefined, w)
      | some e => finish o.elems.dropLast (e.getD .undefined) w
    | .shift =>
      match o.elems with
      | [] => .ok (.undefined, w)
      | e :: es => finish es (e.getD .undefined) w
    | .unshift items =>
      let es := items.map some ++ o.elems
      grow es (.num es.length) w
    | .splice start deleteCount items =>
      let s := spliceStart o.elems.length start
      let dc := spliceCount o.elems.length s deleteCount
      let removed := (o.elems.drop s).take dc
      let es := o.elems.take s ++ items.map some ++ o.elems.drop (s + dc)
      grow es (.obj w.heap.length) { w with heap := w.heap ++ [emptyArray removed] }
    | .sort comparefn => finish (sortElems (sortCompare w comparefn) o.elems) (.obj a) w
    | .reverse => finish o.elems.reverse (.obj a) w

/-- The `inserted` of the bridge: `args` for push and unshift, `args.slice(2)` for splice. -/
def inserted : ArrayCall → Option (List Val)
  | .push items => some items
  | .unshift items => some items
  | .splice _ _ items => some items
  | _ => none

/-! ## The observer -/

/-- The condition under which `observe` constructs an Observer:
`shouldObserve && (ssrMockReactivity || !isServerRendering()) &&
(isArray(value) || isPlainObject(value)) && Object.isExtensible(value) &&
!value.__v_skip && !isRef(value) && !(value instanceof VNode)`. -/
def observable (w : World) (value : Val) (ssrMockReactivity : Bool) : Bool :=
  w.shouldObserve && (ssrMockReactivity || !w.serverRendering) &&
    (isArray w value || isPlainObject w value) && isExtensible w value &&
    !vSkip w value && !isRef w value && !isVNode w value

mutual

/-- `obj[key]`. -/
def getProp : Nat → World → Nat → Key → Res (Val × World)
  | 0, _, _, _ => .err .outOfFuel
  | fuel + 1, w, a, key =>
    match w.heap[a]? with
    | none => .err .typeError
    | some o =>
      match ownDesc o key with
      | some (.data v _ _ _) => .ok (v, w)
      | some (.accessor (some g) _ _ _) => callGetter fuel w g
      | some (.accessor none _ _ _) => .ok (.undefined, w)
      | none => .ok (.undefined, w)

/-- `getter.call(obj)`: a user getter reads its cell, a reactive getter is
`reactiveGetter` of `defineReactive`. -/
def callGetter : Nat → World → Getter → Res (Val × World)
  | 0, _, _ => .err .outOfFuel
  | _ + 1, w, .user cell => .ok (w.cells.getD cell .undefined, w)
  | fuel + 1, w, .reactive c =>
    match w.closures[c]? with
    | none => .err .typeError
    | some cl => do
      let (value, w1) ← (match cl.getter with
        | some g => callGetter fuel w g
        | none => Res.ok (cl.val, w))
      let w2 ← (if w1.target.isSome then
          let wa := depend w1 (.dep cl.dep)
          match (w1.closures[c]?).bind (fun x => x.childOb) with
          | some childOb =>
            let wb := depend wa (obDep wa childOb)
            if isArray wb value then dependArray fuel wb (elemsOf wb value) else Res.ok wb
          | none => Res.ok wa
        else Res.ok w1)
      if isRef w2 value && !cl.shallow then
        match value with
        | .obj r => getProp fuel w2 r (.name "value")
        | _ => Res.ok (value, w2)
      else Res.ok (value, w2)

/-- `function dependArray(value: Array<any>)`, over the elements of `value`. -/
def dependArray : Nat → World → List (Option Val) → Res World
  | 0, _, _ => .err .outOfFuel
  | _ + 1, w, [] => .ok w
  | fuel + 1, w, e :: rest => do
    let e := e.getD .undefined
    let w1 := dependOn w e
    let w2 ← (if isArray w1 e then dependArray fuel w1 (elemsOf w1 e) else Res.ok w1)
    dependArray fuel w2 rest

/-- `target[key] = val`, in strict mode. -/
def setProp : Nat → World → Nat → Key → Val → Res World
  | 0, _, _, _, _ => .err .outOfFuel
  | fuel + 1, w, a, key, v =>
    match w.heap[a]? with
    | none => .err .typeError
    | some o =>
      let named := fun (k : String) =>
        match lookupProp k o.props with
        | some (.data _ true e c) =>
          Res.ok (w.setObj a { o with props := defineProp k (.data v true e c) o.props })
        | some (.data _ false _ _) => Res.err .typeError
        | some (.accessor _ (some s) _ _) => callSetter fuel w s v
        | some (.accessor _ none _ _) => Res.err .typeError
        | none =>
          if o.extensible then
            Res.ok (w.setObj a { o with props := o.props ++ [(k, .data v true true true)] })
          else Res.err .typeError
      if o.cls = .array then
        match key with
        | .idx n =>
          if n < maxArrayLength then
            if !o.extensible && createsIndex o.elems (setElem o.elems n v) then .err .typeError
            else .ok (w.setObj a { o with elems := setElem o.elems n v })
          else named (toString n)
        | .name s =>
          if s = "length" then
            match v with
            | .num (.ofNat n) =>
              if maxArrayLength < n then .err .rangeError
              else .ok (w.setObj a { o with elems := setLength o.elems n })
            | .num (.negSucc _) => .err .rangeError
            | .nan => .err .rangeError
            | .undefined => .err .rangeError
            | .null => .ok (w.setObj a { o with elems := setLength o.elems 0 })
            | .bool b => .ok (w.setObj a { o with elems := setLength o.elems (if b then 1 else 0) })
            | _ => .err .typeError
          else named s
      else named key.toName

/-- `setter.call(obj, newVal)`: a user setter writes its cell, a reactive setter is
`reactiveSetter` of `defineReactive`. -/
def callSetter : Nat → World → Setter → Val → Res World
  | 0, _, _, _ => .err .outOfFuel
  | _ + 1, w, .user cell, v =>
    .ok { w with cells := w.cells.set cell v, log := w.log ++ [.userSet cell v] }
  | fuel + 1, w, .reactive c, newVal =>
    match w.closures[c]? with
    | none => .err .typeError
    | some cl => do
      let (value, w1) ← (match cl.getter with
        | some g => callGetter fuel w g
        | none => Res.ok (cl.val, w))
      if !hasChanged value newVal then Res.ok w1
      else do
        let w2 := (match cl.customSetter with
          | some h => if w1.dev then w1.emit (.hook h) else w1
          | none => w1)
        let (stored, w3) ← (match cl.setter, cl.getter with
          | some s, _ => do
            let w3 ← callSetter fuel w2 s newVal
            Res.ok (true, w3)
          | none, some _ => Res.ok (false, w2)
          | none, none =>
            if !cl.shallow && isRef w2 value && !isRef w2 newVal then
              match value with
              | .obj r => do
                let w3 ← setProp fuel w2 r (.name "value") newVal
                Res.ok (false, w3)
              | _ => Res.ok (false, w2)
            else Res.ok (true, updClosure w2 c (fun x => { x with val := newVal })))
        if stored then do
          let (childOb, w4) ← (if cl.shallow then Res.ok (obOf w3 newVal, w3)
            else observe fuel w3 newVal false cl.mock)
          let w5 := updClosure w4 c (fun x => { x with childOb := childOb })
          Res.ok (notify w5 (.dep cl.dep))
        else Res.ok w3

/-- `export function observe(value, shallow?, ssrMockReactivity?)`. -/
def observe : Nat → World → Val → Bool → Bool → Res (Option Nat × World)
  | 0, _, _, _, _ => .err .outOfFuel
  | fuel + 1, w, value, shallow, ssrMockReactivity =>
    match obOf w value with
    | some id => .ok (some id, w)
    | none =>
      if observable w value ssrMockReactivity then
        match value with
        | .obj a => do
          let (id, w1) ← newObserver fuel w a shallow ssrMockReactivity
          Res.ok (some id, w1)
        | _ => .ok (none, w)
      else .ok (none, w)

/-- `new Observer(value, shallow, mock)`: the id of the new Observer. -/
def newObserver : Nat → World → Nat → Bool → Bool → Res (Nat × World)
  | 0, _, _, _, _ => .err .outOfFuel
  | fuel + 1, w, a, shallow, mock =>
    let w1 := if mock then w else (newDep w).2
    let dep := if mock then DepRef.mockDep else DepRef.dep (newDep w).1
    let id := w1.observers.length
    let w2 := { w1 with observers := w1.observers ++
      [{ value := a, shallow := shallow, mock := mock, dep := dep, vmCount := 0 }] }
    let w3 := defOb w2 a id
    if isArray w3 (.obj a) then
      let w4 := if !mock then installArrayMethods w3 a else w3
      if !shallow then do
        let w5 ← observeArray fuel w4 (elemsOf w4 (.obj a)) mock
        Res.ok (id, w5)
      else .ok (id, w4)
    else do
      let keys := (match w3.heap[a]? with
        | some o => objectKeys o
        | none => [])
      let w4 ← walk fuel w3 a keys shallow mock
      Res.ok (id, w4)

/-- `Observer.observeArray(value)`, over the elements of `value`. -/
def observeArray : Nat → World → List (Option Val) → Bool → Res World
  | 0, _, _, _ => .err .outOfFuel
  | _ + 1, w, [], _ => .ok w
  | fuel + 1, w, e :: rest, mock => do
    let (_, w1) ← observe fuel w (e.getD .undefined) false mock
    observeArray fuel w1 rest mock

/-- The loop of the constructor over `Object.keys(value)`. -/
def walk : Nat → World → Nat → List String → Bool → Bool → Res World
  | 0, _, _, _, _, _ => .err .outOfFuel
  | _ + 1, w, _, [], _, _ => .ok w
  | fuel + 1, w, a, key :: rest, shallow, mock => do
    let (_, w1) ← defineReactive fuel w a key (some NO_INITIAL_VALUE) none shallow mock
    walk fuel w1 a rest shallow mock

/-- `export function defineReactive(obj, key, val?, customSetter?, shallow?, mock?)`:
`val = none` is a call with two arguments; the result is the id of the returned Dep. -/
def defineReactive : Nat → World → Nat → String → Option Val → Option Nat → Bool → Bool →
    Res (Option Nat × World)
  | 0, _, _, _, _, _, _, _ => .err .outOfFuel
  | fuel + 1, w, a, key, val, customSetter, shallow, mock =>
    let dep := (newDep w).1
    let w1 := (newDep w).2
    match w1.heap[a]? with
    | none => .err .typeError
    | some o =>
      let property := ownDesc o (.name key)
      if (property.map PropDesc.configurable) = some false then .ok (none, w1)
      else do
        let getter := property.bind PropDesc.getter
        let setter := property.bind PropDesc.setter
        let (val, w2) ← (if (getter.isNone || setter.isSome) &&
              (val == some NO_INITIAL_VALUE || val.isNone) then
            getProp fuel w1 a (.name key)
          else Res.ok (val.getD .undefined, w1))
        let (childOb, w3) ← (if shallow then Res.ok (obOf w2 val, w2)
          else observe fuel w2 val false mock)
        let c := w3.closures.length
        let w4 := { w3 with closures := w3.closures ++
          [{ obj := a, key := key, dep := dep, val := val, childOb := childOb,
             getter := getter, setter := setter, customSetter := customSetter,
             shallow := shallow, mock := mock }] }
        let w5 ← defineProperty w4 a key
          (.accessor (some (.reactive c)) (some (.reactive c)) true true)
        Res.ok (some dep, w5)

end

/-! ## The mutation bridge and the imperative API -/

/-- `function mutator(...args)` of `arrayMethods`. -/
def mutator (fuel : Nat) (w : World) (a : Nat) (call : ArrayCall) : Res (Val × World) := do
  let (result, w1) ← nativeApply w a call
  let ob := obOf w1 (.obj a)
  let w2 ← (match inserted call, ob with
    | some (i :: is), some id =>
      observeArray fuel w1 ((i :: is).map some) ((w1.observers[id]?).elim false (fun x => x.mock))
    | _, _ => Res.ok w1)
  let w3 := (match ob with
    | some id => notify w2 (obDep w2 id)
    | none => w2)
  Res.ok (result, w3)

/-- A method call `target.m(...args)` on an array: the bridge where it is installed. -/
def callArrayMethod (fuel : Nat) (w : World) (a : Nat) (call : ArrayCall) : Res (Val × World) :=
  match w.heap[a]? with
  | none => .err .typeError
  | some o => if o.patched then mutator fuel w a call else nativeApply w a call

/-- `export function set(target, key, val)`. -/
def set (fuel : Nat) (w : World) (target : Val) (key : Key) (val : Val) : Res (Val × World) :=
  match target with
  | .obj a =>
    match w.heap[a]? with
    | none => .err .typeError
    | some o =>
      if isReadonly w target then .ok (.undefined, w)
      else
        let ob := o.ob
        if isArray w target && isValidArrayIndex key then
          -- `target.length = Math.max(target.length, key)`
          if maxArrayLength < max o.elems.length key.index then .err .rangeError
          else do
            let w1 := w.setObj a
              { o with elems := setLength o.elems (max o.elems.length key.index) }
            let (_, w2) ← callArrayMethod fuel w1 a (.splice key.index (some 1) [val])
            match ob.bind (fun id => w2.observers[id]?) with
            | some obr =>
              if !obr.shallow && obr.mock then do
                let (_, w3) ← observe fuel w2 val false true
                Res.ok (val, w3)
              else Res.ok (val, w2)
            | none => Res.ok (val, w2)
        else if keyIn o key && !inObjectPrototype key then do
          let w1 ← setProp fuel w a key val
          Res.ok (val, w1)
        else
          match ob.bind (fun id => w.observers[id]?) with
          | none =>
            if o.isVue then .ok (val, w)
            else do
              let w1 ← setProp fuel w a key val
              Res.ok (val, w1)
          | some obr =>
            if o.isVue || obr.vmCount != 0 then .ok (val, w)
            else do
              let (_, w1) ← defineReactive fuel w obr.value key.toName (some val) none
                obr.shallow obr.mock
              Res.ok (val, notify w1 obr.dep)
  | _ => .err .typeError

/-- `export function del(target, key)`. -/
def del (fuel : Nat) (w : World) (target : Val) (key : Key) : Res World :=
  match target with
  | .obj a =>
    match w.heap[a]? with
    | none => .err .typeError
    | some o =>
      if isArray w target && isValidArrayIndex key then do
        let (_, w1) ← callArrayMethod fuel w a (.splice key.index (some 1) [])
        Res.ok w1
      else
        let ob := o.ob.bind (fun id => w.observers[id]?)
        if o.isVue || (ob.elim false (fun x => x.vmCount != 0)) then .ok w
        else if isReadonly w target then .ok w
        else if !hasOwn o key then .ok w
        else if (ownDesc o key).map PropDesc.configurable = some false then .err .typeError
        else
          let w1 := w.setObj a { o with props := removeProp key.toName o.props }
          match ob with
          | none => .ok w1
          | some obr => .ok (notify w1 obr.dep)
  | _ => .err .typeError

/-! ## Concrete worlds -/

def plainObj (ps : List (String × PropDesc)) : Obj :=
  { cls := .plain, extensible := true, props := ps, elems := [], ob := none,
    vSkip := false, vIsRef := false, vIsReadonly := false, isVue := false, patched := false }

/-- An empty world: only the sentinel `NO_INITIAL_VALUE` on the heap. -/
def emptyWorld : World :=
  { heap := [plainObj []], observers := [], deps := [], closures := [], cells := [],
    target := none, shouldObserve := true, serverRendering := false, dev := true, log := [] }

def Res.get? {α : Type} : Res α → Option α
  | .ok a => some a
  | .err _ => none

/-- An object `{ a: 1 }` at address 1 that already carries the Observer 0. -/
def worldObserved : World :=
  { emptyWorld with
    heap := [plainObj [],
      { (plainObj [("a", .accessor (some (.reactive 0)) (some (.reactive 0)) true true)]) with
        ob := some 0 }],
    observers := [{ value := 1, shallow := false, mock := false, dep := .dep 0, vmCount := 0 }],
    deps := [[], []],
    closures := [
      { obj := 1, key := "a", dep := 1, val := .num 1, childOb := none,
        getter := none, setter := none, customSetter := none, shallow := false,
        mock := false }] }

/-- An object at address 1 whose key `k` is a non-configurable data property. -/
def worldSealedKey : World :=
  { emptyWorld with
    heap := [plainObj [], plainObj [("k", .data (.num 1) true true false)]] }

/-- A read-only array `[1, 2, 3]` at address 1. -/
def worldReadonlyArray : World :=
  { emptyWorld with
    heap := [plainObj [],
      { (emptyArray [some (.num 1), some (.num 2), some (.num 3)]) with vIsReadonly := true }] }

/-- Root data `{ a: 1 }` at address 1: its Observer counts one instance (`vmCount = 1`). -/
def worldRootData : World :=
  { worldObserved with
    observers := [{ value := 1, shallow := false, mock := false, dep := .dep 0, vmCount := 1 }] }

/-! ## Well-formed worlds and the footprint of `observe` -/

/-- The controller `del` and `set` find on an object: `target.__ob__`. -/
def controllerOf (w : World) (o : Obj) : Option Observer :=
  o.ob.bind (fun id => w.observers[id]?)

def PropDesc.reactiveGetter (d : PropDesc) : Bool :=
  match d.getter with
  | some (.reactive _) => true
  | _ => false

/-- No property of the object has a reactive getter. -/
def Obj.rawProps (o : Obj) : Bool :=
  o.props.all (fun p => !p.2.reactiveGetter)

/-- Reactive accessors sit on observed objects only: what holds of every world that
the Observer constructor and `set` have built from plain data. -/
def Inv (w : World) : Prop :=
  w.heap.all (fun o => o.ob.isSome || o.rawProps) = true

instance (w : World) : Decidable (Inv w) := by
  unfold Inv
  infer_instance

/-- The number of heap objects without an Observer. -/
def unobserved (w : World) : Nat :=
  w.heap.countP (fun o => o.ob.isNone)

/-- The run `f` returns `r` for every large enough fuel. -/
def Conv {α : Type} (f : Nat → Res α) (r : α) : Prop :=
  ∃ N, ∀ fuel, N ≤ fuel → f fuel = .ok r

/-- What a run of the Observer constructor may do to one object: set `__ob__`, install the
array methods, replace property descriptors, and nothing to an object that is already
observed, except to the descriptors of the object being walked (`exempt`). -/
def ObjExt (exempt : Prop) (o o1 : Obj) : Prop :=
  o1 = { o with ob := o1.ob, props := o1.props, patched := o1.patched } ∧
  (o.ob.isSome → o1.ob = o.ob ∧ o1.patched = o.patched ∧ (¬ exempt → o1.props = o.props)) ∧
  (o.ob = none → o1.ob = none → o1 = o)

/-- The footprint of a run of the Observer constructor on the world; `s` is the object
whose keys are being walked, if any. -/
structure Ext (s : Option Nat) (w w1 : World) : Prop where
  heapLen : w1.heap.length = w.heap.length
  objs : ∀ a o, w.heap[a]? = some o → ∃ o1, w1.heap[a]? = some o1 ∧ ObjExt (s = some a) o o1
  observers : w.observers <+: w1.observers
  closures : w.closures <+: w1.closures
  deps : w.deps <+: w1.deps
  log : w1.log = w.log
  target : w1.target = w.target
  cells : w1.cells = w.cells
  shouldObserve : w1.shouldObserve = w.shouldObserve
  serverRendering : w1.serverRendering = w.serverRendering
  dev : w1.dev = w.dev

/-- What `obj[key]` yields where the own descriptor has no reactive getter. -/
def rawValue (w : World) (o : Obj) (key : Key) : Val :=
  match ownDesc o key with
  | some (.data v _ _ _) => v
  | some (.accessor (some (.user cell)) _ _ _) => w.cells.getD cell .undefined
  | _ => .undefined

/-- The value `defineReactive` closes over where the own descriptor has no reactive
getter: `obj[key]` if the caller gave no initial value and the property is not
getter-only, the argument `val` otherwise. -/
def initialValue (w : World) (o : Obj) (key : String) (val : Option Val) : Val :=
  if (((ownDesc o (.name key)).bind PropDesc.getter).isNone ||
      ((ownDesc o (.name key)).bind PropDesc.setter).isSome) &&
      (val == some NO_INITIAL_VALUE || val.isNone) then
    rawValue w o (.name key)
  else val.getD .undefined

/-- The accessor descriptor `defineReactive` installs for the closure `c`. -/
def reactiveDesc (c : Nat) : PropDesc :=
  .accessor (some (.reactive c)) (some (.reactive c)) true true

/-- The closure `defineReactive(obj, key, val, customSetter, shallow, mock)` creates for a
property without reactive getter, up to its child Observer. -/
def closureFor (w : World) (a : Nat) (o : Obj) (key : String) (val : Option Val)
    (hook : Option Nat) (shallow mock : Bool) (childOb : Option Nat) : Closure :=
  { obj := a, key := key, dep := w.deps.length, val := initialValue w o key val,
    childOb := childOb, getter := (ownDesc o (.name key)).bind PropDesc.getter,
    setter := (ownDesc o (.name key)).bind PropDesc.setter, customSetter := hook,
    shallow := shallow, mock := mock }

/-- What `defineReactive` has done when it returns on an observed object whose property
has no reactive getter. -/
def DefinePost (w : World) (a : Nat) (o : Obj) (key : String) (val : Option Val)
    (hook : Option Nat) (shallow mock : Bool) (r : Option Nat) (w1 : World) : Prop :=
  ((ownDesc o (.name key)).map PropDesc.configurable = some false →
    r = none ∧ w1 = { w with deps := w.deps ++ [[]] }) ∧
  ((ownDesc o (.name key)).map PropDesc.configurable ≠ some false →
    r = some w.deps.length ∧ ∃ cob c,
      w1.heap[a]? = some { o with props := defineProp key (reactiveDesc c) o.props } ∧
      w1.closures[c]? = some (closureFor w a o key val hook shallow mock cob) ∧
      w.closures.length ≤ c ∧
      w1.deps[w.deps.length]? = some [])

/-- What the loop of the constructor over `keys` has done to the object at `a`: every
configurable key of the loop is a reactive accessor over a closure of its own with a
fresh, empty Dep; the other keys are as they were. -/
def WalkPost (w : World) (a : Nat) (o : Obj) (keys : List String) (shallow mock : Bool)
    (w1 : World) : Prop :=
  ∃ o1, w1.heap[a]? = some o1 ∧ o1 = { o with props := o1.props } ∧
    (∀ key, key ∉ keys → lookupProp key o1.props = lookupProp key o.props) ∧
    (∀ key, key ∈ keys → ∀ d, lookupProp key o.props = some d → d.configurable = true →
      ∃ c cob dep,
        lookupProp key o1.props = some (reactiveDesc c) ∧
        w1.closures[c]? = some
          { closureFor w a o key (some NO_INITIAL_VALUE) none shallow mock cob with
            dep := dep } ∧
        w.closures.length ≤ c ∧ w.deps.length ≤ dep ∧ w1.deps[dep]? = some [])

/-- What `observe(value, shallow, mock)` has done when it returns. -/
def ObservePost (w : World) (value : Val) (shallow mock : Bool) (r : Option Nat)
    (w1 : World) : Prop :=
  (∀ id, obOf w value = some id → r = some id ∧ w1 = w) ∧
  (obOf w value = none → observable w value mock = false → r = none ∧ w1 = w) ∧
  (obOf w value = none → observable w value mock = true →
    ∃ a o o1, value = .obj a ∧ w.heap[a]? = some o ∧ r = some w.observers.length ∧
      w1.observers[w.observers.length]? = some
        { value := a, shallow := shallow, mock := mock,
          dep := if mock then .mockDep else .dep w.deps.length, vmCount := 0 } ∧
      (mock = false → w1.deps[w.deps.length]? = some []) ∧
      w1.heap[a]? = some o1 ∧ o1.ob = some w.observers.length ∧
      o1 = { o with ob := o1.ob, props := o1.props, patched := o1.patched } ∧
      (o.cls = .array → o1.props = o.props ∧ o1.patched = (!mock || o.patched)) ∧
      (o.cls ≠ .array → o1.patched = o.patched ∧
        ∀ key d, lookupProp key o.props = some d → d.enumerable = true →
          d.configurable = true →
          ∃ c cob dep,
            lookupProp key o1.props = some (reactiveDesc c) ∧
            w1.closures[c]? = some
              { closureFor w a o key (some NO_INITIAL_VALUE) none shallow mock cob with
                dep := dep } ∧
            w.closures.length ≤ c ∧ w.deps.length + (if mock then 0 else 1) ≤ dep ∧
            w1.deps[dep]? = some []))

/-- The object at `a` after the head of the Observer constructor: `__ob__` is set and, on
an array outside mock mode, the array methods are installed. -/
def markedObj (w : World) (o : Obj) (mock : Bool) : Obj :=
  { o with ob := some w.observers.length,
           patched := if o.cls = .array then (!mock || o.patched) else o.patched }

/-- The world after the head of the Observer constructor on the object `o` at `a`: the
Dep of the Observer, the Observer and the marks on the object. -/
def afterHead (w : World) (a : Nat) (o : Obj) (shallow mock : Bool) : World :=
  { w with
    deps := if mock then w.deps else w.deps ++ [[]],
    observers := w.observers ++
      [{ value := a, shallow := shallow, mock := mock,
         dep := if mock then .mockDep else .dep w.deps.length, vmCount := 0 }],
    heap := w.heap.set a (markedObj w o mock) }

/-- The reasons for which `observe` refuses a value without controller: observation is
globally disabled, the value is neither an array nor a plain object, it is not
extensible, it has a truthy `__v_skip`, it is a ref, it is a VNode, or the runtime is
server rendering and mock reactivity was not requested. -/
def Declines (w : World) (value : Val) (mock : Bool) : Prop :=
  w.shouldObserve = false ∨ (isArray w value = false ∧ isPlainObject w value = false) ∨
    isExtensible w value = false ∨ vSkip w value = true ∨ isRef w value = true ∨
    isVNode w value = true ∨ (w.serverRendering = true ∧ mock = false)

instance (w : World) (value : Val) (mock : Bool) : Decidable (Declines w value mock) := by
  unfold Declines
  infer_instance

/-- An unobserved object `{ a: 1 }` at address 1. -/
def worldPlain : World :=
  { emptyWorld with heap := [plainObj [], plainObj [("a", .data (.num 1) true true true)]] }

/-- The two worlds differ at most in the subscriber lists of their Deps. -/
def SameButDeps (w w1 : World) : Prop :=
  w1 = { w with deps := w1.deps }

/-! ## Tracking -/

/-- The arrays below the element list nest at most `n` deep. -/
def nestedWithin : Nat → World → List (Option Val) → Bool
  | 0, w, es => es.all (fun e => !isArray w (e.getD .undefined))
  | n + 1, w, es => es.all (fun e =>
      !isArray w (e.getD .undefined) || nestedWithin n w (elemsOf w (e.getD .undefined)))

/-- The value is an element of the list or of an array nested in it. -/
inductive Reaches (w : World) : List (Option Val) → Val → Prop
  | direct {es : List (Option Val)} {e : Val} : some e ∈ es → Reaches w es e
  | nested {es : List (Option Val)} {a e : Val} :
      some a ∈ es → isArray w a = true → Reaches w (elemsOf w a) e → Reaches w es e

/-- From `w` to `w1` nothing has happened but registrations of the reader `r`: every Dep
has the subscribers it had, or those and `r` after them. -/
def Registered (r : Nat) (w w1 : World) : Prop :=
  SameButDeps w w1 ∧ w1.deps.length = w.deps.length ∧
  ∀ d, w1.deps.getD d [] = w.deps.getD d [] ∨
    (r ∉ w.deps.getD d [] ∧ w1.deps.getD d [] = w.deps.getD d [] ++ [r])

/-- Plain data `{ list: [ {} ] }`: the object at 1, its array at 2 (extensible or not), the
element at 3. -/
def rawList (extensible : Bool) : World :=
  { emptyWorld with
    heap := [plainObj [], plainObj [("list", .data (.obj 2) true true true)],
      { (emptyArray [some (.obj 3)]) with extensible := extensible }, plainObj []] }

/-- The world `observe` makes of `rawList true`, with the reader 7 active. -/
def worldList : World :=
  { emptyWorld with
    heap := [plainObj [],
      { (plainObj [("list", reactiveDesc 0)]) with ob := some 0 },
      { (emptyArray [some (.obj 3)]) with ob := some 1, patched := true },
      { (plainObj []) with ob := some 2 }],
    observers := [
      { value := 1, shallow := false, mock := false, dep := .dep 0, vmCount := 0 },
      { value := 2, shallow := false, mock := false, dep := .dep 2, vmCount := 0 },
      { value := 3, shallow := false, mock := false, dep := .dep 3, vmCount := 0 }],
    deps := [[], [], [], []],
    closures := [
      { obj := 1, key := "list", dep := 1, val := .obj 2, childOb := some 1,
        getter := none, setter := none, customSetter := none, shallow := false,
        mock := false }],
    target := some 7 }

/-- Plain data `{ a: 1 }` at address 1 beside a ref at address 2 whose inner value is 5. -/
def worldWithRef : World :=
  { emptyWorld with
    heap := [plainObj [], plainObj [("a", .data (.num 1) true true true)],
      { (plainObj [("value", .data (.num 5) true true true)]) with vIsRef := true }] }

/-- The world `observe` makes of `worldWithRef`: `{ a: 1 }` observed, the ref untouched. -/
def worldRefObserved : World :=
  { worldWithRef with
    heap := [plainObj [], { (plainObj [("a", reactiveDesc 0)]) with ob := some 0 },
      { (plainObj [("value", .data (.num 5) true true true)]) with vIsRef := true }],
    observers := [{ value := 1, shallow := false, mock := false, dep := .dep 0, vmCount := 0 }],
    deps := [[], []],
    closures := [
      { obj := 1, key := "a", dep := 1, val := .num 1, childOb := none,
        getter := none, setter := none, customSetter := none, shallow := false,
        mock := false }] }

/-- The world after `set(obj, 'k', ref)` on `worldRefObserved`. -/
def worldRefSet : World :=
  { worldRefObserved with
    heap := [plainObj [],
      { (plainObj [("a", reactiveDesc 0), ("k", reactiveDesc 1)]) with ob := some 0 },
      { (plainObj [("value", .data (.num 5) true true true)]) with vIsRef := true }],
    deps := [[], [], []],
    closures := [
      { obj := 1, key := "a", dep := 1, val := .num 1, childOb := none,
        getter := none, setter := none, customSetter := none, shallow := false,
        mock := false },
      { obj := 1, key := "k", dep := 2, val := .obj 2, childOb := none,
        getter := none, setter := none, customSetter := none, shallow := false,
        mock := false }],
    log := [Event.notify (.dep 0)] }

/-- The world after the native `splice(k, 1, v)` that `set(array, k, v)` performs on the
array `o` at `a` (after `length = max(length, k)`): the array holds `setElem`, and the
array of the removed elements has been allocated. -/
def afterSplice (w : World) (a : Nat) (o : Obj) (k : Nat) (v : Val) : World :=
  let removed := emptyArray ((o.elems.drop k).take 1)
  let o1 : Obj := { o with elems := setElem o.elems k v }
  { w with heap := (w.heap ++ [removed]).set a o1 }

/-- An array `[1, 2, 3]` at address 1 in a server-rendering world. -/
def worldMockRaw : World :=
  { emptyWorld with
    serverRendering := true,
    heap := [plainObj [], emptyArray [some (.num 1), some (.num 2), some (.num 3)]] }

/-- The world `observe(array, false, true)` makes of `worldMockRaw`: the array carries a
mock Observer and keeps the native array methods. -/
def worldMockArray : World :=
  { worldMockRaw with
    heap := [plainObj [],
      { (emptyArray [some (.num 1), some (.num 2), some (.num 3)]) with ob := some 0 }],
    observers := [{ value := 1, shallow := false, mock := true, dep := .mockDep, vmCount := 0 }] }

/-- What `set(array, k, v)` leaves in the array, in the words of the claim. -/
def SetElems (es es1 : List (Option Val)) (k : Nat) (v : Val) : Prop :=
  es1.length = max es.length (k + 1) ∧ es1[k]? = some (some v) ∧
  (∀ i, i < es.length → i ≠ k → es1[i]? = es[i]?) ∧
  (∀ i, es.length ≤ i → i < k → es1[i]? = some none)

/-! ## Shallow observation -/

/-- From `w` to `w1` no object but the one at `a` has changed and no Observer was made. -/
def FrameAt (a : Nat) (w w1 : World) : Prop :=
  (∀ n, n ≠ a → w1.heap[n]? = w.heap[n]?) ∧ w1.observers = w.observers

/-- Every own named property of the object is a data property. -/
def Obj.dataOnly (o : Obj) : Bool :=
  o.props.all (fun p => match p.2 with
    | .data _ _ _ _ => true
    | .accessor _ _ _ _ => false)

/-- A plain object at address 1 whose key `self` holds the object itself. -/
def worldSelf : World :=
  { emptyWorld with
    heap := [plainObj [], plainObj [("self", .data (.obj 1) true true true)]] }

/-- Plain data `{ k: { x: 1 } }`: the object at 1, the nested object at 2. -/
def worldNested : World :=
  { emptyWorld with
    heap := [plainObj [], plainObj [("k", .data (.obj 2) true true true)],
      plainObj [("x", .data (.num 1) true true true)]] }

/-! ## Write-through to a ref -/

/-- The world before the setter acts: the custom hook has run where the build is a
development build (`if (__DEV__ && customSetter) customSetter()`). -/
def afterHook (w : World) (cl : Closure) : World :=
  match cl.customSetter with
  | some h => if w.dev then w.emit (.hook h) else w
  | none => w

/-- Plain data `{ a: ref }` at address 1, the ref (inner value 5) at address 2. -/
def worldHoldsRef : World :=
  { emptyWorld with
    heap := [plainObj [], plainObj [("a", .data (.obj 2) true true true)],
      { (plainObj [("value", .data (.num 5) true true true)]) with vIsRef := true }] }

/-- The world `observe` makes of `worldHoldsRef`, after the reader 7 has read `a`: 7 is
the subscriber of the Dep of `a` (1). -/
def worldRefHeld : World :=
  { emptyWorld with
    heap := [plainObj [], { (plainObj [("a", reactiveDesc 0)]) with ob := some 0 },
      { (plainObj [("value", .data (.num 5) true true true)]) with vIsRef := true }],
    observers := [{ value := 1, shallow := false, mock := false, dep := .dep 0, vmCount := 0 }],
    deps := [[], [7]],
    closures := [
      { obj := 1, key := "a", dep := 1, val := .obj 2, childOb := none,
        getter := none, setter := none, customSetter := none, shallow := false,
        mock := false }] }

/-! ## The mutation bridge against the native methods -/

/-- The inserted elements in the words of the specification: all arguments for append
and insert-at-start, the arguments after the first two for splice-region, none for the
other operations. -/
def insertedSpec : ArrayCall → List Val
  | .push items => items
  | .unshift items => items
  | .splice _ _ items => items
  | .pop => []
  | .shift => []
  | .sort _ => []
  | .reverse => []

/-- The bridge in the words of the specification: replay the native operation, observe
the inserted elements if there are any, notify the Dep of the controller `obr` and return
what the native operation returned. -/
def bridgeSpec (fuel : Nat) (w : World) (a : Nat) (call : ArrayCall) (obr : Observer) :
    Res (Val × World) := do
  let (result, w1) ← nativeApply w a call
  let w2 ← (if insertedSpec call = [] then Res.ok w1
    else observeArray fuel w1 ((insertedSpec call).map some) obr.mock)
  Res.ok (result, notify w2 obr.dep)

/-- The observed array `[3, 1, 2]` at address 1, with the reader 7 on the Dep of its
controller, and an unobserved object at address 2. -/
def worldBridge : World :=
  { emptyWorld with
    heap := [plainObj [],
      { (emptyArray [some (.num 3), some (.num 1), some (.num 2)]) with
        ob := some 0, patched := true },
      plainObj [("x", .data (.num 1) true true true)]],
    observers := [{ value := 1, shallow := false, mock := false, dep := .dep 0, vmCount := 0 }],
    deps := [[7]] }

/-- Two unobserved objects: `{ a: 1 }` at address 1 and `{ x: 1 }` at address 2. -/
def worldTwo : World :=
  { emptyWorld with
    heap := [plainObj [], plainObj [("a", .data (.num 1) true true true)],
      plainObj [("x", .data (.num 1) true true true)]] }

/-- The world `observe` makes of `worldTwo` at `{ a: 1 }`, after the reader 7, still
active, has read `a`. -/
def worldTwoRead : World :=
  { emptyWorld with
    heap := [plainObj [], { (plainObj [("a", reactiveDesc 0)]) with ob := some 0 },
      plainObj [("x", .data (.num 1) true true true)]],
    observers := [{ value := 1, shallow := false, mock := false, dep := .dep 0, vmCount := 0 }],
    deps := [[], [7]],
    closures := [
      { obj := 1, key := "a", dep := 1, val := .num 1, childOb := none,
        getter := none, setter := none, customSetter := none, shallow := false,
        mock := false }],
    target := some 7 }

end VueObserver

/-! # Template to AST (`src/examples/dom-to-ast-demo.js`)

Strings are lists of characters; a position counts UTF-16 code units, as `index` does in
the source.  The four regular expressions of `parseHTML` are matched by hand: each
matcher returns the capture groups and the number of characters of the whole match. -/

namespace TemplateParser

open VueObserver

/-- The class `[a-zA-Z]`. -/
def isLetter (c : Char) : Bool :=
  (65 ≤ c.toNat && c.toNat ≤ 90) || (97 ≤ c.toNat && c.toNat ≤ 122)

/-- The class `[a-zA-Z_]`. -/
def isNameStart (c : Char) : Bool :=
  isLetter c || c.toNat == 95

/-- The class `[\w\-\.]`. -/
def isNameChar (c : Char) : Bool :=
  isLetter c || (48 ≤ c.toNat && c.toNat ≤ 57) || c.toNat == 95 || c.toNat == 45 ||
    c.toNat == 46

/-- The class `\s`, which is also what `trim` removes. -/
def isSpace (c : Char) : Bool :=
  [0x09, 0x0A, 0x0B, 0x0C, 0x0D, 0x20, 0xA0, 0x1680, 0x2028, 0x2029, 0x202F, 0x205F, 0x3000,
    0xFEFF].contains c.toNat || (0x2000 ≤ c.toNat && c.toNat ≤ 0x200A)

/-- The class of an attribute name: none of whitespace, the two quotes, `<`, `>`, `/`
and `=`. -/
def isAttrNameChar (c : Char) : Bool :=
  !(isSpace c || [34, 39, 60, 62, 47, 61].contains c.toNat)

/-- The class of an unquoted attribute value: none of whitespace, the two quotes, `=`,
`<`, `>` and the backtick. -/
def isUnquotedChar (c : Char) : Bool :=
  !(isSpace c || [34, 39, 61, 60, 62, 96].contains c.toNat)

/-- The length of a string in UTF-16 code units. -/
def utf16Length (cs : List Char) : Nat :=
  (cs.map (fun c => if c.toNat < 0x10000 then 1 else 2)).sum

/-- `startTagOpen`: `<`, a name; the group is the tag name. -/
def startTagOpen (html : List Char) : Option (List Char × Nat) :=
  match html with
  | lt :: c :: cs =>
    if lt.toNat == 60 && isNameStart c then
      let name := c :: cs.takeWhile isNameChar
      some (name, 1 + name.length)
    else none
  | _ => none

/-- `startTagClose`: whitespace, an optional `/`, then `>`; the group is the slash. -/
def startTagClose (html : List Char) : Option (List Char × Nat) :=
  let ws := (html.takeWhile isSpace).length
  match html.dropWhile isSpace with
  | c :: rest =>
    if c.toNat == 62 then some ([], ws + 1)
    else if c.toNat == 47 then
      match rest with
      | d :: _ => if d.toNat == 62 then some ([c], ws + 2) else none
      | [] => none
    else none
  | [] => none

/-- `endTag`: `</`, a name, `>`; the group is the tag name. -/
def endTag (html : List Char) : Option (List Char × Nat) :=
  match html with
  | lt :: sl :: c :: cs =>
    if lt.toNat == 60 && sl.toNat == 47 && isNameStart c then
      let name := c :: cs.takeWhile isNameChar
      match cs.dropWhile isNameChar with
      | gt :: _ => if gt.toNat == 62 then some (name, 2 + name.length + 1) else none
      | [] => none
    else none
  | _ => none

/-- The optional part of `attribute` after the name: whitespace, `=`, whitespace and a
value in double quotes, in single quotes or unquoted.  The result is the value and the
number of characters matched. -/
def attributeValue (after : List Char) : Option (List Char × Nat) :=
  let ws2 := (after.takeWhile isSpace).length
  match after.dropWhile isSpace with
  | eq :: r3 =>
    if eq.toNat == 61 then
      let ws3 := (r3.takeWhile isSpace).length
      match r3.dropWhile isSpace with
      | q :: r5 =>
        if q.toNat == 34 || q.toNat == 39 then
          let v := r5.takeWhile (fun c => c != q)
          let qs := ((r5.dropWhile (fun c => c != q)).takeWhile (fun c => c == q)).length
          if qs == 0 then none else some (v, ws2 + 1 + ws3 + 1 + v.length + qs)
        else
          let v := (q :: r5).takeWhile isUnquotedChar
          if v.length == 0 then none else some (v, ws2 + 1 + ws3 + v.length)
      | [] => none
    else none
  | [] => none

/-- `attribute`: whitespace, a name and the optional value; the result is the name,
`attr[3] || attr[4] || attr[5] || ''` and the number of characters matched. -/
def matchAttribute (html : List Char) : Option (List Char × List Char × Nat) :=
  let ws := (html.takeWhile isSpace).length
  let name := (html.dropWhile isSpace).takeWhile isAttrNameChar
  if name.length == 0 then none
  else
    match attributeValue ((html.dropWhile isSpace).dropWhile isAttrNameChar) with
    | some (v, n) => some (name, v, ws + name.length + n)
    | none => some (name, [], ws + name.length)

/-! ## AST nodes -/

/-- What `createASTElement` returns (`type: 1`, `plain: true`, `static: false`,
`staticRoot: false`); `parent` and `children` refer to nodes of the store. -/
structure ASTElement where
  tag : String
  attrsList : List (String × String)
  attrsMap : List (String × String)
  parent : Option Nat
  children : List Nat
deriving DecidableEq, Repr

inductive ASTNode
  | element (e : ASTElement)
  | text (text : String)
deriving DecidableEq, Repr

/-- `ASTNodeTypes`: `ELEMENT: 1`, `TEXT: 3`. -/
def ASTNode.type : ASTNode → Nat
  | .element _ => 1
  | .text _ => 3

/-- `function makeAttrsMap(attrs)`: a later attribute of the same name overwrites. -/
def makeAttrsMap : List (String × String) → List (String × String)
  | [] => []
  | (n, v) :: rest =>
    let m := makeAttrsMap rest
    if (m.map (fun q => q.1)).contains n then (n, (m.lookup n).getD v) :: m.filter (fun q => q.1 != n)
    else (n, v) :: m

/-- `function createASTElement(tag, attrs = [], parent = null)`. -/
def createASTElement (tag : String) (attrs : List (String × String)) (parent : Option Nat) :
    ASTElement :=
  { tag := tag, attrsList := attrs, attrsMap := makeAttrsMap attrs, parent := parent,
    children := [] }

/-- `function createASTText(text)`. -/
def createASTText (text : String) : ASTNode :=
  .text text

/-- `node.children.push(child)` on the node `p` of the store. -/
def pushChild (nodes : List ASTNode) (p child : Nat) : List ASTNode :=
  match nodes[p]? with
  | some (.element e) => nodes.set p (.element { e with children := e.children ++ [child] })
  | _ => nodes

/-- The `tag` of the node `i` of the store. -/
def tagOf (nodes : List ASTNode) (i : Nat) : Option String :=
  match nodes[i]? with
  | some (.element e) => some e.tag
  | _ => none

/-! ## `parseHTML` -/

/-- The `options` of `parseHTML`: the callbacks of the caller, acting on its state.
`onStart` is `options.start(tag, attrs, unary, start, end)`, `onEnd` is
`options.end(tag, start, end)` and `onChars` is `options.chars(text, start, end)`. -/
structure Options (σ : Type) where
  onStart : Option (String → List (String × String) → Bool → Nat → Nat → σ → σ)
  onEnd : Option (String → Option Nat → Option Nat → σ → σ)
  onChars : Option (String → Nat → Nat → σ → σ)

/-- The variables of `parseHTML`; `nodes` holds the elements it creates. -/
structure HtmlState where
  html : List Char
  index : Nat
  stack : List Nat
  currentParent : Option Nat
  root : Option Nat
  nodes : List ASTNode
deriving DecidableEq, Repr

/-- The `match` of `parseStartTag`. -/
structure TagMatch where
  tagName : List Char
  attrs : List (List Char × List Char)
  start : Nat
  unarySlash : List Char
  stop : Nat
deriving DecidableEq, Repr

/-- `function advance(n)`. -/
def advance (st : HtmlState) (n : Nat) : HtmlState :=
  { st with index := st.index + utf16Length (st.html.take n), html := st.html.drop n }

/-- The loop of `parseStartTag` over the attributes: it ends at the close of the start
tag (the result holds its match) or where no attribute matches. -/
def parseAttrs : Nat → HtmlState → List (List Char × List Char) →
    Res (Option (List Char × Nat) × HtmlState × List (List Char × List Char))
  | 0, _, _ => .err .outOfFuel
  | fuel + 1, st, attrs =>
    match startTagClose st.html with
    | some e => .ok (some e, st, attrs)
    | none =>
      match matchAttribute st.html with
      | some (name, value, n) => parseAttrs fuel (advance st n) (attrs ++ [(name, value)])
      | none => .ok (none, st, attrs)

/-- `function parseStartTag()`. -/
def parseStartTag (fuel : Nat) (st : HtmlState) : Res (Option TagMatch × HtmlState) :=
  match startTagOpen st.html with
  | some (name, n) => do
    let (e, st1, attrs) ← parseAttrs fuel (advance st n) []
    match e with
    | some (slash, m) =>
      let st2 := advance st1 m
      Res.ok (some { tagName := name, attrs := attrs, start := st.index, unarySlash := slash,
                     stop := st2.index }, st2)
    | none => Res.ok (none, st1)
  | none => .ok (none, st)

/-- `element.parent = p` on the node `element` of the store. -/
def setParent (nodes : List ASTNode) (element p : Nat) : List ASTNode :=
  match nodes[element]? with
  | some (.element e) => nodes.set element (.element { e with parent := some p })
  | _ => nodes

/-- `function closeElement(element)`; `forbidden` is never set. -/
def closeElement (nodes : List ASTNode) (currentParent : Option Nat) (element : Nat) :
    List ASTNode :=
  match currentParent with
  | some p => setParent (pushChild nodes p element) element p
  | none => nodes

/-- `function handleStartTag(match)`: it creates the element and never calls
`options.start`. -/
def handleStartTag (st : HtmlState) (m : TagMatch) : HtmlState :=
  let unary := !m.unarySlash.isEmpty
  let attrs := m.attrs.map (fun p => (String.mk p.1, String.mk p.2))
  let element := st.nodes.length
  let node := ASTNode.element (createASTElement (String.mk m.tagName) attrs st.currentParent)
  let st1 : HtmlState := { st with
    nodes := st.nodes ++ [node],
    root := if st.root.isSome then st.root else some element }
  if !unary then { st1 with currentParent := some element, stack := st1.stack ++ [element] }
  else { st1 with nodes := closeElement st1.nodes st1.currentParent element }

/-- The first loop of `parseEndTag`: the highest position of the stack whose element
has the tag. -/
def findPos (nodes : List ASTNode) (tagName : String) : List Nat → Option Nat
  | [] => none
  | e :: rest =>
    match findPos nodes tagName rest with
    | some pos => some (pos + 1)
    | none => if tagOf nodes e = some tagName then some 0 else none

/-- `function parseEndTag(tagName)`: `options.end` is called for every element from the
top of the stack down to the position found, with the `start` and `end` of the element,
which are undefined. -/
def parseEndTag {σ : Type} (options : Options σ) (st : HtmlState) (tagName : String) (u : σ) :
    HtmlState × σ :=
  match findPos st.nodes tagName st.stack with
  | some pos =>
    let u1 := ((st.stack.drop pos).reverse).foldl (fun u i =>
      match options.onEnd with
      | some f => f ((tagOf st.nodes i).getD "") none none u
      | none => u) u
    ({ st with stack := st.stack.take pos,
               currentParent := if pos = 0 then none else st.stack[pos - 1]? }, u1)
  | none => (st, u)

/-- `html.indexOf('<')`; `none` stands for -1. -/
def indexOfLt (html : List Char) : Option Nat :=
  let n := (html.takeWhile (fun c => c.toNat != 60)).length
  if n < html.length then some n else none

/-- The end of the loop body: the text up to `textEnd` is taken off and handed to
`options.chars`. -/
def textStep {σ : Type} (options : Options σ) (st : HtmlState) (textEnd : Option Nat) (u : σ) :
    HtmlState × σ :=
  let text := (match textEnd with
    | some n => st.html.take n
    | none => st.html)
  let st1 := if text.isEmpty then st else advance st text.length
  let u1 := (match options.onChars with
    | some f =>
      if text.isEmpty then u
      else f (String.mk text) (st1.index - utf16Length text) st1.index u
    | none => u)
  (st1, u1)

/-- The loop `while (html)` of `parseHTML`. -/
def parseLoop {σ : Type} (options : Options σ) : Nat → HtmlState → σ → Res (HtmlState × σ)
  | 0, _, _ => .err .outOfFuel
  | fuel + 1, st, u =>
    if st.html.isEmpty then .ok (st, u)
    else
      let textEnd := indexOfLt st.html
      if textEnd = some 0 then
        match endTag st.html with
        | some (name, n) =>
          let r := parseEndTag options (advance st n) (String.mk name) u
          parseLoop options fuel r.1 r.2
        | none =>
          match parseStartTag fuel st with
          | .err e => .err e
          | .ok (some m, st1) => parseLoop options fuel (handleStartTag st1 m) u
          | .ok (none, st1) =>
            let r := textStep options st1 textEnd u
            parseLoop options fuel r.1 r.2
      else
        let r := textStep options st textEnd u
        parseLoop options fuel r.1 r.2

/-- `function parseHTML(html, options)`: the result is its own `root`, with the store of
the elements it created. -/
def parseHTML {σ : Type} (fuel : Nat) (html : List Char) (options : Options σ) (u : σ) :
    Res (Option Nat × List ASTNode × σ) := do
  let (st, u1) ← parseLoop options fuel
    { html := html, index := 0, stack := [], currentParent := none, root := none, nodes := [] } u
  Res.ok (st.root, st.nodes, u1)

/-! ## `parse` -/

/-- The variables of `parse` that its callbacks close over, and the nodes they create. -/
structure ParseState where
  root : Option Nat
  currentParent : Option Nat
  stack : List Nat
  nodes : List ASTNode
deriving DecidableEq, Repr

/-- The callback `start(tag, attrs, unary, start, end)` of `parse`. -/
def parseOnStart (tag : String) (attrs : List (String × String)) (unary : Bool) (_ _ : Nat)
    (s : ParseState) : ParseState :=
  let element := s.nodes.length
  let s1 : ParseState := { s with
    nodes := s.nodes ++ [.element (createASTElement tag attrs s.currentParent)],
    root := if s.root.isSome then s.root else some element }
  if !unary then { s1 with currentParent := some element, stack := s1.stack ++ [element] }
  else { s1 with nodes := closeElement s1.nodes s1.currentParent element }

/-- The callback `end(tag, start, end)` of `parse`. -/
def parseOnEnd (_ : String) (_ _ : Option Nat) (s : ParseState) : ParseState :=
  match s.stack.getLast? with
  | some element =>
    let stack := s.stack.dropLast
    let currentParent := stack.getLast?
    { s with stack := stack, currentParent := currentParent,
             nodes := closeElement s.nodes currentParent element }
  | none => s

/-- The callback `chars(text, start, end)` of `parse`. -/
def parseOnChars (text : String) (_ _ : Nat) (s : ParseState) : ParseState :=
  match s.currentParent with
  | some p =>
    if text.toList.any (fun c => !isSpace c) then
      { s with nodes := pushChild (s.nodes ++ [createASTText text]) p s.nodes.length }
    else s
  | none => s

/-- The object `parse` hands to `parseHTML`: `{ start, end, chars }`. -/
def parseOptions : Options ParseState :=
  { onStart := some parseOnStart, onEnd := some parseOnEnd, onChars := some parseOnChars }

/-- The variables of `parse` at its start: `root = null`, `currentParent = null`,
`stack = []`. -/
def ParseState.init : ParseState :=
  { root := none, currentParent := none, stack := [], nodes := [] }

/-- `function parse(template, options = {})`: what it returns is its own `root`, with the
store of the nodes its callbacks created; the result of `parseHTML` is dropped. -/
def parse (fuel : Nat) (template : String) : Res (Option Nat × List ASTNode) := do
  let (_, _, s) ← parseHTML fuel template.toList parseOptions ParseState.init
  Res.ok (s.root, s.nodes)

/-- A caller of `parseHTML` without callbacks. -/
def noOptions : Options Unit :=
  { onStart := none, onEnd := none, onChars := none }

end TemplateParser

namespace VueObserver

/-! ## The result monad -/

@[simp] theorem Res.ok_bind {α β : Type} (a : α) (f : α → Res β) :
    (Res.ok a >>= f) = f a := rfl

@[simp] theorem Res.err_bind {α β : Type} (e : Err) (f : α → Res β) :
    ((Res.err e : Res α) >>= f) = Res.err e := rfl

@[simp] theorem Res.pure_eq {α : Type} (a : α) : (pure a : Res α) = Res.ok a := rfl

theorem Res.bind_eq_ok {α β : Type} (x : Res α) (f : α → Res β) (b : β) :
    (x >>= f) = Res.ok b ↔ ∃ a, x = Res.ok a ∧ f a = Res.ok b := by
  cases x with
  | ok a => simp
  | err e => simp

/-! ## C1: observe on a value that carries its Observer -/

/-- C1: for every value that already carries its own `__ob__` Observer, `observe` returns
that same controller, whatever the `shallow` and `mock` arguments and whatever the global
`shouldObserve` flag, and leaves the whole world as it was: no Observer, no Dep and no
closure is created and no property is re-defined. -/
theorem observe_idempotent (fuel : Nat) (w : World) (value : Val) (shallow mock : Bool)
    (id : Nat) (h : obOf w value = some id) :
    observe (fuel + 1) w value shallow mock = .ok (some id, w) ∧
    ∀ b, observe (fuel + 1) (toggleObserving w b) value shallow mock =
      .ok (some id, toggleObserving w b) := by
  constructor
  · simp [observe, h]
  · intro b
    have h2 : obOf (toggleObserving w b) value = some id := by
      simpa [obOf, World.objOf, toggleObserving] using h
    simp [observe, h2]

theorem observe_idempotent_witness :
    obOf worldObserved (.obj 1) = some 0 ∧
    observe 1 worldObserved (.obj 1) true true = .ok (some 0, worldObserved) :=
  ⟨by decide, (observe_idempotent 0 worldObserved (.obj 1) true true 0 (by decide)).1⟩

/-! ## C6: a non-configurable property -/

/-- C6 (as amended): for every object and key whose own property descriptor is explicitly
non-configurable, `defineReactive` aborts: it returns none and leaves the heap (every
descriptor), the closures, the Observers and the log exactly as they were; the one effect
of the call is the Dep that its first statement `new Dep()` created, which stays empty
and unreferenced. -/
theorem defineReactive_nonconfigurable (fuel : Nat) (w : World) (a : Nat) (key : String)
    (val : Option Val) (hook : Option Nat) (shallow mock : Bool) (o : Obj) (d : PropDesc)
    (ho : w.heap[a]? = some o) (hd : ownDesc o (.name key) = some d)
    (hc : d.configurable = false) :
    defineReactive (fuel + 1) w a key val hook shallow mock =
      .ok (none, { w with deps := w.deps ++ [[]] }) := by
  simp [defineReactive, newDep, ho, hd, hc]

theorem defineReactive_nonconfigurable_witness :
    worldSealedKey.heap[1]? = some (plainObj [("k", .data (.num 1) true true false)]) ∧
    defineReactive 1 worldSealedKey 1 "k" none none false false =
      .ok (none, { worldSealedKey with deps := worldSealedKey.deps ++ [[]] }) :=
  ⟨by decide, defineReactive_nonconfigurable 0 worldSealedKey 1 "k" none none false false
    (plainObj [("k", .data (.num 1) true true false)]) (.data (.num 1) true true false)
    (by decide) (by decide) (by decide)⟩

/-- C6 (counterexample): on the object whose key `k` is non-configurable the call returns
none and has created a DependencyNode all the same. -/
theorem defineReactive_nonconfigurable_creates_dep :
    ∃ w1, defineReactive 1 worldSealedKey 1 "k" none none false false = .ok (none, w1) ∧
      w1.deps.length = worldSealedKey.deps.length + 1 :=
  ⟨{ worldSealedKey with deps := worldSealedKey.deps ++ [[]] }, by decide, by decide⟩

/-! ## C8: read-only targets -/

/-- On a read-only target `set` returns undefined and changes nothing. -/
theorem set_readonly (fuel : Nat) (w : World) (a : Nat) (key : Key) (val : Val)
    (h : isReadonly w (.obj a) = true) :
    set fuel w (.obj a) key val = .ok (.undefined, w) := by
  cases ho : w.heap[a]? with
  | none => simp [isReadonly, World.objOf, ho] at h
  | some o => simp [set, ho, h]

/-- On a read-only target that is not an array, or with a key that is not an array
index, `del` changes nothing. -/
theorem del_readonly_not_index (fuel : Nat) (w : World) (a : Nat) (key : Key)
    (h : isReadonly w (.obj a) = true)
    (hk : (isArray w (.obj a) && isValidArrayIndex key) = false) :
    del fuel w (.obj a) key = .ok w := by
  cases ho : w.heap[a]? with
  | none => simp [isReadonly, World.objOf, ho] at h
  | some o =>
    simp only [del, ho, hk, h]
    split <;> simp_all

/-- C8 (the failing input): `del` on the read-only array `[1, 2, 3]` with the index 0
takes the splice branch, which stands before the read-only test, and leaves `[2, 3]`. -/
theorem del_readonly_array_splices :
    isReadonly worldReadonlyArray (.obj 1) = true ∧
    (del 1 worldReadonlyArray (.obj 1) (.idx 0)).get?.map (fun w => elemsOf w (.obj 1)) =
      some [some (.num 2), some (.num 3)] := by
  decide

/-! ## C10: delete on an object -/

/-- C10 (counterexample): on root data (an observed object whose controller has
`vmCount = 1`) `del` of the own key `a` removes nothing and notifies nothing. -/
theorem del_root_data_refuses :
    (worldRootData.heap[1]?).map (fun o => hasOwn o (.name "a")) = some true ∧
    del 1 worldRootData (.obj 1) (.name "a") = .ok worldRootData := by
  decide

/-- C10 (as amended): for every non-array, non-read-only object that is not a framework
instance and whose controller, if any, has `vmCount = 0`, and every key: `del` is a
no-op when the key is not an own property; when it is an own configurable property,
`del` removes the key and, if the target carries a controller, calls `notify` on that
controller's Dep exactly once (and notifies nothing when there is no controller). -/
theorem del_object (fuel : Nat) (w : World) (a : Nat) (o : Obj) (key : Key)
    (ho : w.heap[a]? = some o) (harr : o.cls ≠ .array) (hro : o.vIsReadonly = false)
    (hvue : o.isVue = false)
    (hvm : ∀ obr, controllerOf w o = some obr → obr.vmCount = 0) :
    (hasOwn o key = false → del fuel w (.obj a) key = .ok w) ∧
    (hasOwn o key = true → (ownDesc o key).map PropDesc.configurable ≠ some false →
      ∃ w1, del fuel w (.obj a) key = .ok w1 ∧
        w1.heap = w.heap.set a { o with props := removeProp key.toName o.props } ∧
        (w1.heap[a]?).map (fun o1 => hasOwn o1 key) = some false ∧
        (∀ obr, controllerOf w o = some obr →
          w1.log = w.log ++ [Event.notify obr.dep] ++ (subsOf w obr.dep).map Event.update) ∧
        (controllerOf w o = none → w1.log = w.log)) := by
  have hisArr : isArray w (.obj a) = false := by
    simp [isArray, World.objOf, ho, harr]
  have hisRo : isReadonly w (.obj a) = false := by
    simp [isReadonly, World.objOf, ho, hro]
  have hlt : a < w.heap.length := by
    rcases List.getElem?_eq_some.1 ho with ⟨h, -⟩
    exact h
  constructor
  · intro hno
    cases hc : controllerOf w o with
    | none =>
      simp only [controllerOf] at hc
      simp [del, ho, hisArr, hisRo, hvue, hc, hno]
    | some obr =>
      have := hvm obr hc
      simp only [controllerOf] at hc
      simp [del, ho, hisArr, hisRo, hvue, hc, hno, this]
  · intro hyes hconf
    have hrem : (lookupProp key.toName (removeProp key.toName o.props)) = none := by
      generalize key.toName = k
      induction o.props with
      | nil => simp [removeProp, lookupProp]
      | cons p ps ih =>
        by_cases hp : p.1 = k
        · simpa [removeProp, hp] using ih
        · simp only [removeProp] at ih
          simp [removeProp, hp, lookupProp, ih]
    have hown1 : hasOwn { o with props := removeProp key.toName o.props } key = false := by
      simp [hasOwn, ownDesc, harr, hrem]
    cases hc : controllerOf w o with
    | none =>
      simp only [controllerOf] at hc
      refine ⟨w.setObj a { o with props := removeProp key.toName o.props }, ?_, rfl, ?_, ?_, ?_⟩
      · simp [del, ho, hisArr, hisRo, hvue, hc, hyes, hconf]
      · simp [World.setObj, hlt, hown1]
      · intro obr h; cases h
      · intro _; rfl
    | some obr =>
      have hv := hvm obr hc
      simp only [controllerOf] at hc
      refine ⟨notify (w.setObj a { o with props := removeProp key.toName o.props }) obr.dep,
        ?_, rfl, ?_, ?_, ?_⟩
      · simp [del, ho, hisArr, hisRo, hvue, hc, hyes, hconf, hv]
      · simp [notify, World.setObj, hlt, hown1]
      · intro obr1 h
        cases h
        cases hd : obr.dep <;> simp [notify, World.setObj, subsOf]
      · intro h; cases h

theorem del_object_witness :
    ∃ w1, del 1 worldObserved (.obj 1) (.name "a") = .ok w1 ∧
      w1.log = [Event.notify (.dep 0)] := by
  obtain ⟨-, h⟩ := del_object 1 worldObserved 1
    { (plainObj [("a", .accessor (some (.reactive 0)) (some (.reactive 0)) true true)]) with
      ob := some 0 } (.name "a") (by decide) (by decide) (by decide) (by decide)
    (by intro obr h; cases h; rfl)
  obtain ⟨w1, h1, -, -, hlog, -⟩ := h (by decide) (by decide)
  exact ⟨w1, h1, (hlog ⟨1, false, false, .dep 0, 0⟩ (by decide)).trans (by decide)⟩

/-! ## The footprint relation -/

theorem ObjExt.orefl (e : Prop) (o : Obj) : ObjExt e o o :=
  ⟨rfl, fun _ => ⟨rfl, rfl, fun _ => rfl⟩, fun _ _ => rfl⟩

theorem ObjExt.otrans {e : Prop} {o o1 o2 : Obj} (h1 : ObjExt e o o1) (h2 : ObjExt e o1 o2) :
    ObjExt e o o2 := by
  obtain ⟨a1, b1, c1⟩ := h1
  obtain ⟨a2, b2, c2⟩ := h2
  refine ⟨?_, ?_, ?_⟩
  · rw [a2]; rw [a1]
  · intro h
    obtain ⟨x1, y1, z1⟩ := b1 h
    obtain ⟨x2, y2, z2⟩ := b2 (by rw [x1]; exact h)
    exact ⟨x2.trans x1, y2.trans y1, fun hn => (z2 hn).trans (z1 hn)⟩
  · intro h h2
    cases h1 : o1.ob with
    | none => rw [c2 h1 h2, c1 h h1]
    | some id =>
      have := (b2 (by simp [h1])).1
      rw [h2, h1] at this
      cases this

theorem ObjExt.oweaken {e : Prop} {o o1 : Obj} (h : ObjExt False o o1) : ObjExt e o o1 :=
  ⟨h.1, fun hs => ⟨(h.2.1 hs).1, (h.2.1 hs).2.1, fun _ => (h.2.1 hs).2.2 (fun x => x)⟩, h.2.2⟩

theorem Ext.erefl (s : Option Nat) (w : World) : Ext s w w where
  heapLen := rfl
  objs := fun _ o h => ⟨o, h, ObjExt.orefl _ o⟩
  observers := List.prefix_refl _
  closures := List.prefix_refl _
  deps := List.prefix_refl _
  log := rfl
  target := rfl
  cells := rfl
  shouldObserve := rfl
  serverRendering := rfl
  dev := rfl

theorem Ext.etrans {s : Option Nat} {w w1 w2 : World} (h1 : Ext s w w1) (h2 : Ext s w1 w2) :
    Ext s w w2 where
  heapLen := h2.heapLen.trans h1.heapLen
  objs := by
    intro a o h
    obtain ⟨o1, ho1, e1⟩ := h1.objs a o h
    obtain ⟨o2, ho2, e2⟩ := h2.objs a o1 ho1
    exact ⟨o2, ho2, e1.otrans e2⟩
  observers := h1.observers.trans h2.observers
  closures := h1.closures.trans h2.closures
  deps := h1.deps.trans h2.deps
  log := h2.log.trans h1.log
  target := h2.target.trans h1.target
  cells := h2.cells.trans h1.cells
  shouldObserve := h2.shouldObserve.trans h1.shouldObserve
  serverRendering := h2.serverRendering.trans h1.serverRendering
  dev := h2.dev.trans h1.dev

theorem Ext.eweaken {s : Option Nat} {w w1 : World} (h : Ext none w w1) : Ext s w w1 where
  heapLen := h.heapLen
  objs := by
    intro a o ho
    obtain ⟨o1, ho1, e1⟩ := h.objs a o ho
    refine ⟨o1, ho1, ?_⟩
    have : ObjExt False o o1 :=
      ⟨e1.1, fun hs => ⟨(e1.2.1 hs).1, (e1.2.1 hs).2.1, fun _ => (e1.2.1 hs).2.2 (by simp)⟩,
        e1.2.2⟩
    exact this.oweaken
  observers := h.observers
  closures := h.closures
  deps := h.deps
  log := h.log
  target := h.target
  cells := h.cells
  shouldObserve := h.shouldObserve
  serverRendering := h.serverRendering
  dev := h.dev

theorem Inv.obj {w : World} (h : Inv w) {a : Nat} {o : Obj} (ho : w.heap[a]? = some o)
    (hob : o.ob = none) : o.rawProps = true := by
  have hm : o ∈ w.heap := List.getElem?_mem ho
  have := (List.all_eq_true.1 h) o hm
  simpa [hob] using this

theorem Ext.inv {s : Option Nat} {w w1 : World} (h : Ext s w w1) (hi : Inv w) : Inv w1 := by
  apply List.all_eq_true.2
  intro o1 hm
  obtain ⟨a, ha⟩ := List.mem_iff_getElem?.1 hm
  have hlt : a < w.heap.length := by
    rw [← h.heapLen]
    exact (List.getElem?_eq_some.1 ha).1
  obtain ⟨o, ho⟩ : ∃ o, w.heap[a]? = some o := ⟨w.heap[a], List.getElem?_eq_getElem hlt⟩
  obtain ⟨o2, ho2, e⟩ := h.objs a o ho
  rw [ha] at ho2
  cases ho2
  cases hob1 : o1.ob with
  | some id => simp
  | none =>
    cases hob : o.ob with
    | some id =>
      have := (e.2.1 (by simp [hob])).1
      rw [hob1, hob] at this
      cases this
    | none =>
      have heq := e.2.2 hob hob1
      rw [heq]
      simp [hi.obj ho hob]

theorem countP_le_of_pointwise (p : Obj → Bool) :
    ∀ (l l1 : List Obj), l1.length = l.length →
      (∀ (a : Nat) (o o1 : Obj), l[a]? = some o → l1[a]? = some o1 → p o1 = true → p o = true) →
      l1.countP p ≤ l.countP p
  | [], [], _, _ => by simp
  | [], _ :: _, h, _ => by simp at h
  | _ :: _, [], h, _ => by simp at h
  | o :: l, o1 :: l1, hlen, h => by
    have ih := countP_le_of_pointwise p l l1 (by simpa using hlen)
      (fun a x y hx hy => h (a + 1) x y (by simpa using hx) (by simpa using hy))
    have h0 := h 0 o o1 (by simp) (by simp)
    simp only [List.countP_cons]
    by_cases hp : p o1 = true
    · simp [hp, h0 hp, ih]
    · have : (if p o1 = true then 1 else 0) = 0 := by simp [hp]
      rw [this]
      omega

theorem Ext.unobserved_le {s : Option Nat} {w w1 : World} (h : Ext s w w1) :
    unobserved w1 ≤ unobserved w := by
  apply countP_le_of_pointwise _ _ _ h.heapLen
  intro a o o1 ho ho1 hp
  obtain ⟨o2, ho2, e⟩ := h.objs a o ho
  rw [ho1] at ho2
  cases ho2
  cases hob : o.ob with
  | none => simp
  | some id =>
    have := (e.2.1 (by simp [hob])).1
    rw [hob] at this
    simp [this] at hp

theorem countP_set_lt (p : Obj → Bool) :
    ∀ (l : List Obj) (a : Nat) (o o1 : Obj), l[a]? = some o → p o = true → p o1 = false →
      (l.set a o1).countP p + 1 = l.countP p
  | [], _, _, _, h, _, _ => by simp at h
  | x :: l, 0, o, o1, h, hp, hq => by
    simp at h
    subst h
    simp [List.countP_cons, hp, hq]
  | x :: l, a + 1, o, o1, h, hp, hq => by
    have ih := countP_set_lt p l a o o1 (by simpa using h) hp hq
    simp only [List.set_cons_succ, List.countP_cons]
    omega

theorem Ext.newDep (s : Option Nat) (w : World) : Ext s w (newDep w).2 where
  heapLen := rfl
  objs := fun _ o h => ⟨o, h, ObjExt.orefl _ o⟩
  observers := List.prefix_refl _
  closures := List.prefix_refl _
  deps := List.prefix_append _ _
  log := rfl
  target := rfl
  cells := rfl
  shouldObserve := rfl
  serverRendering := rfl
  dev := rfl

theorem Ext.pushClosure (s : Option Nat) (w : World) (cl : Closure) :
    Ext s w { w with closures := w.closures ++ [cl] } where
  heapLen := rfl
  objs := fun _ o h => ⟨o, h, ObjExt.orefl _ o⟩
  observers := List.prefix_refl _
  closures := List.prefix_append _ _
  deps := List.prefix_refl _
  log := rfl
  target := rfl
  cells := rfl
  shouldObserve := rfl
  serverRendering := rfl
  dev := rfl

theorem Ext.pushObserver (s : Option Nat) (w : World) (ob : Observer) :
    Ext s w { w with observers := w.observers ++ [ob] } where
  heapLen := rfl
  objs := fun _ o h => ⟨o, h, ObjExt.orefl _ o⟩
  observers := List.prefix_append _ _
  closures := List.prefix_refl _
  deps := List.prefix_refl _
  log := rfl
  target := rfl
  cells := rfl
  shouldObserve := rfl
  serverRendering := rfl
  dev := rfl

theorem Ext.setObj (s : Option Nat) (w : World) (a : Nat) (o o1 : Obj)
    (ho : w.heap[a]? = some o) (h : ObjExt (s = some a) o o1) : Ext s w (w.setObj a o1) where
  heapLen := by simp [World.setObj]
  objs := by
    intro b x hx
    by_cases hb : a = b
    · subst hb
      rw [ho] at hx
      cases hx
      have hlt : a < w.heap.length := (List.getElem?_eq_some.1 ho).1
      exact ⟨o1, by simp [World.setObj, hlt], h⟩
    · exact ⟨x, by simpa [World.setObj, List.getElem?_set_ne hb] using hx, ObjExt.orefl _ x⟩
  observers := List.prefix_refl _
  closures := List.prefix_refl _
  deps := List.prefix_refl _
  log := rfl
  target := rfl
  cells := rfl
  shouldObserve := rfl
  serverRendering := rfl
  dev := rfl

theorem ObjExt.setProps (o : Obj) (ps : List (String × PropDesc)) (h : o.ob.isSome = true) :
    ObjExt True o { o with props := ps } :=
  ⟨rfl, fun _ => ⟨rfl, rfl, fun hn => absurd trivial hn⟩, fun hn => by simp [hn] at h⟩

theorem ObjExt.mark (e : Prop) (o : Obj) (id : Nat) (p : Bool) (h : o.ob = none) :
    ObjExt e o { o with ob := some id, patched := p } :=
  ⟨rfl, fun hs => by simp [h] at hs, fun _ hn => by simp at hn⟩

theorem Conv.ok {α : Type} (r : α) : Conv (fun _ => Res.ok r) r :=
  ⟨0, fun _ _ => rfl⟩

theorem exists_succ_of_le {N fuel : Nat} (h : N + 1 ≤ fuel) : ∃ k, fuel = k + 1 ∧ N ≤ k :=
  ⟨fuel - 1, by omega, by omega⟩

/-! ## Termination of `observe` on well-formed worlds -/

theorem getProp_raw (w : World) (a : Nat) (o : Obj) (key : Key) (ho : w.heap[a]? = some o)
    (hraw : ∀ d, ownDesc o key = some d → d.reactiveGetter = false) (fuel : Nat) :
    getProp (fuel + 2) w a key = .ok (rawValue w o key, w) := by
  rw [getProp]
  simp only [ho, rawValue]
  cases hd : ownDesc o key with
  | none => rfl
  | some d =>
    cases d with
    | data v wr e c => rfl
    | accessor g s e c =>
      cases g with
      | none => rfl
      | some g =>
        cases g with
        | user cell => simp [callGetter]
        | reactive c1 =>
          have := hraw _ hd
          simp [PropDesc.reactiveGetter, PropDesc.getter] at this

theorem Ext.obs_eq {w w1 : World} (h : Ext none w w1) {a : Nat} {o : Obj}
    (ho : w.heap[a]? = some o) (hob : o.ob.isSome = true) : w1.heap[a]? = some o := by
  obtain ⟨o1, ho1, e⟩ := h.objs a o ho
  obtain ⟨h1, h2, h3⟩ := e.2.1 hob
  have h4 := h3 (by simp)
  rw [ho1, e.1, h1, h2, h4]

theorem prefix_getElem? {α : Type} {l l1 : List α} (h : l <+: l1) {i : Nat} {x : α}
    (hx : l[i]? = some x) : l1[i]? = some x := by
  obtain ⟨t, rfl⟩ := h
  have hlt : i < l.length := (List.getElem?_eq_some.1 hx).1
  rw [List.getElem?_append_left hlt]
  exact hx

theorem defineReactive_conv (n : Nat)
    (IH : ∀ w v sh mock, Inv w → unobserved w ≤ n →
      ∃ r w1, Conv (fun f => observe f w v sh mock) (r, w1) ∧ Ext none w w1)
    (w : World) (a : Nat) (o : Obj) (key : String) (val : Option Val) (hook : Option Nat)
    (shallow mock : Bool) (hi : Inv w) (hn : unobserved w ≤ n) (ho : w.heap[a]? = some o)
    (hob : o.ob.isSome = true)
    (hraw : ∀ d, ownDesc o (.name key) = some d → d.reactiveGetter = false)
    (hdef : (lookupProp key o.props).isSome = true ∨ o.extensible = true ∨
      (ownDesc o (.name key)).map PropDesc.configurable = some false) :
    ∃ r w1, Conv (fun f => defineReactive f w a key val hook shallow mock) (r, w1) ∧
      Ext (some a) w w1 ∧ DefinePost w a o key val hook shallow mock r w1 := by
  have hd1 : Ext none w (newDep w).2 := Ext.newDep none w
  have ho1 : (newDep w).2.heap[a]? = some o := ho
  by_cases hc : (ownDesc o (.name key)).map PropDesc.configurable = some false
  · refine ⟨none, (newDep w).2, ⟨1, ?_⟩, hd1.eweaken, ?_⟩
    · intro fuel hf
      obtain ⟨k, rfl, -⟩ := exists_succ_of_le hf
      simp [defineReactive, ho1, hc]
    · exact ⟨fun _ => ⟨rfl, rfl⟩, fun h => absurd hc h⟩
  · -- the child Observer
    obtain ⟨cob, w3, ⟨N, hN⟩, hext⟩ :
        ∃ cob w3, Conv (fun f => if shallow then
            Res.ok (obOf (newDep w).2 (initialValue w o key val), (newDep w).2)
          else observe f (newDep w).2 (initialValue w o key val) false mock) (cob, w3) ∧
          Ext none (newDep w).2 w3 := by
      cases shallow with
      | true => exact ⟨_, _, ⟨0, fun _ _ => rfl⟩, Ext.erefl _ _⟩
      | false =>
        obtain ⟨r, w3, hconv, hext⟩ := IH (newDep w).2 (initialValue w o key val) false mock
          (hd1.inv hi) (le_trans hd1.unobserved_le hn)
        exact ⟨r, w3, by simpa using hconv, hext⟩
    have ho3 : w3.heap[a]? = some o := hext.obs_eq ho1 hob
    have hlt : a < w3.heap.length := (List.getElem?_eq_some.1 ho3).1
    have hdefp : ((lookupProp key o.props).isSome || o.extensible) = true := by
      rcases hdef with h | h | h
      · simp [h]
      · simp [h]
      · exact absurd h hc
    refine ⟨some w.deps.length, ({ w3 with closures := w3.closures ++
        [closureFor w a o key val hook shallow mock cob] }).setObj a
        { o with props := defineProp key (reactiveDesc w3.closures.length) o.props },
      ⟨N + 3, ?_⟩, ?_, ?_⟩
    · intro fuel hf
      obtain ⟨k, rfl, hk⟩ := exists_succ_of_le hf
      obtain ⟨k2, rfl, hk2⟩ := exists_succ_of_le hk
      obtain ⟨k3, rfl, hk3⟩ := exists_succ_of_le hk2
      have hobs : (if shallow = true then
            Res.ok (obOf (newDep w).2 (initialValue w o key val), (newDep w).2)
          else observe (k3 + 2) (newDep w).2 (initialValue w o key val) false mock) =
          Res.ok (cob, w3) := hN (k3 + 2) (by omega)
      have hget := getProp_raw (newDep w).2 a o (.name key) ho1 hraw k3
      have hval : (if (((ownDesc o (.name key)).bind PropDesc.getter).isNone ||
            ((ownDesc o (.name key)).bind PropDesc.setter).isSome) &&
            (val == some NO_INITIAL_VALUE || val.isNone) then
            getProp (k3 + 1 + 1) (newDep w).2 a (.name key)
          else Res.ok (val.getD .undefined, (newDep w).2)) =
          Res.ok (initialValue w o key val, (newDep w).2) := by
        rw [hget]
        simp only [initialValue, rawValue]
        split <;> rfl
      simp only [defineReactive, ho1, hc, if_false]
      rw [hval]
      simp only [Res.ok_bind]
      rw [hobs]
      simp only [Res.ok_bind, defineProperty, ho3, hdefp, if_true]
      rfl
    · refine (hd1.eweaken.etrans hext.eweaken).etrans
        ((Ext.pushClosure _ _ _).etrans (Ext.setObj _ _ _ _ _ ho3 ?_))
      simpa using ObjExt.setProps o _ hob
    · refine ⟨fun h => absurd h hc, fun _ => ⟨rfl, cob, w3.closures.length, ?_, ?_, ?_, ?_⟩⟩
      · simp [World.setObj, hlt]
      · simp [World.setObj]
      · have := hext.closures.length_le
        simpa [newDep] using this
      · have h1 : (newDep w).2.deps[w.deps.length]? = some [] := by simp [newDep]
        simpa [World.setObj] using prefix_getElem? hext.deps h1

theorem lookupProp_defineProp_self (k : String) (d : PropDesc) :
    ∀ ps, lookupProp k (defineProp k d ps) = some d
  | [] => by simp [defineProp, lookupProp]
  | (k1, d1) :: ps => by
    by_cases h : k1 = k
    · simp [defineProp, lookupProp, h]
    · simp [defineProp, lookupProp, h, lookupProp_defineProp_self k d ps]

theorem lookupProp_defineProp_ne (k k2 : String) (d : PropDesc) (hne : k2 ≠ k) :
    ∀ ps, lookupProp k2 (defineProp k d ps) = lookupProp k2 ps
  | [] => by simp [defineProp, lookupProp, Ne.symm hne]
  | (k1, d1) :: ps => by
    by_cases h : k1 = k
    · subst h
      simp [defineProp, lookupProp, Ne.symm hne]
    · by_cases h2 : k1 = k2
      · subst h2
        simp [defineProp, lookupProp, h]
      · simp [defineProp, lookupProp, h, h2, lookupProp_defineProp_ne k k2 d hne ps]

theorem observeArray_conv (n : Nat)
    (IH : ∀ w v sh mock, Inv w → unobserved w ≤ n →
      ∃ r w1, Conv (fun f => observe f w v sh mock) (r, w1) ∧ Ext none w w1)
    (mock : Bool) :
    ∀ (es : List (Option Val)) (w : World), Inv w → unobserved w ≤ n →
      ∃ w1, Conv (fun f => observeArray f w es mock) w1 ∧ Ext none w w1
  | [], w, _, _ => by
    refine ⟨w, ⟨1, ?_⟩, Ext.erefl _ _⟩
    intro fuel hf
    obtain ⟨k, rfl, -⟩ := exists_succ_of_le hf
    simp [observeArray]
  | e :: rest, w, hi, hn => by
    obtain ⟨r, w1, ⟨N1, h1⟩, e1⟩ := IH w (e.getD .undefined) false mock hi hn
    obtain ⟨w2, ⟨N2, h2⟩, e2⟩ := observeArray_conv n IH mock rest w1 (e1.inv hi)
      (le_trans e1.unobserved_le hn)
    refine ⟨w2, ⟨max N1 N2 + 1, ?_⟩, e1.etrans e2⟩
    intro fuel hf
    obtain ⟨k, rfl, hk⟩ := exists_succ_of_le hf
    have a1 : observe k w (e.getD .undefined) false mock = .ok (r, w1) :=
      h1 k (le_trans (le_max_left _ _) hk)
    have a2 : observeArray k w1 rest mock = .ok w2 := h2 k (le_trans (le_max_right _ _) hk)
    simp [observeArray, a1, a2]

theorem ownDesc_name_of_not_array (o : Obj) (key : String) (h : o.cls ≠ .array) :
    ownDesc o (.name key) = lookupProp key o.props := by
  simp [ownDesc, h, Key.toName]

theorem closureFor_congr (w w1 : World) (a : Nat) (o o1 : Obj) (key : String)
    (val : Option Val) (hook : Option Nat) (sh mock : Bool) (cob : Option Nat) (dep : Nat)
    (hd : ownDesc o1 (.name key) = ownDesc o (.name key)) (hc : w1.cells = w.cells) :
    { closureFor w1 a o1 key val hook sh mock cob with dep := dep } =
      { closureFor w a o key val hook sh mock cob with dep := dep } := by
  simp [closureFor, initialValue, rawValue, hd, hc]

/-- `DefinePost` on an object that is not an array, in terms of its property list. -/
theorem definePost_object {w : World} {a : Nat} {o : Obj} {key : String} {val : Option Val}
    {hook : Option Nat} {sh mock : Bool} {r : Option Nat} {w1 : World}
    (ho : w.heap[a]? = some o) (harr : o.cls ≠ .array)
    (hpost : DefinePost w a o key val hook sh mock r w1) :
    ∃ o1, w1.heap[a]? = some o1 ∧ o1 = { o with props := o1.props } ∧
      (∀ k, k ≠ key → lookupProp k o1.props = lookupProp k o.props) ∧
      (∀ d, lookupProp key o.props = some d → d.configurable = true →
        ∃ c cob, lookupProp key o1.props = some (reactiveDesc c) ∧
          w1.closures[c]? = some (closureFor w a o key val hook sh mock cob) ∧
          w.closures.length ≤ c ∧ w1.deps[w.deps.length]? = some []) ∧
      (lookupProp key o.props = none →
        ∃ c cob, lookupProp key o1.props = some (reactiveDesc c) ∧
          w1.closures[c]? = some (closureFor w a o key val hook sh mock cob) ∧
          w.closures.length ≤ c ∧ w1.deps[w.deps.length]? = some []) := by
  rw [DefinePost, ownDesc_name_of_not_array o key harr] at hpost
  by_cases hc : (lookupProp key o.props).map PropDesc.configurable = some false
  · obtain ⟨-, hw⟩ := hpost.1 hc
    subst hw
    refine ⟨o, ho, rfl, fun _ _ => rfl, ?_, ?_⟩
    · intro d hd hcd
      simp [hd, hcd] at hc
    · intro hd
      simp [hd] at hc
  · obtain ⟨-, cob, c, h1, h2, h3, h4⟩ := hpost.2 hc
    refine ⟨_, h1, rfl, ?_, ?_, ?_⟩
    · intro k hk
      exact lookupProp_defineProp_ne key k _ hk o.props
    · intro d _ _
      exact ⟨c, cob, lookupProp_defineProp_self key _ o.props, h2, h3, h4⟩
    · intro _
      exact ⟨c, cob, lookupProp_defineProp_self key _ o.props, h2, h3, h4⟩

theorem walk_conv (n : Nat)
    (IH : ∀ w v sh mock, Inv w → unobserved w ≤ n →
      ∃ r w1, Conv (fun f => observe f w v sh mock) (r, w1) ∧ Ext none w w1)
    (a : Nat) (sh mock : Bool) :
    ∀ (keys : List String) (w : World) (o : Obj), Inv w → unobserved w ≤ n →
      w.heap[a]? = some o → o.ob.isSome = true → o.cls ≠ .array → keys.Nodup →
      (∀ key, key ∈ keys → (lookupProp key o.props).isSome = true ∧
        ∀ d, lookupProp key o.props = some d → d.reactiveGetter = false) →
      ∃ w1, Conv (fun f => walk f w a keys sh mock) w1 ∧ Ext (some a) w w1 ∧
        WalkPost w a o keys sh mock w1
  | [], w, o, _, _, ho, _, _, _, _ => by
    refine ⟨w, ⟨1, ?_⟩, Ext.erefl _ _, o, ho, rfl, fun _ _ => rfl, ?_⟩
    · intro fuel hf
      obtain ⟨k, rfl, -⟩ := exists_succ_of_le hf
      simp [walk]
    · intro key hk
      cases hk
  | key :: rest, w, o, hi, hn, ho, hob, harr, hnd, hkeys => by
    have hkey := hkeys key (List.mem_cons_self _ _)
    have hraw : ∀ d, ownDesc o (.name key) = some d → d.reactiveGetter = false := by
      rw [ownDesc_name_of_not_array o key harr]
      exact hkey.2
    obtain ⟨r, w1, ⟨N1, h1⟩, e1, post1⟩ := defineReactive_conv n IH w a o key
      (some NO_INITIAL_VALUE) none sh mock hi hn ho hob hraw (Or.inl hkey.1)
    obtain ⟨o1, ho1, heq1, hne1, hconf1, -⟩ := definePost_object ho harr post1
    have hnd2 := List.nodup_cons.1 hnd
    have hob1 : o1.ob.isSome = true := by rw [heq1]; exact hob
    have harr1 : o1.cls ≠ .array := by rw [heq1]; exact harr
    have hkeys1 : ∀ k, k ∈ rest → (lookupProp k o1.props).isSome = true ∧
        ∀ d, lookupProp k o1.props = some d → d.reactiveGetter = false := by
      intro k hk
      have hne : k ≠ key := fun h => hnd2.1 (h ▸ hk)
      rw [hne1 k hne]
      exact hkeys k (List.mem_cons_of_mem _ hk)
    obtain ⟨w2, ⟨N2, h2⟩, e2, o2, ho2, heq2, hne2, hin2⟩ := walk_conv n IH a sh mock rest w1 o1
      (e1.inv hi) (le_trans e1.unobserved_le hn) ho1 hob1 harr1 hnd2.2 hkeys1
    refine ⟨w2, ⟨max N1 N2 + 1, ?_⟩, e1.etrans e2, o2, ho2, ?_, ?_, ?_⟩
    · intro fuel hf
      obtain ⟨k, rfl, hk⟩ := exists_succ_of_le hf
      have a1 := h1 k (le_trans (le_max_left _ _) hk)
      have a2 := h2 k (le_trans (le_max_right _ _) hk)
      simp only at a1 a2
      simp [walk, a1, a2]
    · rw [heq2, heq1]
    · intro k hk
      have hk1 : k ≠ key := fun h => hk (h ▸ List.mem_cons_self _ _)
      have hk2 : k ∉ rest := fun h => hk (List.mem_cons_of_mem _ h)
      rw [hne2 k hk2, hne1 k hk1]
    · intro k hk d hd hcd
      rcases List.mem_cons.1 hk with hk | hk
      · subst hk
        obtain ⟨c, cob, l1, l2, l3, l4⟩ := hconf1 d hd hcd
        refine ⟨c, cob, w.deps.length, ?_, ?_, l3, le_refl _, ?_⟩
        · rw [hne2 k hnd2.1]; exact l1
        · exact prefix_getElem? e2.closures l2
        · exact prefix_getElem? e2.deps l4
      · have hne : k ≠ key := fun h => hnd2.1 (h ▸ hk)
        have hd1 : lookupProp k o1.props = some d := by rw [hne1 k hne]; exact hd
        obtain ⟨c, cob, dep, l1, l2, l3, l4, l5⟩ := hin2 k hk d hd1 hcd
        refine ⟨c, cob, dep, l1, ?_, le_trans e1.closures.length_le l3,
          le_trans e1.deps.length_le l4, l5⟩
        rw [l2]
        congr 1
        have : ownDesc o1 (.name k) = ownDesc o (.name k) := by
          rw [ownDesc_name_of_not_array o1 k harr1, ownDesc_name_of_not_array o k harr, hne1 k hne]
        exact closureFor_congr w w1 a o o1 k _ _ sh mock cob dep this e1.cells

theorem mem_dedupKeys (x : String) : ∀ l : List String, x ∈ dedupKeys l ↔ x ∈ l
  | [] => by simp [dedupKeys]
  | k :: ks => by
    by_cases h : x = k
    · simp [dedupKeys, h]
    · simp [dedupKeys, h, mem_dedupKeys x ks]

theorem nodup_dedupKeys : ∀ l : List String, (dedupKeys l).Nodup
  | [] => by simp [dedupKeys]
  | k :: ks => by
    simp only [dedupKeys, List.nodup_cons]
    exact ⟨by simp, (nodup_dedupKeys ks).filter _⟩

theorem lookupProp_mem {k : String} {d : PropDesc} :
    ∀ {ps : List (String × PropDesc)}, lookupProp k ps = some d → (k, d) ∈ ps
  | [], h => by simp [lookupProp] at h
  | (k1, d1) :: ps, h => by
    by_cases hk : k1 = k
    · simp [lookupProp, hk] at h
      simp [hk, h]
    · simp [lookupProp, hk] at h
      exact List.mem_cons_of_mem _ (lookupProp_mem h)

theorem lookupProp_isSome_of_mem {k : String} :
    ∀ {ps : List (String × PropDesc)}, k ∈ ps.map (fun p => p.1) →
      (lookupProp k ps).isSome = true
  | [], h => by simp at h
  | (k1, d1) :: ps, h => by
    by_cases hk : k1 = k
    · simp [lookupProp, hk]
    · simp only [lookupProp, hk, if_false]
      apply lookupProp_isSome_of_mem
      simp only [List.map_cons, List.mem_cons] at h
      rcases h with h | h
      · exact absurd h.symm hk
      · exact h

theorem mem_objectKeys_of_lookup {o : Obj} {key : String} {d : PropDesc}
    (h : lookupProp key o.props = some d) (he : d.enumerable = true) : key ∈ objectKeys o := by
  rw [objectKeys, mem_dedupKeys]
  exact List.mem_map.2 ⟨(key, d), List.mem_filter.2 ⟨lookupProp_mem h, he⟩, rfl⟩

theorem lookup_of_mem_objectKeys {o : Obj} {key : String} (h : key ∈ objectKeys o) :
    (lookupProp key o.props).isSome = true := by
  rw [objectKeys, mem_dedupKeys] at h
  apply lookupProp_isSome_of_mem
  obtain ⟨p, hp, rfl⟩ := List.mem_map.1 h
  exact List.mem_map.2 ⟨p, (List.mem_filter.1 hp).1, rfl⟩

theorem rawProps_lookup {o : Obj} (h : o.rawProps = true) {key : String} {d : PropDesc}
    (hd : lookupProp key o.props = some d) : d.reactiveGetter = false := by
  have := (List.all_eq_true.1 h) _ (lookupProp_mem hd)
  simpa using this

theorem unobserved_pos {w : World} {a : Nat} {o : Obj} (ho : w.heap[a]? = some o)
    (hob : o.ob = none) : 0 < unobserved w := by
  apply List.countP_pos_iff.2
  exact ⟨o, List.getElem?_mem ho, by simp [hob]⟩

theorem Ext.close {w w1 w2 : World} {a : Nat} {o : Obj} (h1 : Ext none w w1)
    (h2 : Ext (some a) w1 w2) (ho : w.heap[a]? = some o) (hob : o.ob = none) :
    Ext none w w2 where
  heapLen := h2.heapLen.trans h1.heapLen
  objs := by
    intro b x hx
    obtain ⟨x1, hx1, e1⟩ := h1.objs b x hx
    obtain ⟨x2, hx2, e2⟩ := h2.objs b x1 hx1
    refine ⟨x2, hx2, ?_⟩
    by_cases hb : a = b
    · subst hb
      rw [ho] at hx
      cases hx
      refine ⟨?_, fun hs => by simp [hob] at hs, ?_⟩
      · rw [e2.1]; rw [e1.1]
      · intro _ h2n
        cases h1n : x1.ob with
        | none => rw [e2.2.2 h1n h2n, e1.2.2 hob h1n]
        | some id =>
          have := (e2.2.1 (by simp [h1n])).1
          rw [h2n, h1n] at this
          cases this
    · have e2n : ObjExt (none = some b) x1 x2 :=
        ⟨e2.1, fun hs => ⟨(e2.2.1 hs).1, (e2.2.1 hs).2.1,
          fun _ => (e2.2.1 hs).2.2 (fun h => hb (Option.some.inj h))⟩, e2.2.2⟩
      exact e1.otrans e2n
  observers := h1.observers.trans h2.observers
  closures := h1.closures.trans h2.closures
  deps := h1.deps.trans h2.deps
  log := h2.log.trans h1.log
  target := h2.target.trans h1.target
  cells := h2.cells.trans h1.cells
  shouldObserve := h2.shouldObserve.trans h1.shouldObserve
  serverRendering := h2.serverRendering.trans h1.serverRendering
  dev := h2.dev.trans h1.dev

theorem Ext.head (w : World) (a : Nat) (o : Obj) (shallow mock : Bool)
    (ho : w.heap[a]? = some o) (hob : o.ob = none) :
    Ext none w (afterHead w a o shallow mock) where
  heapLen := by simp [afterHead]
  objs := by
    intro b x hx
    by_cases hb : a = b
    · subst hb
      rw [ho] at hx
      cases hx
      have hlt : a < w.heap.length := (List.getElem?_eq_some.1 ho).1
      exact ⟨markedObj w o mock, by simp [afterHead, hlt], ObjExt.mark _ o _ _ hob⟩
    · exact ⟨x, by simpa [afterHead, List.getElem?_set_ne hb] using hx, ObjExt.orefl _ x⟩
  observers := List.prefix_append _ _
  closures := List.prefix_refl _
  deps := by
    simp only [afterHead]
    split
    · exact List.prefix_refl _
    · exact List.prefix_append _ _
  log := rfl
  target := rfl
  cells := rfl
  shouldObserve := rfl
  serverRendering := rfl
  dev := rfl

theorem unobserved_afterHead (w : World) (a : Nat) (o : Obj) (shallow mock : Bool)
    (ho : w.heap[a]? = some o) (hob : o.ob = none) :
    unobserved (afterHead w a o shallow mock) + 1 = unobserved w := by
  simp only [unobserved, afterHead]
  exact countP_set_lt _ w.heap a o _ ho (by simp [hob]) (by simp [markedObj])

theorem newObserver_array (k : Nat) (w : World) (a : Nat) (o : Obj) (shallow mock : Bool)
    (ho : w.heap[a]? = some o) (harr : o.cls = .array) :
    newObserver (k + 1) w a shallow mock =
      (if shallow then Res.ok (w.observers.length, afterHead w a o shallow mock)
       else observeArray k (afterHead w a o shallow mock) o.elems mock >>=
         fun w5 => Res.ok (w.observers.length, w5)) := by
  have hlt : a < w.heap.length := (List.getElem?_eq_some.1 ho).1
  cases mock <;> cases shallow <;>
    simp [newObserver, newDep, defOb, installArrayMethods, World.setObj, ho, hlt, isArray,
      World.objOf, harr, afterHead, markedObj, elemsOf]

theorem newObserver_object (k : Nat) (w : World) (a : Nat) (o : Obj) (shallow mock : Bool)
    (ho : w.heap[a]? = some o) (harr : o.cls ≠ .array) :
    newObserver (k + 1) w a shallow mock =
      (walk k (afterHead w a o shallow mock) a (objectKeys o) shallow mock >>=
         fun w5 => Res.ok (w.observers.length, w5)) := by
  have hlt : a < w.heap.length := (List.getElem?_eq_some.1 ho).1
  cases mock <;>
    simp [newObserver, newDep, defOb, World.setObj, ho, hlt, isArray,
      World.objOf, harr, afterHead, markedObj, objectKeys]

theorem ObservePost.existing {w : World} {value : Val} {shallow mock : Bool} {id : Nat}
    (hob : obOf w value = some id) : ObservePost w value shallow mock (some id) w := by
  simp [ObservePost, hob]

theorem ObservePost.declined {w : World} {value : Val} {shallow mock : Bool}
    (hob : obOf w value = none) (hobs : observable w value mock = false) :
    ObservePost w value shallow mock none w := by
  simp [ObservePost, hob, hobs]

theorem observe_conv_aux : ∀ (n : Nat) (w : World) (value : Val) (shallow mock : Bool),
    Inv w → unobserved w ≤ n →
    ∃ r w1, Conv (fun f => observe f w value shallow mock) (r, w1) ∧ Ext none w w1 ∧
      ObservePost w value shallow mock r w1 := by
  intro n
  induction n with
  | zero =>
    intro w value shallow mock hi hn
    cases hob : obOf w value with
    | some id =>
      refine ⟨some id, w, ⟨1, ?_⟩, Ext.erefl _ _, ObservePost.existing hob⟩
      intro fuel hf
      obtain ⟨k, rfl, -⟩ := exists_succ_of_le hf
      simp [observe, hob]
    | none =>
      cases hobs : observable w value mock with
      | false =>
        refine ⟨none, w, ⟨1, ?_⟩, Ext.erefl _ _, ObservePost.declined hob hobs⟩
        intro fuel hf
        obtain ⟨k, rfl, -⟩ := exists_succ_of_le hf
        simp [observe, hob, hobs]
      | true =>
        exfalso
        cases value with
        | obj a =>
          cases ho : w.heap[a]? with
          | none => simp [observable, isExtensible, World.objOf, ho] at hobs
          | some o =>
            have : o.ob = none := by simpa [obOf, World.objOf, ho] using hob
            have := unobserved_pos ho this
            omega
        | _ => simp [observable, isExtensible, World.objOf] at hobs
  | succ m ih =>
    intro w value shallow mock hi hn
    have IH : ∀ w v sh mock, Inv w → unobserved w ≤ m →
        ∃ r w1, Conv (fun f => observe f w v sh mock) (r, w1) ∧ Ext none w w1 := by
      intro w v sh mock h1 h2
      obtain ⟨r, w1, c, e, -⟩ := ih w v sh mock h1 h2
      exact ⟨r, w1, c, e⟩
    cases hob : obOf w value with
    | some id =>
      refine ⟨some id, w, ⟨1, ?_⟩, Ext.erefl _ _, ObservePost.existing hob⟩
      intro fuel hf
      obtain ⟨k, rfl, -⟩ := exists_succ_of_le hf
      simp [observe, hob]
    | none =>
      cases hobs : observable w value mock with
      | false =>
        refine ⟨none, w, ⟨1, ?_⟩, Ext.erefl _ _, ObservePost.declined hob hobs⟩
        intro fuel hf
        obtain ⟨k, rfl, -⟩ := exists_succ_of_le hf
        simp [observe, hob, hobs]
      | true =>
        cases value with
        | obj a =>
          cases ho : w.heap[a]? with
          | none => simp [observable, isExtensible, World.objOf, ho] at hobs
          | some o =>
            have hoob : o.ob = none := by simpa [obOf, World.objOf, ho] using hob
            have hlt : a < w.heap.length := (List.getElem?_eq_some.1 ho).1
            have eH := Ext.head w a o shallow mock ho hoob
            have hun : unobserved (afterHead w a o shallow mock) ≤ m := by
              have := unobserved_afterHead w a o shallow mock ho hoob
              omega
            have hiH := eH.inv hi
            have hoH : (afterHead w a o shallow mock).heap[a]? = some (markedObj w o mock) := by
              simp [afterHead, hlt]
            have hobH : (markedObj w o mock).ob.isSome = true := by simp [markedObj]
            have hobsv : (afterHead w a o shallow mock).observers[w.observers.length]? = some
                { value := a, shallow := shallow, mock := mock,
                  dep := if mock then .mockDep else .dep w.deps.length, vmCount := 0 } := by
              simp [afterHead]
            have hdepH : mock = false →
                (afterHead w a o shallow mock).deps[w.deps.length]? = some [] := by
              intro h
              simp [afterHead, h]
            by_cases harr : o.cls = .array
            · -- an array: the elements
              obtain ⟨w5, ⟨N, hN⟩, e5⟩ :
                  ∃ w5, Conv (fun f => newObserver f w a shallow mock)
                    (w.observers.length, w5) ∧ Ext none (afterHead w a o shallow mock) w5 := by
                cases hsh : shallow with
                | true =>
                  refine ⟨_, ⟨1, ?_⟩, Ext.erefl _ _⟩
                  intro fuel hf
                  obtain ⟨k, rfl, -⟩ := exists_succ_of_le hf
                  show newObserver (k + 1) w a true mock = _
                  rw [newObserver_array k w a o true mock ho harr]
                  rfl
                | false =>
                  obtain ⟨w5, ⟨N, hN⟩, e5⟩ := observeArray_conv m IH mock o.elems
                    (afterHead w a o false mock) (hsh ▸ hiH) (hsh ▸ hun)
                  refine ⟨w5, ⟨N + 1, ?_⟩, e5⟩
                  intro fuel hf
                  obtain ⟨k, rfl, hk⟩ := exists_succ_of_le hf
                  show newObserver (k + 1) w a false mock = _
                  rw [newObserver_array k w a o false mock ho harr]
                  have := hN k hk
                  simp only at this
                  simp [this]
              refine ⟨some w.observers.length, w5, ⟨N + 1, ?_⟩, eH.etrans e5, ?_⟩
              · intro fuel hf
                obtain ⟨k, rfl, hk⟩ := exists_succ_of_le hf
                simp [observe, hob, hobs, hN k hk]
              · refine ⟨fun id h => (by rw [hob] at h; cases h),
                  fun _ h => (by rw [hobs] at h; cases h), fun _ _ => ?_⟩
                refine ⟨a, o, markedObj w o mock, rfl, ho, rfl,
                  prefix_getElem? e5.observers hobsv,
                  fun h => prefix_getElem? e5.deps (hdepH h), e5.obs_eq hoH hobH, rfl, rfl,
                  fun _ => ⟨rfl, by simp [markedObj, harr]⟩, fun h => absurd harr h⟩
            · -- an object: the keys
              have hkeys : ∀ key, key ∈ objectKeys o →
                  (lookupProp key (markedObj w o mock).props).isSome = true ∧
                  ∀ d, lookupProp key (markedObj w o mock).props = some d →
                    d.reactiveGetter = false :=
                fun key hk => ⟨lookup_of_mem_objectKeys hk,
                  fun d hd => rawProps_lookup (hi.obj ho hoob) hd⟩
              obtain ⟨w5, ⟨N, hN⟩, e5, o5, ho5, heq5, hne5, hin5⟩ := walk_conv m IH a shallow
                mock (objectKeys o) (afterHead w a o shallow mock) (markedObj w o mock) hiH hun
                hoH hobH harr (nodup_dedupKeys _) hkeys
              refine ⟨some w.observers.length, w5, ⟨N + 2, ?_⟩, Ext.close eH e5 ho hoob, ?_⟩
              · intro fuel hf
                obtain ⟨k, rfl, hk⟩ := exists_succ_of_le hf
                obtain ⟨k2, rfl, hk2⟩ := exists_succ_of_le hk
                have := hN k2 hk2
                simp only at this
                simp [observe, hob, hobs, newObserver_object k2 w a o shallow mock ho harr, this]
              · refine ⟨fun id h => (by rw [hob] at h; cases h),
                  fun _ h => (by rw [hobs] at h; cases h), fun _ _ => ?_⟩
                have hob5 : o5.ob = some w.observers.length := by rw [heq5]; rfl
                have hpat5 : o5.patched = o.patched := by rw [heq5]; simp [markedObj, harr]
                refine ⟨a, o, o5, rfl, ho, rfl, prefix_getElem? e5.observers hobsv,
                  fun h => prefix_getElem? e5.deps (hdepH h), ho5, hob5, ?_,
                  fun h => absurd h harr, fun _ => ⟨hpat5, ?_⟩⟩
                · conv_lhs => rw [heq5]
                  simp [markedObj, hob5, hpat5, harr]
                · intro key d hd he hc
                  obtain ⟨c, cob, dep, l1, l2, l3, l4, l5⟩ :=
                    hin5 key (mem_objectKeys_of_lookup hd he) d hd hc
                  refine ⟨c, cob, dep, l1, ?_, l3, ?_, l5⟩
                  · exact l2.trans (congrArg some
                      (closureFor_congr w (afterHead w a o shallow mock) a o
                        (markedObj w o mock) key _ _ shallow mock cob dep
                        (by simp [ownDesc, markedObj]) rfl))
                  · have : (afterHead w a o shallow mock).deps.length =
                        w.deps.length + (if mock then 0 else 1) := by
                      simp only [afterHead]
                      split <;> simp
                    omega
        | _ => simp [observable, isExtensible, World.objOf] at hobs

/-- On a well-formed world `observe` returns, and its result and footprint are those of
`ObservePost` and `Ext`. -/
theorem observe_conv (w : World) (value : Val) (shallow mock : Bool) (hi : Inv w) :
    ∃ r w1, Conv (fun f => observe f w value shallow mock) (r, w1) ∧ Ext none w w1 ∧
      ObservePost w value shallow mock r w1 :=
  observe_conv_aux (unobserved w) w value shallow mock hi (le_refl _)

theorem observable_eq_false_iff (w : World) (value : Val) (mock : Bool) :
    observable w value mock = false ↔ Declines w value mock := by
  simp only [observable, Declines]
  cases w.shouldObserve <;> cases mock <;> cases w.serverRendering <;>
    cases isArray w value <;> cases isPlainObject w value <;>
    cases isExtensible w value <;> cases vSkip w value <;> cases isRef w value <;>
    cases isVNode w value <;> simp

/-! ## C2: observe on a value without controller -/

/-- C2: for every value that carries no controller, `observe` returns none and leaves the
whole world untouched whenever one of the refusal reasons of `Declines` holds; and if
none of them holds (on a well-formed world) it returns a new Observer, the next in the
list of Observers, whose `value` field is that value and which the value now carries as
its `__ob__`. -/
theorem observe_declines_or_constructs (w : World) (value : Val) (shallow mock : Bool)
    (hno : obOf w value = none) :
    (Declines w value mock → ∀ fuel, observe (fuel + 1) w value shallow mock = .ok (none, w)) ∧
    (Inv w → ¬ Declines w value mock →
      ∃ a w1, value = .obj a ∧
        Conv (fun f => observe f w value shallow mock) (some w.observers.length, w1) ∧
        w.observers.length < w1.observers.length ∧
        (w1.observers[w.observers.length]?).map Observer.value = some a ∧
        obOf w1 value = some w.observers.length) := by
  constructor
  · intro hd fuel
    have := (observable_eq_false_iff w value mock).2 hd
    simp [observe, hno, this]
  · intro hi hd
    have hobs : observable w value mock = true := by
      cases h : observable w value mock with
      | true => rfl
      | false => exact absurd ((observable_eq_false_iff w value mock).1 h) hd
    obtain ⟨r, w1, hconv, -, -, -, hpost⟩ := observe_conv w value shallow mock hi
    obtain ⟨a, o, o1, rfl, ho, rfl, hobsv, -, ho1, hob1, -⟩ := hpost hno hobs
    refine ⟨a, w1, rfl, hconv, ?_, ?_, ?_⟩
    · exact (List.getElem?_eq_some.1 hobsv).1
    · rw [hobsv]; rfl
    · simp [obOf, World.objOf, ho1, hob1]

theorem observe_declines_or_constructs_witness :
    observe 1 worldPlain (.num 3) false false = .ok (none, worldPlain) ∧
    ∃ a w1, Val.obj 1 = .obj a ∧
      Conv (fun f => observe f worldPlain (.obj 1) false false)
        (some worldPlain.observers.length, w1) ∧
      worldPlain.observers.length < w1.observers.length ∧
      (w1.observers[worldPlain.observers.length]?).map Observer.value = some a ∧
      obOf w1 (.obj 1) = some worldPlain.observers.length :=
  ⟨(observe_declines_or_constructs worldPlain (.num 3) false false (by decide)).1
      (Or.inr (Or.inl (by decide))) 0,
    (observe_declines_or_constructs worldPlain (.obj 1) false false (by decide)).2
      (by decide) (by decide)⟩

/-! ## The footprint of a read -/

theorem SameButDeps.srefl (w : World) : SameButDeps w w := rfl

theorem SameButDeps.strans {w w1 w2 : World} (h1 : SameButDeps w w1) (h2 : SameButDeps w1 w2) :
    SameButDeps w w2 := by
  unfold SameButDeps at *
  rw [h2, h1]

theorem SameButDeps.addSub (w : World) (d s : Nat) : SameButDeps w (addSub w d s) := by
  unfold SameButDeps VueObserver.addSub
  split
  · split <;> rfl
  · rfl

theorem SameButDeps.depend (w : World) (d : DepRef) : SameButDeps w (depend w d) := by
  unfold VueObserver.depend
  split
  · exact SameButDeps.addSub _ _ _
  · exact SameButDeps.srefl _

theorem SameButDeps.dependOn (w : World) (e : Val) : SameButDeps w (dependOn w e) := by
  unfold VueObserver.dependOn
  split
  · exact SameButDeps.depend _ _
  · exact SameButDeps.srefl _

theorem read_frame : ∀ fuel,
    (∀ w a key v w1, getProp fuel w a key = .ok (v, w1) → SameButDeps w w1) ∧
    (∀ w g v w1, callGetter fuel w g = .ok (v, w1) → SameButDeps w w1) ∧
    (∀ w es w1, dependArray fuel w es = .ok w1 → SameButDeps w w1) := by
  intro fuel
  induction fuel with
  | zero =>
    refine ⟨?_, ?_, ?_⟩
    · intro w a key v w1 h; simp [getProp] at h
    · intro w g v w1 h; simp [callGetter] at h
    · intro w es w1 h; simp [dependArray] at h
  | succ n ih =>
    obtain ⟨ihG, ihC, ihD⟩ := ih
    refine ⟨?_, ?_, ?_⟩
    · intro w a key v w1 h
      rw [getProp] at h
      split at h
      · cases h
      · split at h
        · cases h; exact SameButDeps.srefl _
        · exact ihC _ _ _ _ h
        · cases h; exact SameButDeps.srefl _
        · cases h; exact SameButDeps.srefl _
    · intro w g v w1 h
      cases g with
      | user cell =>
        simp only [callGetter] at h
        cases h
        exact SameButDeps.srefl _
      | reactive c =>
        simp only [callGetter] at h
        split at h
        · cases h
        · rename_i cl hcl
          obtain ⟨⟨value, wa⟩, h1, h⟩ := (Res.bind_eq_ok _ _ _).1 h
          have s1 : SameButDeps w wa := by
            split at h1
            · exact ihC _ _ _ _ h1
            · cases h1; exact SameButDeps.srefl _
          obtain ⟨wb, h2, h⟩ := (Res.bind_eq_ok _ _ _).1 h
          have s2 : SameButDeps wa wb := by
            dsimp only at h2
            split at h2
            · split at h2
              · split at h2
                · exact ((SameButDeps.depend _ _).strans (SameButDeps.depend _ _)).strans
                    (ihD _ _ _ h2)
                · cases h2
                  exact (SameButDeps.depend _ _).strans (SameButDeps.depend _ _)
              · cases h2
                exact SameButDeps.depend _ _
            · cases h2; exact SameButDeps.srefl _
          have s3 : SameButDeps wb w1 := by
            dsimp only at h
            split at h
            · split at h
              · exact ihG _ _ _ _ _ h
              · cases h; exact SameButDeps.srefl _
            · cases h; exact SameButDeps.srefl _
          exact (s1.strans s2).strans s3
    · intro w es w1 h
      cases es with
      | nil =>
        simp only [dependArray] at h
        cases h
        exact SameButDeps.srefl _
      | cons e rest =>
        simp only [dependArray] at h
        obtain ⟨wa, h1, h⟩ := (Res.bind_eq_ok _ _ _).1 h
        have s1 : SameButDeps w wa := by
          split at h1
          · exact (SameButDeps.dependOn _ _).strans (ihD _ _ _ h1)
          · cases h1; exact SameButDeps.dependOn _ _
        exact s1.strans (ihD _ _ _ h)

/-! ## C3: identity suppression in the reactive setter -/

theorem hasChanged_self (v : Val) : hasChanged v v = false := by
  cases v <;> simp [hasChanged, strictEq]

theorem updClosure_get (w : World) (c : Nat) (cl : Closure) (f : Closure → Closure)
    (h : w.closures[c]? = some cl) : (updClosure w c f).closures[c]? = some (f cl) := by
  have hlt : c < w.closures.length := (List.getElem?_eq_some.1 h).1
  simp [updClosure, h, hlt]

theorem updClosure_heap (w : World) (c : Nat) (f : Closure → Closure) :
    (updClosure w c f).heap = w.heap := by
  unfold updClosure
  split <;> rfl

theorem updClosure_log (w : World) (c : Nat) (f : Closure → Closure) :
    (updClosure w c f).log = w.log := by
  unfold updClosure
  split <;> rfl

theorem count_notify_updates (d : DepRef) (l : List Nat) :
    (l.map Event.update).count (Event.notify d) = 0 := by
  apply List.count_eq_zero.2
  intro h
  obtain ⟨x, -, hx⟩ := List.mem_map.1 h
  cases hx

/-- The end of the reactive setter on a data property that stores: the child Observer is
refreshed and the Dep notified. -/
theorem setter_store_conv (w : World) (c : Nat) (cl : Closure) (newVal : Val)
    (hcl : w.closures[c]? = some cl) (hi : Inv w) (hg : cl.getter = none)
    (hs : cl.setter = none) (hch : hasChanged cl.val newVal = true)
    (href : cl.shallow = true ∨ isRef w cl.val = false ∨ isRef w newVal = true) :
    ∃ cob w4, Conv (fun f => callSetter f w (.reactive c) newVal)
        (notify (updClosure w4 c (fun x => { x with childOb := cob })) (.dep cl.dep)) ∧
      w4.closures[c]? = some { cl with val := newVal } ∧
      w4.log = (match cl.customSetter with
        | some h => if w.dev then w.log ++ [Event.hook h] else w.log
        | none => w.log) ∧
      (∃ w2, w2 = updClosure (afterHook w cl) c (fun x => { x with val := newVal }) ∧
        w2.heap = w.heap ∧ w2.deps = w.deps ∧ w2.observers = w.observers ∧
        w2.target = w.target ∧ Inv w2 ∧ w2.closures[c]? = some { cl with val := newVal } ∧
        w2.closures.length = w.closures.length ∧
        (∀ i, i ≠ c → w2.closures[i]? = w.closures[i]?) ∧
        (if cl.shallow then cob = obOf w2 newVal ∧ w4 = w2
         else Conv (fun f => observe f w2 newVal false cl.mock) (cob, w4) ∧ Ext none w2 w4 ∧
           ObservePost w2 newVal false cl.mock cob w4)) := by
  -- the world in which the new value is stored
  let w2 : World := match cl.customSetter with
    | some h => if w.dev then w.emit (.hook h) else w
    | none => w
  have hheap2 : w2.heap = w.heap := by
    simp only [w2]; split
    · split <;> rfl
    · rfl
  have hcl2 : w2.closures = w.closures := by
    simp only [w2]; split
    · split <;> rfl
    · rfl
  have hdeps2 : w2.deps = w.deps := by
    simp only [w2]; split
    · split <;> rfl
    · rfl
  have hobs2 : w2.observers = w.observers := by
    simp only [w2]; split
    · split <;> rfl
    · rfl
  have htgt2 : w2.target = w.target := by
    simp only [w2]; split
    · split <;> rfl
    · rfl
  have hlog2 : w2.log = (match cl.customSetter with
      | some h => if w.dev then w.log ++ [Event.hook h] else w.log
      | none => w.log) := by
    simp only [w2]; split
    · split <;> rfl
    · rfl
  have href2 : (!cl.shallow && isRef w2 cl.val && !isRef w2 newVal) = false := by
    have h1 : isRef w2 cl.val = isRef w cl.val := by
      cases hv : cl.val <;> simp [isRef, World.objOf, hheap2]
    have h2 : isRef w2 newVal = isRef w newVal := by
      cases hv : newVal <;> simp [isRef, World.objOf, hheap2]
    rw [h1, h2]
    rcases href with h | h | h <;> simp [h]
  let w3 : World := updClosure w2 c (fun x => { x with val := newVal })
  have hcl3 : w3.closures[c]? = some { cl with val := newVal } :=
    updClosure_get w2 c cl _ (by rw [hcl2]; exact hcl)
  have hheap3 : w3.heap = w.heap := (updClosure_heap _ _ _).trans hheap2
  have hi3 : Inv w3 := by
    unfold Inv
    rw [hheap3]
    exact hi
  have hlt : c < w.closures.length := (List.getElem?_eq_some.1 hcl).1
  have hw3 : w3 = { w2 with closures := w2.closures.set c { cl with val := newVal } } := by
    simp only [w3, updClosure, hcl2, hcl]
  obtain ⟨cob, w4, ⟨N, hN⟩, hc4, hlog4, hrest⟩ :
      ∃ cob w4, Conv (fun f => if cl.shallow then Res.ok (obOf w3 newVal, w3)
          else observe f w3 newVal false cl.mock) (cob, w4) ∧
        w4.closures[c]? = some { cl with val := newVal } ∧ w4.log = w2.log ∧
        (if cl.shallow then cob = obOf w3 newVal ∧ w4 = w3
         else Conv (fun f => observe f w3 newVal false cl.mock) (cob, w4) ∧ Ext none w3 w4 ∧
           ObservePost w3 newVal false cl.mock cob w4) := by
    by_cases hsh : cl.shallow = true
    · refine ⟨obOf w3 newVal, w3, ⟨0, fun _ _ => ?_⟩, hcl3, updClosure_log _ _ _, ?_⟩
      · simp only [hsh, if_true]
      · simp only [hsh, if_true, and_self]
    · obtain ⟨r, w4, hconv, hext, hpost⟩ := observe_conv w3 newVal false cl.mock hi3
      refine ⟨r, w4, ?_, prefix_getElem? hext.closures hcl3,
        hext.log.trans (updClosure_log _ _ _), ?_⟩
      · simpa only [hsh, if_false] using hconv
      · simp only [hsh, if_false]
        exact ⟨hconv, hext, hpost⟩
  refine ⟨cob, w4, ⟨N + 1, ?_⟩, hc4, hlog4.trans hlog2, w3, rfl, hheap3, ?_, ?_, ?_, hi3, hcl3,
    ?_, ?_, hrest⟩
  · intro fuel hf
    obtain ⟨k, rfl, hk⟩ := exists_succ_of_le hf
    have hobs := hN k hk
    simp only at hobs
    simp only [callSetter, hcl, hg, hs, Res.ok_bind, hch, Bool.not_true, Bool.false_eq_true,
      if_false]
    have hstore : (if (!cl.shallow && isRef w2 cl.val && !isRef w2 newVal) = true then
          (match cl.val with
            | .obj r => setProp k w2 r (.name "value") newVal >>= fun w3 => Res.ok (false, w3)
            | _ => Res.ok (false, w2))
        else Res.ok (true, updClosure w2 c (fun x => { x with val := newVal }))) =
        Res.ok (true, w3) := by
      rw [href2]; rfl
    simp only [w2] at hstore
    rw [hstore]
    simp only [Res.ok_bind, if_true]
    simp only [w3, w2] at hobs
    rw [hobs]
    rfl
  · rw [hw3]; exact hdeps2
  · rw [hw3]; exact hobs2
  · rw [hw3]; exact htgt2
  · rw [hw3]; simp [hcl2]
  · intro i hic
    rw [hw3]
    simp [hcl2, List.getElem?_set_ne (Ne.symm hic)]

/-- C3: for every property installed by `defineReactive` (a closure `cl` of the world) and
every new value identical to the current effective value (`hasChanged` is false: strictly
equal, or both NaN), the setter is a no-op.  On a property without original getter it
returns the world as it was.  On a property with an original getter it returns the world
as the evaluation of that getter left it, which differs from the first at most in the
subscriber lists of the Deps: nothing is added to the log (no notify, no custom hook, no
original setter), and the closures (stored value, child controller), the heap and the
cells are unchanged.  Consequently, on a well-formed world, assigning the same value twice
in a row to a plain data property (no original accessor, not holding a ref that would be
written through) returns, the second assignment changes nothing at all (at every fuel),
and the two together add at most one `notify` of the property's Dep to the log. -/
theorem setter_identity_suppression (w : World) (c : Nat) (cl : Closure) (newVal : Val)
    (hcl : w.closures[c]? = some cl) :
    (cl.getter = none → hasChanged cl.val newVal = false →
      ∀ fuel, callSetter (fuel + 1) w (.reactive c) newVal = .ok w) ∧
    (∀ g fuel value w1, cl.getter = some g → callGetter fuel w g = .ok (value, w1) →
      hasChanged value newVal = false →
      callSetter (fuel + 1) w (.reactive c) newVal = .ok w1 ∧ w1.log = w.log ∧
        w1.closures = w.closures ∧ w1.heap = w.heap ∧ w1.cells = w.cells ∧
        w1.observers = w.observers) ∧
    (Inv w → cl.getter = none → cl.setter = none →
      (cl.shallow = true ∨ isRef w cl.val = false ∨ isRef w newVal = true) →
      ∃ w1, Conv (fun f => callSetter f w (.reactive c) newVal) w1 ∧
        (∀ fuel, callSetter (fuel + 1) w1 (.reactive c) newVal = .ok w1) ∧
        w1.log.count (Event.notify (.dep cl.dep)) ≤
          w.log.count (Event.notify (.dep cl.dep)) + 1) := by
  refine ⟨?_, ?_, ?_⟩
  · intro hg hch fuel
    simp [callSetter, hcl, hg, hch]
  · intro g fuel value w1 hg hget hch
    have hs := (read_frame fuel).2.1 w g value w1 hget
    refine ⟨?_, ?_, ?_, ?_, ?_, ?_⟩
    · simp [callSetter, hcl, hg, hget, hch]
    all_goals (rw [hs])
  · intro hi hg hs href
    cases hch : hasChanged cl.val newVal with
    | false =>
      refine ⟨w, ⟨1, ?_⟩, ?_, Nat.le_succ _⟩
      · intro fuel hf
        obtain ⟨k, rfl, -⟩ := exists_succ_of_le hf
        simp [callSetter, hcl, hg, hch]
      · intro fuel
        simp [callSetter, hcl, hg, hch]
    | true =>
      obtain ⟨cob, w4, hconv, hc4, hlog4, -⟩ := setter_store_conv w c cl newVal hcl hi hg hs hch href
      refine ⟨_, hconv, ?_, ?_⟩
      · intro fuel
        have hcF : (notify (updClosure w4 c (fun x => { x with childOb := cob }))
            (.dep cl.dep)).closures[c]? = some { cl with val := newVal, childOb := cob } :=
          updClosure_get w4 c _ _ hc4
        simp [callSetter, hcF, hg, hasChanged_self]
      · have hlogF : (notify (updClosure w4 c (fun x => { x with childOb := cob }))
            (.dep cl.dep)).log = w4.log ++ [Event.notify (.dep cl.dep)] ++
              (subsOf (updClosure w4 c (fun x => { x with childOb := cob }))
                (.dep cl.dep)).map Event.update := by
          simp [notify, updClosure_log]
        rw [hlogF, hlog4, List.count_append, List.count_append, count_notify_updates]
        cases cl.customSetter with
        | none => simp
        | some h =>
          cases w.dev <;> simp [List.count_append]

/-- A plain data property `a` holding 1: assigning 5 twice. -/
theorem setter_identity_suppression_witness :
    worldObserved.closures[0]? = some ⟨1, "a", 1, .num 1, none, none, none, none, false, false⟩ ∧
    callSetter 1 worldObserved (.reactive 0) (.num 1) = .ok worldObserved ∧
    ∃ w1, Conv (fun f => callSetter f worldObserved (.reactive 0) (.num 5)) w1 ∧
      (∀ fuel, callSetter (fuel + 1) w1 (.reactive 0) (.num 5) = .ok w1) ∧
      w1.log.count (Event.notify (.dep 1)) ≤
        worldObserved.log.count (Event.notify (.dep 1)) + 1 :=
  ⟨by decide,
    (setter_identity_suppression worldObserved 0
      ⟨1, "a", 1, .num 1, none, none, none, none, false, false⟩ (.num 1) (by decide)).1
      rfl (by decide) 0,
    (setter_identity_suppression worldObserved 0
      ⟨1, "a", 1, .num 1, none, none, none, none, false, false⟩ (.num 5) (by decide)).2.2
      (by decide) rfl rfl (Or.inr (Or.inl (by decide)))⟩

/-! ## Registration of the active reader -/

theorem Registered.rrefl (r : Nat) (w : World) : Registered r w w :=
  ⟨SameButDeps.srefl w, rfl, fun _ => Or.inl rfl⟩

theorem Registered.rtrans {r : Nat} {w w1 w2 : World} (h1 : Registered r w w1)
    (h2 : Registered r w1 w2) : Registered r w w2 := by
  refine ⟨h1.1.strans h2.1, h2.2.1.trans h1.2.1, fun d => ?_⟩
  rcases h1.2.2 d with a | ⟨a1, a2⟩
  · rcases h2.2.2 d with b | ⟨b1, b2⟩
    · exact Or.inl (b.trans a)
    · exact Or.inr ⟨by rwa [a] at b1, by rw [b2, a]⟩
  · rcases h2.2.2 d with b | ⟨b1, b2⟩
    · exact Or.inr ⟨a1, b.trans a2⟩
    · exact absurd (by rw [a2]; simp) b1

theorem Registered.mono {r : Nat} {w w1 : World} (h : Registered r w w1) {d s : Nat}
    (hs : s ∈ w.deps.getD d []) : s ∈ w1.deps.getD d [] := by
  rcases h.2.2 d with a | ⟨-, a⟩
  · rw [a]; exact hs
  · rw [a]; exact List.mem_append_left _ hs

theorem Registered.heap {r : Nat} {w w1 : World} (h : Registered r w w1) : w1.heap = w.heap := by
  rw [h.1]

theorem Registered.observers {r : Nat} {w w1 : World} (h : Registered r w w1) :
    w1.observers = w.observers := by
  rw [h.1]

theorem Registered.target {r : Nat} {w w1 : World} (h : Registered r w w1) :
    w1.target = w.target := by
  rw [h.1]

theorem Registered.ofDepend (r : Nat) (w : World) (d : DepRef) (ht : w.target = some r) :
    Registered r w (depend w d) ∧
      ∀ id, d = .dep id → id < w.deps.length → r ∈ (depend w d).deps.getD id [] := by
  cases d with
  | mockDep =>
    refine ⟨?_, fun id h => by cases h⟩
    have : depend w .mockDep = w := by simp [depend]
    rw [this]
    exact Registered.rrefl r w
  | dep id =>
    have hd : depend w (.dep id) = addSub w id r := by simp [depend, ht]
    rw [hd]
    cases hsub : w.deps[id]? with
    | none =>
      have : addSub w id r = w := by simp [addSub, hsub]
      rw [this]
      refine ⟨Registered.rrefl r w, fun id1 h hlt => ?_⟩
      cases h
      have := (List.getElem?_eq_none_iff.1 hsub)
      omega
    | some subs =>
      have hlt : id < w.deps.length := (List.getElem?_eq_some.1 hsub).1
      have hgetD : w.deps.getD id [] = subs := by simp [List.getD, hsub]
      by_cases hmem : r ∈ subs
      · have : addSub w id r = w := by simp [addSub, hsub, hmem]
        rw [this]
        refine ⟨Registered.rrefl r w, fun id1 h _ => ?_⟩
        cases h
        rw [hgetD]; exact hmem
      · have hw : addSub w id r = { w with deps := w.deps.set id (subs ++ [r]) } := by
          simp [addSub, hsub, hmem]
        rw [hw]
        refine ⟨⟨rfl, by simp, fun d => ?_⟩, fun id1 h _ => ?_⟩
        · by_cases hdid : d = id
          · subst hdid
            right
            refine ⟨by rw [hgetD]; exact hmem, ?_⟩
            simp [List.getD, hlt, hsub]
          · left
            simp [List.getD, List.getElem?_set_ne (Ne.symm hdid)]
        · cases h
          simp [List.getD, hlt]

theorem Registered.ofDependOn (r : Nat) (w : World) (e : Val) (ht : w.target = some r) :
    Registered r w (dependOn w e) ∧
      ∀ id d, obOf w e = some id → obDep w id = .dep d → d < w.deps.length →
        r ∈ (dependOn w e).deps.getD d [] := by
  unfold dependOn
  cases hob : obOf w e with
  | none => exact ⟨Registered.rrefl r w, fun id d h => by cases h⟩
  | some id =>
    refine ⟨(Registered.ofDepend r w _ ht).1, fun id1 d h1 h2 h3 => ?_⟩
    cases h1
    exact (Registered.ofDepend r w _ ht).2 d h2 h3

theorem objOf_congr {w w1 : World} (h : w1.heap = w.heap) (v : Val) : w1.objOf v = w.objOf v := by
  cases v <;> simp [World.objOf, h]

theorem isArray_congr {w w1 : World} (h : w1.heap = w.heap) (v : Val) :
    isArray w1 v = isArray w v := by
  simp [isArray, objOf_congr h]

theorem isRef_congr {w w1 : World} (h : w1.heap = w.heap) (v : Val) :
    isRef w1 v = isRef w v := by
  simp [isRef, objOf_congr h]

theorem elemsOf_congr {w w1 : World} (h : w1.heap = w.heap) (v : Val) :
    elemsOf w1 v = elemsOf w v := by
  simp [elemsOf, objOf_congr h]

theorem obOf_congr {w w1 : World} (h : w1.heap = w.heap) (v : Val) : obOf w1 v = obOf w v := by
  simp [obOf, objOf_congr h]

theorem obDep_congr {w w1 : World} (h : w1.observers = w.observers) (id : Nat) :
    obDep w1 id = obDep w id := by
  simp [obDep, h]

/-- The loop of `dependArray` over a list, given what it does on the nested arrays. -/
theorem dependArray_list (w0 : World) (r : Nat) (ht : w0.target = some r) (Q : Val → Prop)
    (inner : ∀ a w, isArray w0 a = true → Q a → Registered r w0 w →
      ∃ w1, Conv (fun f => dependArray f w (elemsOf w0 a)) w1 ∧ Registered r w w1 ∧
        ∀ e, Reaches w0 (elemsOf w0 a) e → ∀ id d, obOf w0 e = some id →
          obDep w0 id = .dep d → d < w0.deps.length → r ∈ w1.deps.getD d []) :
    ∀ (es : List (Option Val)) (w : World), Registered r w0 w →
      (∀ e, e ∈ es → isArray w0 (e.getD .undefined) = true → Q (e.getD .undefined)) →
      ∃ w1, Conv (fun f => dependArray f w es) w1 ∧ Registered r w w1 ∧
        ∀ e, Reaches w0 es e → ∀ id d, obOf w0 e = some id →
          obDep w0 id = .dep d → d < w0.deps.length → r ∈ w1.deps.getD d []
  | [], w, _, _ => by
    refine ⟨w, ⟨1, ?_⟩, Registered.rrefl r w, ?_⟩
    · intro fuel hf
      obtain ⟨k, rfl, -⟩ := exists_succ_of_le hf
      simp [dependArray]
    · intro e hr
      cases hr with
      | direct h => simp at h
      | nested h => simp at h
  | e0 :: rest, w, hreg, hQ => by
    have htw : w.target = some r := hreg.target.trans ht
    obtain ⟨s1, s1mem⟩ := Registered.ofDependOn r w (e0.getD .undefined) htw
    have hreg1 : Registered r w0 (dependOn w (e0.getD .undefined)) := hreg.rtrans s1
    -- the nested array, if the element is one
    obtain ⟨w2, ⟨N2, hN2⟩, s2, post2⟩ :
        ∃ w2, Conv (fun f => if isArray (dependOn w (e0.getD .undefined)) (e0.getD .undefined)
              then dependArray f (dependOn w (e0.getD .undefined))
                (elemsOf (dependOn w (e0.getD .undefined)) (e0.getD .undefined))
              else Res.ok (dependOn w (e0.getD .undefined))) w2 ∧
          Registered r (dependOn w (e0.getD .undefined)) w2 ∧
          (isArray w0 (e0.getD .undefined) = true →
            ∀ e, Reaches w0 (elemsOf w0 (e0.getD .undefined)) e → ∀ id d, obOf w0 e = some id →
              obDep w0 id = .dep d → d < w0.deps.length → r ∈ w2.deps.getD d []) := by
      rw [isArray_congr hreg1.heap, elemsOf_congr hreg1.heap]
      by_cases harr : isArray w0 (e0.getD .undefined) = true
      · obtain ⟨w2, hc, s2, p2⟩ := inner (e0.getD .undefined) _ harr
          (hQ e0 (List.mem_cons_self _ _) harr) hreg1
        refine ⟨w2, ?_, s2, fun _ => p2⟩
        simpa only [harr, if_true] using hc
      · refine ⟨_, ⟨0, fun _ _ => ?_⟩, Registered.rrefl r _, fun h => absurd h harr⟩
        simp [harr]
    obtain ⟨w3, ⟨N3, hN3⟩, s3, post3⟩ := dependArray_list w0 r ht Q inner rest w2
      (hreg1.rtrans s2) (fun e he => hQ e (List.mem_cons_of_mem _ he))
    refine ⟨w3, ⟨max N2 N3 + 1, ?_⟩, (s1.rtrans s2).rtrans s3, ?_⟩
    · intro fuel hf
      obtain ⟨k, rfl, hk⟩ := exists_succ_of_le hf
      have a2 := hN2 k (le_trans (le_max_left _ _) hk)
      have a3 := hN3 k (le_trans (le_max_right _ _) hk)
      simp only at a2 a3
      simp only [dependArray]
      rw [a2]
      exact a3
    · intro e hr id d hob hdep hlt
      have hlen : d < w.deps.length := by rw [hreg.2.1]; exact hlt
      cases hr with
      | direct h =>
        rcases List.mem_cons.1 h with h | h
        · have he : e0.getD .undefined = e := by rw [← h]; rfl
          have := s1mem id d (by rw [he, obOf_congr hreg.heap]; exact hob)
            (by rw [obDep_congr hreg.observers]; exact hdep) hlen
          exact s3.mono (s2.mono this)
        · exact post3 e (Reaches.direct h) id d hob hdep hlt
      | @nested _ a _ h harr hre =>
        rcases List.mem_cons.1 h with h | h
        · have he : e0.getD .undefined = a := by rw [← h]; rfl
          rw [← he] at harr hre
          exact s3.mono (post2 harr e hre id d hob hdep hlt)
        · exact post3 e (Reaches.nested h harr hre) id d hob hdep hlt

theorem dependArray_conv (w0 : World) (r : Nat) (ht : w0.target = some r) :
    ∀ (n : Nat) (es : List (Option Val)) (w : World), Registered r w0 w →
      nestedWithin n w0 es = true →
      ∃ w1, Conv (fun f => dependArray f w es) w1 ∧ Registered r w w1 ∧
        ∀ e, Reaches w0 es e → ∀ id d, obOf w0 e = some id →
          obDep w0 id = .dep d → d < w0.deps.length → r ∈ w1.deps.getD d []
  | 0, es, w, hreg, hn => by
    apply dependArray_list w0 r ht (fun _ => False) (fun a w _ h _ => absurd h id) es w hreg
    intro e he harr
    have := (List.all_eq_true.1 hn) e he
    simp [harr] at this
  | n + 1, es, w, hreg, hn => by
    apply dependArray_list w0 r ht
      (fun a => nestedWithin n w0 (elemsOf w0 a) = true)
      (fun a w _ h hr => dependArray_conv w0 r ht n (elemsOf w0 a) w hr h) es w hreg
    intro e he harr
    have := (List.all_eq_true.1 hn) e he
    simpa [harr] using this

/-- The reactive getter of a closure whose original getter, if any, is a user getter:
it returns the effective value and registers the active reader on the Dep of the
property, on the Dep of the child Observer and, below a child Observer, on the Deps of the
observed elements of an array value. -/
theorem reactive_getter_conv (w : World) (c : Nat) (cl : Closure) (r : Nat) (value : Val)
    (hcl : w.closures[c]? = some cl) (ht : w.target = some r)
    (hval : (cl.getter = none ∧ value = cl.val) ∨
      (∃ cell, cl.getter = some (.user cell) ∧ value = w.cells.getD cell .undefined))
    (href : isRef w value = false ∨ cl.shallow = true)
    (hnest : cl.childOb.isSome = true → isArray w value = true →
      ∃ n, nestedWithin n w (elemsOf w value) = true) :
    ∃ w1, Conv (fun f => callGetter f w (.reactive c)) (value, w1) ∧ Registered r w w1 ∧
      (cl.dep < w.deps.length → r ∈ w1.deps.getD cl.dep []) ∧
      (∀ cob d, cl.childOb = some cob → obDep w cob = .dep d → d < w.deps.length →
        r ∈ w1.deps.getD d []) ∧
      (cl.childOb.isSome = true → isArray w value = true →
        ∀ e, Reaches w (elemsOf w value) e → ∀ id d, obOf w e = some id →
          obDep w id = .dep d → d < w.deps.length → r ∈ w1.deps.getD d []) ∧
      (cl.childOb = none → w1 = depend w (.dep cl.dep)) := by
  obtain ⟨sa, sam⟩ := Registered.ofDepend r w (.dep cl.dep) ht
  have hta : (depend w (.dep cl.dep)).target = some r := sa.target.trans ht
  -- the evaluation of the original getter
  have hstep1 : ∀ k, (match cl.getter with
      | some g => callGetter (k + 1) w g
      | none => Res.ok (cl.val, w)) = Res.ok (value, w) := by
    intro k
    rcases hval with ⟨hg, hv⟩ | ⟨cell, hg, hv⟩
    · rw [hg, hv]
    · rw [hg, hv]; simp [callGetter]
  have href2 : ∀ w2, w2.heap = w.heap → (isRef w2 value && !cl.shallow) = false := by
    intro w2 h2
    rw [isRef_congr h2]
    rcases href with h | h <;> simp [h]
  -- the registrations below the child Observer
  obtain ⟨w2, ⟨N, hN⟩, s2, hchild, harrs, hnone⟩ :
      ∃ w2, Conv (fun f => match cl.childOb with
          | some childOb =>
            if isArray (depend (depend w (.dep cl.dep)) (obDep (depend w (.dep cl.dep)) childOb))
                value then
              dependArray f (depend (depend w (.dep cl.dep)) (obDep (depend w (.dep cl.dep)) childOb))
                (elemsOf (depend (depend w (.dep cl.dep))
                  (obDep (depend w (.dep cl.dep)) childOb)) value)
            else Res.ok (depend (depend w (.dep cl.dep)) (obDep (depend w (.dep cl.dep)) childOb))
          | none => Res.ok (depend w (.dep cl.dep))) w2 ∧
        Registered r (depend w (.dep cl.dep)) w2 ∧
        (∀ cob d, cl.childOb = some cob → obDep w cob = .dep d → d < w.deps.length →
          r ∈ w2.deps.getD d []) ∧
        (cl.childOb.isSome = true → isArray w value = true →
          ∀ e, Reaches w (elemsOf w value) e → ∀ id d, obOf w e = some id →
            obDep w id = .dep d → d < w.deps.length → r ∈ w2.deps.getD d []) ∧
        (cl.childOb = none → w2 = depend w (.dep cl.dep)) := by
    cases hco : cl.childOb with
    | none =>
      refine ⟨_, ⟨0, fun _ _ => rfl⟩, Registered.rrefl r _, ?_, ?_, fun _ => rfl⟩
      · intro cob d h; cases h
      · intro h; simp at h
    | some cob =>
      obtain ⟨sb, sbm⟩ := Registered.ofDepend r (depend w (.dep cl.dep))
        (obDep (depend w (.dep cl.dep)) cob) hta
      have hchildreg : ∀ d, obDep w cob = .dep d → d < w.deps.length →
          r ∈ (depend (depend w (.dep cl.dep)) (obDep (depend w (.dep cl.dep)) cob)).deps.getD
            d [] := by
        intro d hd hlt
        apply sbm d
        · rw [obDep_congr sa.observers]; exact hd
        · rw [sa.2.1]; exact hlt
      dsimp only
      rw [isArray_congr (sa.rtrans sb).heap, elemsOf_congr (sa.rtrans sb).heap]
      by_cases harr : isArray w value = true
      · obtain ⟨n, hn⟩ := hnest (by simp [hco]) harr
        obtain ⟨w2, hc, s, post⟩ := dependArray_conv w r ht n (elemsOf w value) _
          (sa.rtrans sb) hn
        refine ⟨w2, ?_, sb.rtrans s, ?_, fun _ _ => post, fun h => by cases h⟩
        · simpa only [harr, if_true] using hc
        · intro cob1 d h hd hlt
          cases h
          exact s.mono (hchildreg d hd hlt)
      · refine ⟨_, ⟨0, fun _ _ => ?_⟩, sb, ?_, fun _ h => absurd h harr, fun h => by cases h⟩
        · simp [harr]
        · intro cob1 d h hd hlt
          cases h
          exact hchildreg d hd hlt
  refine ⟨w2, ⟨N + 2, ?_⟩, sa.rtrans s2, fun h => s2.mono (sam _ rfl h), hchild, harrs, hnone⟩
  intro fuel hf
  obtain ⟨k1, rfl, hk1⟩ := exists_succ_of_le hf
  obtain ⟨k, rfl, hk⟩ := exists_succ_of_le hk1
  have h2 := hN (k + 1) (by omega)
  simp only at h2
  simp only [callGetter, hcl]
  rw [hstep1 k]
  simp only [Res.ok_bind, ht, Option.isSome_some, if_true, hcl, Option.some_bind]
  rw [h2, Res.ok_bind]
  simp [href2 w2 (sa.rtrans s2).heap]

/-! ## C5: the getter and the elements of an array value -/

/-- The world `worldList` is what `observe` makes of the plain data `rawList true`. -/
theorem observe_rawList :
    observe 20 (rawList true) (.obj 1) false false = .ok (some 0, { worldList with target := none }) := by
  decide

/-- C5 (counterexample): the array of `list` is not extensible, so the property has no
child Observer; its element carries the Observer 0 with the Dep 0.  A read of `list` with
the reader 7 active registers 7 on the Dep of the property (2) and not on the Dep of the
element (0). -/
theorem getter_skips_elements_without_childOb :
    ((observe 9 (rawList false) (.obj 3) false false).bind (fun r1 =>
      (observe 9 r1.2 (.obj 1) false false).bind (fun r2 =>
        getProp 9 { r2.2 with target := some 7 } 1 (.name "list")))).get?.map
      (fun r => (r.1, obOf r.2 (.obj 2), obOf r.2 (.obj 3), obDep r.2 0, r.2.deps)) =
    some (.obj 2, none, some 0, .dep 0, [[], [], [7]]) := by
  rfl

/-- C5 (as amended): for every property installed by `defineReactive` (a closure whose
original getter, if any, is a user getter) that is read while the ReadContext holds an
active reader `r`: whenever the property has a child controller and the effective value is
an array (whose nested arrays are finitely deep, and which the getter does not unwrap as a
ref), the read returns the value and the reader is registered on the Dep of every element
of that array that carries a controller with a Dep of its own, recursing through nested
arrays, in deep and in shallow mode alike. -/
theorem getter_tracks_array_elements (w : World) (c : Nat) (cl : Closure) (r : Nat)
    (value : Val) (cob n : Nat)
    (hcl : w.closures[c]? = some cl) (ht : w.target = some r)
    (hval : (cl.getter = none ∧ value = cl.val) ∨
      (∃ cell, cl.getter = some (.user cell) ∧ value = w.cells.getD cell .undefined))
    (hchild : cl.childOb = some cob) (harr : isArray w value = true)
    (href : isRef w value = false ∨ cl.shallow = true)
    (hnest : nestedWithin n w (elemsOf w value) = true) :
    ∃ w1, Conv (fun f => callGetter f w (.reactive c)) (value, w1) ∧
      ∀ e, Reaches w (elemsOf w value) e → ∀ id d, obOf w e = some id →
        obDep w id = .dep d → d < w.deps.length → r ∈ w1.deps.getD d [] := by
  obtain ⟨w1, hconv, -, -, -, hreach, -⟩ := reactive_getter_conv w c cl r value hcl ht hval href
    (fun _ _ => ⟨n, hnest⟩)
  exact ⟨w1, hconv, hreach (by simp [hchild]) harr⟩

theorem getter_tracks_array_elements_witness :
    ∃ w1, Conv (fun f => callGetter f worldList (.reactive 0)) (.obj 2, w1) ∧
      7 ∈ w1.deps.getD 3 [] := by
  obtain ⟨w1, h1, h2⟩ := getter_tracks_array_elements worldList 0
    ⟨1, "list", 1, .obj 2, some 1, none, none, none, false, false⟩ 7 (.obj 2) 1 0
    (by decide) (by decide) (Or.inl ⟨rfl, rfl⟩) rfl (by decide) (Or.inl (by decide))
    (by decide)
  exact ⟨w1, h1, h2 (.obj 3) (Reaches.direct (by decide)) 2 3 (by decide) (by decide)
    (by decide)⟩

/-! ## What the footprint of the constructor leaves alone -/

theorem Ext.objOf_none {s : Option Nat} {w w1 : World} (h : Ext s w w1) {a : Nat}
    (ha : w.heap[a]? = none) : w1.heap[a]? = none := by
  rw [List.getElem?_eq_none_iff] at ha ⊢
  rw [h.heapLen]
  exact ha

theorem Ext.isArray {s : Option Nat} {w w1 : World} (h : Ext s w w1) (v : Val) :
    isArray w1 v = isArray w v := by
  cases v with
  | obj a =>
    cases ho : w.heap[a]? with
    | none => simp [VueObserver.isArray, World.objOf, ho, h.objOf_none ho]
    | some o =>
      obtain ⟨o1, ho1, e⟩ := h.objs a o ho
      simp only [VueObserver.isArray, World.objOf, ho, ho1]
      rw [e.1]
  | _ => rfl

theorem Ext.isRef {s : Option Nat} {w w1 : World} (h : Ext s w w1) (v : Val) :
    isRef w1 v = isRef w v := by
  cases v with
  | obj a =>
    cases ho : w.heap[a]? with
    | none => simp [VueObserver.isRef, World.objOf, ho, h.objOf_none ho]
    | some o =>
      obtain ⟨o1, ho1, e⟩ := h.objs a o ho
      simp only [VueObserver.isRef, World.objOf, ho, ho1]
      rw [e.1]
  | _ => rfl

theorem Ext.elemsOf {s : Option Nat} {w w1 : World} (h : Ext s w w1) (v : Val) :
    elemsOf w1 v = elemsOf w v := by
  cases v with
  | obj a =>
    cases ho : w.heap[a]? with
    | none => simp [VueObserver.elemsOf, World.objOf, ho, h.objOf_none ho]
    | some o =>
      obtain ⟨o1, ho1, e⟩ := h.objs a o ho
      simp only [VueObserver.elemsOf, World.objOf, ho, ho1]
      rw [e.1]
  | _ => rfl

theorem nestedWithin_congr {w w1 : World} (h1 : ∀ v, isArray w1 v = isArray w v)
    (h2 : ∀ v, elemsOf w1 v = elemsOf w v) :
    ∀ (n : Nat) (es : List (Option Val)), nestedWithin n w1 es = nestedWithin n w es
  | 0, es => by simp [nestedWithin, h1]
  | n + 1, es => by
    simp only [nestedWithin, h1, h2]
    congr 1
    funext e
    rw [nestedWithin_congr h1 h2 n]

theorem Inv.of_heap_eq {w w1 : World} (h : w1.heap = w.heap) (hi : Inv w) : Inv w1 := by
  unfold Inv
  rw [h]
  exact hi

theorem getProp_reactive (k : Nat) (w : World) (a : Nat) (o : Obj) (key : Key) (c : Nat)
    (ho : w.heap[a]? = some o) (hd : ownDesc o key = some (reactiveDesc c)) :
    getProp (k + 1) w a key = callGetter k w (.reactive c) := by
  simp [getProp, ho, hd, reactiveDesc]

theorem setProp_reactive (k : Nat) (w : World) (a : Nat) (o : Obj) (key : Key) (c : Nat)
    (v : Val) (ho : w.heap[a]? = some o) (harr : o.cls ≠ .array)
    (hd : lookupProp key.toName o.props = some (reactiveDesc c)) :
    setProp (k + 1) w a key v = callSetter k w (.reactive c) v := by
  simp [setProp, ho, harr, hd, reactiveDesc]

/-- A read outside any tracked computation: the getter returns the stored value and
changes nothing. -/
theorem reactive_getter_untracked (k : Nat) (w : World) (c : Nat) (cl : Closure)
    (hcl : w.closures[c]? = some cl) (ht : w.target = none) (hg : cl.getter = none)
    (href : isRef w cl.val = false ∨ cl.shallow = true) :
    callGetter (k + 1) w (.reactive c) = .ok (cl.val, w) := by
  have : (isRef w cl.val && !cl.shallow) = false := by
    rcases href with h | h <;> simp [h]
  simp only [callGetter, hcl, hg, ht, Res.ok_bind, Option.isSome_none, Bool.false_eq_true,
    if_false, this]

theorem prefix_getD {α : Type} {l l1 : List α} (h : l <+: l1) {i : Nat} (hi : i < l.length)
    (d : α) : l1.getD i d = l.getD i d := by
  have h1 : l[i]? = some l[i] := List.getElem?_eq_getElem hi
  simp [List.getD, prefix_getElem? h h1, h1]

theorem updClosure_deps (w : World) (c : Nat) (f : Closure → Closure) :
    (updClosure w c f).deps = w.deps := by
  unfold updClosure
  split <;> rfl

theorem updClosure_target (w : World) (c : Nat) (f : Closure → Closure) :
    (updClosure w c f).target = w.target := by
  unfold updClosure
  split <;> rfl

/-- A changed assignment to a reactive data property of an observed object: the value is
stored, the child Observer is what `observe` returns for the new value (what the value
carries, in shallow mode), and the Dep of the property is notified once. -/
theorem reactive_write (w : World) (a : Nat) (o : Obj) (key : Key) (c : Nat) (cl : Closure)
    (x : Val) (hi : Inv w) (ho : w.heap[a]? = some o) (harr : o.cls ≠ .array)
    (hob : o.ob.isSome = true) (hd : lookupProp key.toName o.props = some (reactiveDesc c))
    (hcl : w.closures[c]? = some cl) (hg : cl.getter = none) (hs : cl.setter = none)
    (hcs : cl.customSetter = none) (hdep : cl.dep < w.deps.length)
    (href : cl.shallow = true ∨ isRef w cl.val = false ∨ isRef w x = true)
    (hx : hasChanged cl.val x = true) :
    ∃ cob w3 w3r wF, w3.heap = w.heap ∧
      (if cl.shallow then cob = obOf w3 x
       else Conv (fun f => observe f w3 x false cl.mock) (cob, w3r)) ∧
      Conv (fun f => setProp f w a key x) wF ∧
      wF.closures[c]? = some { cl with val := x, childOb := cob } ∧
      wF.log = w.log ++ [Event.notify (.dep cl.dep)] ++
        (w.deps.getD cl.dep []).map Event.update ∧
      wF.heap[a]? = some o ∧ wF.target = w.target ∧ isRef wF x = isRef w x ∧
      w3 = updClosure w c (fun y => { y with val := x }) ∧
      wF = notify (updClosure w3r c (fun y => { y with childOb := cob })) (.dep cl.dep) := by
  obtain ⟨cob, w4, ⟨N, hN⟩, hc4, hlog4, w3, hw3eq, hh3, hd3, -, ht3, -, -, -, -, hrest⟩ :=
    setter_store_conv w c cl x hcl hi hg hs hx href
  have hhook : afterHook w cl = w := by simp [afterHook, hcs]
  rw [hhook] at hw3eq
  have ho3 : w3.heap[a]? = some o := by rw [hh3]; exact ho
  have hfacts : w4.deps.getD cl.dep [] = w.deps.getD cl.dep [] ∧ w4.heap[a]? = some o ∧
      w4.target = w.target ∧ isRef w4 x = isRef w x ∧
      (if cl.shallow then cob = obOf w3 x
       else Conv (fun f => observe f w3 x false cl.mock) (cob, w4)) := by
    by_cases hsh : cl.shallow = true
    · simp only [hsh, if_true] at hrest ⊢
      obtain ⟨h1, h2⟩ := hrest
      subst h2
      exact ⟨by rw [hd3], ho3, ht3, isRef_congr hh3 x, h1⟩
    · simp only [hsh, if_false] at hrest ⊢
      obtain ⟨h1, h2, -⟩ := hrest
      refine ⟨?_, h2.obs_eq ho3 hob, h2.target.trans ht3, ?_, h1⟩
      · rw [prefix_getD h2.deps (by rw [hd3]; exact hdep), hd3]
      · rw [h2.isRef, isRef_congr hh3]
  obtain ⟨f1, f2, f3, f4, f5⟩ := hfacts
  refine ⟨cob, w3, w4,
    notify (updClosure w4 c (fun x1 => { x1 with childOb := cob })) (.dep cl.dep),
    hh3, f5, ⟨N + 1, ?_⟩, updClosure_get w4 c _ _ hc4, ?_, ?_, ?_, ?_, hw3eq, rfl⟩
  · intro fuel hf
    obtain ⟨k, rfl, hk⟩ := exists_succ_of_le hf
    show setProp (k + 1) w a key x = _
    rw [setProp_reactive k w a o key c x ho harr hd]
    exact hN k hk
  · simp only [notify, subsOf, updClosure_log, updClosure_deps, hlog4, hcs, f1]
  · simpa [notify, updClosure_heap] using f2
  · simpa [notify, updClosure_target] using f3
  · rw [← f4]
    exact isRef_congr (by simp [notify, updClosure_heap]) x

/-- A reactive data property with a fresh (empty) Dep, on an observed object: a reader
that reads it while active is its one subscriber; a changed assignment then stores the
new value, refreshes the child Observer, and notifies the Dep of the property once, which
re-runs that reader and nobody else; a later read returns the new value. -/
theorem reactive_property (w : World) (a : Nat) (o : Obj) (key : Key) (c : Nat)
    (cl : Closure) (r : Nat) (x : Val) (n : Nat) (hi : Inv w) (ho : w.heap[a]? = some o)
    (harr : o.cls ≠ .array) (hob : o.ob.isSome = true)
    (hd : lookupProp key.toName o.props = some (reactiveDesc c))
    (hcl : w.closures[c]? = some cl) (hg : cl.getter = none) (hs : cl.setter = none)
    (hcs : cl.customSetter = none) (hdep : w.deps[cl.dep]? = some [])
    (href : isRef w cl.val = false ∨ cl.shallow = true)
    (hnest : nestedWithin n w (elemsOf w cl.val) = true)
    (hx : hasChanged cl.val x = true) (hxr : isRef w x = false ∨ cl.shallow = true) :
    ∃ w2, Conv (fun f => getProp f { w with target := some r } a key) (cl.val, w2) ∧
      w2.deps.getD cl.dep [] = [r] ∧
      ∃ cob w3 w3r wF, w3.heap = w.heap ∧
        (if cl.shallow then cob = obOf w3 x
         else Conv (fun f => observe f w3 x false cl.mock) (cob, w3r)) ∧
        Conv (fun f => setProp f w2 a key x) wF ∧
        wF.closures[c]? = some { cl with val := x, childOb := cob } ∧
        wF.log = w.log ++ [Event.notify (.dep cl.dep), Event.update r] ∧
        (∀ k, getProp (k + 2) { wF with target := none } a key =
          .ok (x, { wF with target := none })) ∧
        w3 = updClosure w2 c (fun y => { y with val := x }) ∧
        wF = notify (updClosure w3r c (fun y => { y with childOb := cob })) (.dep cl.dep) := by
  have hdesc : ownDesc o key = some (reactiveDesc c) := by
    simp [ownDesc, harr, hd]
  have hlt : cl.dep < w.deps.length := (List.getElem?_eq_some.1 hdep).1
  -- the read
  obtain ⟨w2, ⟨N, hN⟩, hreg, hmem, -⟩ := reactive_getter_conv { w with target := some r } c cl r
    cl.val hcl rfl (Or.inl ⟨hg, rfl⟩) href
    (fun _ _ => ⟨n, (@nestedWithin_congr w { w with target := some r }
      (fun _ => rfl) (fun _ => rfl) n (elemsOf w cl.val)).trans hnest⟩)
  have hheap2 : w2.heap = w.heap := hreg.heap
  have hsubs : w2.deps.getD cl.dep [] = [r] := by
    have h0 : ({ w with target := some r } : World).deps.getD cl.dep [] = [] := by
      simp [List.getD, hdep]
    rcases hreg.2.2 cl.dep with h | ⟨-, h⟩
    · have := hmem hlt
      rw [h, h0] at this
      cases this
    · rw [h, h0]; rfl
  have hw2 : w2 = { w with target := some r, deps := w2.deps } := hreg.1
  have hcl2 : w2.closures[c]? = some cl := by rw [hw2]; exact hcl
  have hlog2 : w2.log = w.log := by rw [hw2]
  -- the write
  obtain ⟨cob, w3, w3r, wF, hh3, hchild, hset, hclF, hlogF, hoF, -, hrefF, hw3eq, hwFeq⟩ :=
    reactive_write w2 a o key c cl x (Inv.of_heap_eq hheap2 hi) (by rw [hheap2]; exact ho) harr
      hob hd hcl2 hg hs hcs (by rw [hreg.2.1]; exact hlt)
      (by
        rcases href with h | h
        · exact Or.inr (Or.inl (by rw [isRef_congr hheap2]; exact h))
        · exact Or.inl h) hx
  refine ⟨w2, ⟨N + 1, ?_⟩, hsubs, cob, w3, w3r, wF, hh3.trans hheap2, hchild, hset, hclF, ?_, ?_,
    hw3eq, hwFeq⟩
  · intro fuel hf
    obtain ⟨k, rfl, hk⟩ := exists_succ_of_le hf
    show getProp (k + 1) { w with target := some r } a key = _
    rw [getProp_reactive k { w with target := some r } a o key c ho hdesc]
    exact hN k hk
  · rw [hlogF, hsubs, hlog2]
    simp
  · intro k
    rw [getProp_reactive (k + 1) { wF with target := none } a o key c hoF hdesc]
    have := reactive_getter_untracked k { wF with target := none } c
      { cl with val := x, childOb := cob } hclF rfl hg
      (by
        rcases hxr with h | h
        · left
          have e1 : isRef { wF with target := none } x = isRef wF x :=
            @isRef_congr wF { wF with target := none } rfl x
          exact (e1.trans (hrefF.trans (isRef_congr hheap2 x))).trans h
        · exact Or.inr h)
    exact this

/-! ## C4: the read/write round trip -/

/-- C4 (counterexample): the new value is a ref.  After `observe` on `{ a: 1 }`, the
assignment of the ref at address 2 (whose inner value is 5) to `a` stores the ref, and a
later read of `a` returns 5, the inner value, not the ref. -/
theorem read_after_ref_assignment_unwraps :
    isRef worldWithRef (.obj 2) = true ∧
    ((observe 9 worldWithRef (.obj 1) false false).bind (fun r1 =>
      (setProp 9 r1.2 1 (.name "a") (.obj 2)).bind (fun w2 =>
        getProp 9 w2 1 (.name "a")))).get?.map (fun r => r.1) = some (.num 5) := by
  constructor
  · decide
  · rfl

theorem updClosure_observers (w : World) (c : Nat) (f : Closure → Closure) :
    (updClosure w c f).observers = w.observers := by
  unfold updClosure
  split <;> rfl

theorem Conv.unique {α : Type} {f : Nat → Res α} {r r1 : α} (h : Conv f r) (h1 : Conv f r1) :
    r = r1 := by
  obtain ⟨N, hN⟩ := h
  obtain ⟨M, hM⟩ := h1
  have e := (hN (max N M) (le_max_left _ _)).symm.trans (hM (max N M) (le_max_right _ _))
  cases e
  rfl

theorem observable_updClosure (w : World) (c : Nat) (f : Closure → Closure) (v : Val)
    (m : Bool) : observable (updClosure w c f) v m = observable w v m := by
  unfold updClosure
  split <;> rfl

/-- C4 (as amended): after `observe(obj)` on a plain object that `observe` accepts, with
an enumerable configurable data key `k` holding a non-ref value `v0` (nested arrays
finitely deep): a reader `r` that reads `obj.k` while it is the active reader gets `v0`
and is then the one subscriber of the Dep of `k`; a subsequent assignment `obj.k = x`
with `x` different from `v0` and not a ref stores `x` (a later read of `obj.k` returns
`x`), refreshes the child controller to what `observe(x)` returns in the world in which
the setter has just stored `x` (the existing controller of `x`; none where `observe`
declines `x`; a new Observer, which `x` then carries, otherwise), and notifies the Dep of
`k` exactly once, so that `r` is re-run exactly once and no other subscriber is re-run:
the world after the assignment is that of `observe(x)` with the child controller stored
and the one `notify`, and its log has grown by `notify` of that Dep and `update r` only. -/
theorem read_write_round_trip (w : World) (a : Nat) (o : Obj) (k : String) (v0 : Val)
    (wr : Bool) (r : Nat) (x : Val) (n : Nat) (hi : Inv w) (ho : w.heap[a]? = some o)
    (hplain : o.cls = .plain) (hob : o.ob = none)
    (hobs : observable w (.obj a) false = true)
    (hk : lookupProp k o.props = some (.data v0 wr true true))
    (hv0 : isRef w v0 = false) (hnest : nestedWithin n w (elemsOf w v0) = true)
    (hx : hasChanged v0 x = true) (hxr : isRef w x = false) :
    ∃ id w1 c d, Conv (fun f => observe f w (.obj a) false false) (some id, w1) ∧
      (w1.closures[c]?).map Closure.dep = some d ∧
      (w1.heap[a]?).bind (fun o1 => ownDesc o1 (.name k)) = some (reactiveDesc c) ∧
      ∃ w2, Conv (fun f => getProp f { w1 with target := some r } a (.name k)) (v0, w2) ∧
        w2.deps.getD d [] = [r] ∧
        ∃ cob w3r wF,
          Conv (fun f => observe f (updClosure w2 c (fun y => { y with val := x })) x
            false false) (cob, w3r) ∧
          Conv (fun f => setProp f w2 a (.name k) x) wF ∧
          wF = notify (updClosure w3r c (fun y => { y with childOb := cob })) (.dep d) ∧
          (wF.closures[c]?).map (fun cl => (cl.val, cl.childOb)) = some (x, cob) ∧
          (∀ i, obOf w2 x = some i → cob = some i) ∧
          (obOf w2 x = none → observable w2 x false = false → cob = none) ∧
          (obOf w2 x = none → observable w2 x false = true →
            cob = some w2.observers.length ∧ obOf wF x = some w2.observers.length) ∧
          wF.log = w.log ++ [Event.notify (.dep d), Event.update r] ∧
          ∀ j, getProp (j + 2) { wF with target := none } a (.name k) =
            .ok (x, { wF with target := none }) := by
  have hobn : obOf w (.obj a) = none := by simp [obOf, World.objOf, ho, hob]
  have harr : o.cls ≠ .array := by rw [hplain]; decide
  obtain ⟨r0, w1, hconv, hext, -, -, hpost⟩ := observe_conv w (.obj a) false false hi
  obtain ⟨a1, o0, o1, heq, ho0, hr0, -, -, ho1, hob1, heq1, -, hobj⟩ := hpost hobn hobs
  cases heq
  rw [ho] at ho0
  cases ho0
  subst hr0
  obtain ⟨-, hkeys⟩ := hobj harr
  obtain ⟨c, cob0, dep, l1, l2, -, -, l5⟩ := hkeys k _ hk rfl rfl
  have harr1 : o1.cls ≠ .array := by rw [heq1]; exact harr
  have hval : (closureFor w a o k (some NO_INITIAL_VALUE) none false false cob0).val = v0 := by
    simp [closureFor, initialValue, rawValue, ownDesc_name_of_not_array o k harr, hk,
      PropDesc.getter]
  obtain ⟨w2, hread, hsubs, cob, w3, w3r, wF, hh3, hchild, hset, hclF, hlogF, hlater, hw3eq,
      hwFeq⟩ :=
    reactive_property w1 a o1 (.name k) c
      { closureFor w a o k (some NO_INITIAL_VALUE) none false false cob0 with dep := dep }
      r x n (hext.inv hi) ho1 harr1 (by simp [hob1]) l1 l2
      (by simp [closureFor, ownDesc_name_of_not_array o k harr, hk, PropDesc.getter])
      (by simp [closureFor, ownDesc_name_of_not_array o k harr, hk, PropDesc.setter])
      rfl l5
      (Or.inl (by
        show isRef w1 (closureFor w a o k (some NO_INITIAL_VALUE) none false false cob0).val = false
        rw [hval, hext.isRef]; exact hv0))
      (by
        show nestedWithin n w1 (elemsOf w1
          (closureFor w a o k (some NO_INITIAL_VALUE) none false false cob0).val) = true
        rw [hval, nestedWithin_congr hext.isArray hext.elemsOf, hext.elemsOf]
        exact hnest)
      (by
        show hasChanged (closureFor w a o k (some NO_INITIAL_VALUE) none false false cob0).val x
          = true
        rw [hval]; exact hx)
      (Or.inl (by rw [hext.isRef]; exact hxr))
  have hchild1 : Conv (fun f => observe f w3 x false false) (cob, w3r) := by
    simpa [closureFor] using hchild
  have hi3 : Inv w3 := Inv.of_heap_eq hh3 (hext.inv hi)
  obtain ⟨r1, w4, hconv1, -, hpost1⟩ := observe_conv w3 x false false hi3
  have hu := Conv.unique hchild1 hconv1
  cases hu
  subst hw3eq
  have hob3 : obOf (updClosure w2 c (fun y => { y with val := x })) x = obOf w2 x :=
    obOf_congr (updClosure_heap _ _ _) x
  have hobs3 : observable (updClosure w2 c (fun y => { y with val := x })) x false =
      observable w2 x false := observable_updClosure _ _ _ _ _
  have hlen3 : (updClosure w2 c (fun y => { y with val := x })).observers = w2.observers :=
    updClosure_observers _ _ _
  refine ⟨w.observers.length, w1, c, dep, hconv, by rw [l2]; rfl, ?_, w2, ?_, hsubs, cob, w3r,
    wF, hchild1, hset, hwFeq, ?_, ?_, ?_, ?_, ?_, hlater⟩
  · rw [ho1]
    simp [ownDesc_name_of_not_array o1 k harr1, l1]
  · have := hread
    simp only [hval] at this
    exact this
  · rw [hclF]; rfl
  · intro i hi1
    exact (hpost1.1 i (hob3.trans hi1)).1
  · intro h1 h2
    exact (hpost1.2.1 (hob3.trans h1) (hobs3.trans h2)).1
  · intro h1 h2
    obtain ⟨ax, ox, ox1, hxeq, -, hr, -, -, hox1, hobx1, -⟩ :=
      hpost1.2.2 (hob3.trans h1) (hobs3.trans h2)
    rw [hlen3] at hr hobx1
    refine ⟨hr, ?_⟩
    rw [hwFeq, hxeq]
    simp [obOf, World.objOf, notify, updClosure_heap, hox1, hobx1]
  · rw [hlogF, hext.log]

/-- C4 (as amended), at a concrete input: `o = observe({ a: 1 })`, the reader 7 reads
`o.a`, then `o.a = p` with `p` the unobserved object `{ x: 1 }`.  The assignment observes
`p`: the child controller of `a` is the new Observer 1, which `p` carries afterwards, and
the log holds one `notify` and the re-run of 7. -/
theorem read_write_round_trip_witness :
    ∃ id w1 c d, Conv (fun f => observe f worldTwo (.obj 1) false false) (some id, w1) ∧
      (w1.closures[c]?).map Closure.dep = some d ∧
      (w1.heap[1]?).bind (fun o1 => ownDesc o1 (.name "a")) = some (reactiveDesc c) ∧
      ∃ w2, Conv (fun f => getProp f { w1 with target := some 7 } 1 (.name "a")) (.num 1, w2) ∧
        w2.deps.getD d [] = [7] ∧
        ∃ cob w3r wF,
          Conv (fun f => observe f (updClosure w2 c (fun y => { y with val := .obj 2 }))
            (.obj 2) false false) (cob, w3r) ∧
          Conv (fun f => setProp f w2 1 (.name "a") (.obj 2)) wF ∧
          wF = notify (updClosure w3r c (fun y => { y with childOb := cob })) (.dep d) ∧
          (wF.closures[c]?).map (fun cl => (cl.val, cl.childOb)) = some (.obj 2, cob) ∧
          (∀ i, obOf w2 (.obj 2) = some i → cob = some i) ∧
          (obOf w2 (.obj 2) = none → observable w2 (.obj 2) false = false → cob = none) ∧
          (obOf w2 (.obj 2) = none → observable w2 (.obj 2) false = true →
            cob = some w2.observers.length ∧ obOf wF (.obj 2) = some w2.observers.length) ∧
          wF.log = worldTwo.log ++ [Event.notify (.dep d), Event.update 7] ∧
          ∀ j, getProp (j + 2) { wF with target := none } 1 (.name "a") =
            .ok (.obj 2, { wF with target := none }) :=
  read_write_round_trip worldTwo 1 (plainObj [("a", .data (.num 1) true true true)]) "a"
    (.num 1) true 7 (.obj 2) 0 (by decide) (by decide) (by decide) (by decide) (by decide)
    (by decide) (by decide) (by decide) (by decide) (by decide)

/-- The assignment of an unobserved object, run: `worldTwoRead` is what `observe({ a: 1 })`
and a read of `a` by the reader 7 leave; after `o.a = p` the closure of `a` holds `p` and
the child controller 1 (the second closure is that of `p.x`), `p` carries the controller
1, and the log is one `notify` of the Dep of `a` and the re-run of 7. -/
theorem read_write_round_trip_run :
    ((observe 9 worldTwo (.obj 1) false false).bind (fun r1 =>
      getProp 9 { r1.2 with target := some 7 } 1 (.name "a"))) = .ok (.num 1, worldTwoRead) ∧
    (setProp 9 worldTwoRead 1 (.name "a") (.obj 2)).get?.map
      (fun wF => (wF.closures.map (fun cl => (cl.val, cl.childOb)), obOf wF (.obj 2),
        wF.log)) =
      some ([(.obj 2, some 1), (.num 1, none)], some 1,
        [Event.notify (.dep 1), Event.update 7]) := by
  constructor <;> rfl

/-! ## C9: a structural add through `set` -/

/-- C9 (counterexample): the value is a ref.  On the observed `{ a: 1 }`, `set` of the
absent key `k` to the ref at address 2 (inner value 5) returns the ref, and a read of `k`
then returns 5, the inner value, not the ref. -/
theorem set_ref_then_read_unwraps :
    observe 9 worldWithRef (.obj 1) false false = .ok (some 0, worldRefObserved) ∧
    isRef worldRefObserved (.obj 2) = true ∧
    set 9 worldRefObserved (.obj 1) (.name "k") (.obj 2) = .ok (.obj 2, worldRefSet) ∧
    getProp 9 worldRefSet 1 (.name "k") = .ok (.num 5, worldRefSet) := by
  refine ⟨?_, ?_, ?_, ?_⟩ <;> decide

/-- C9 (as amended): for every extensible plain object `o` that carries a non-mock
controller (one with a Dep of its own) with `vmCount = 0` and `value` `o`, that is neither
a framework instance nor read-only, for every key absent from `o` and every value `v`
that is not a ref unless the controller is shallow (and not the private sentinel; nested
arrays finitely deep): `set(o, k, v)` returns `v`, makes `k` an own enumerable accessor
property of `o` whose read returns `v`, and notifies the Dep of the controller exactly
once; afterwards `k` is reactive on its own: a reader that reads `o.k` is re-run, alone,
by a later changed assignment of a non-ref value.  By contrast the ordinary assignment
`o.k = v` adds nothing to the log. -/
theorem set_adds_reactive_key (w : World) (a : Nat) (o : Obj) (obr : Observer) (id : Nat)
    (key : Key) (v : Val) (d0 r : Nat) (x : Val) (n : Nat)
    (hi : Inv w) (ho : w.heap[a]? = some o) (hplain : o.cls = .plain)
    (hob : o.ob = some id) (hobr : w.observers[id]? = some obr) (hvalue : obr.value = a)
    (hvm : obr.vmCount = 0) (hdep : obr.dep = .dep d0)
    (hd0 : d0 < w.deps.length) (hvue : o.isVue = false) (hro : o.vIsReadonly = false)
    (hext : o.extensible = true) (habs : hasOwn o key = false) (hv : v ≠ NO_INITIAL_VALUE)
    (href : isRef w v = false ∨ obr.shallow = true)
    (hnest : nestedWithin n w (elemsOf w v) = true)
    (hx : hasChanged v x = true) (hxr : isRef w x = false ∨ obr.shallow = true) :
    ∃ w1 c, Conv (fun f => set f w (.obj a) key v) (v, w1) ∧
      (w1.heap[a]?).bind (fun o1 => ownDesc o1 key) = some (reactiveDesc c) ∧
      (∀ j, getProp (j + 2) { w1 with target := none } a key =
        .ok (v, { w1 with target := none })) ∧
      w1.log = w.log ++ [Event.notify obr.dep] ++ (subsOf w obr.dep).map Event.update ∧
      (∃ w2 wF dk, Conv (fun f => getProp f { w1 with target := some r } a key) (v, w2) ∧
        Conv (fun f => setProp f w2 a key x) wF ∧
        wF.log = w1.log ++ [Event.notify (.dep dk), Event.update r]) ∧
      (∃ wA, (∀ j, setProp (j + 1) w a key v = .ok wA) ∧ wA.log = w.log) := by
  have harr : o.cls ≠ .array := by rw [hplain]; decide
  have hlook : lookupProp key.toName o.props = none := by
    have : ownDesc o key = none := by
      cases h : ownDesc o key with
      | none => rfl
      | some d => simp [hasOwn, h] at habs
    simpa [ownDesc, harr] using this
  have hown : ownDesc o (.name key.toName) = none := by
    rw [ownDesc_name_of_not_array o _ harr]; exact hlook
  have IH : ∀ w0 v0 sh mock, Inv w0 → unobserved w0 ≤ unobserved w →
      ∃ r w1, Conv (fun f => observe f w0 v0 sh mock) (r, w1) ∧ Ext none w0 w1 := by
    intro w0 v0 sh mock h1 h2
    obtain ⟨r, w1, c, e, -⟩ := observe_conv_aux (unobserved w) w0 v0 sh mock h1 h2
    exact ⟨r, w1, c, e⟩
  obtain ⟨rd, wd, ⟨N, hN⟩, hextd, hpost⟩ := defineReactive_conv (unobserved w) IH w a o
    key.toName (some v) none obr.shallow obr.mock hi (le_refl _) ho (by simp [hob])
    (by rw [hown]; intro d h; cases h) (Or.inr (Or.inl hext))
  obtain ⟨o1, ho1, heq1, -, -, hnone⟩ := definePost_object ho harr hpost
  obtain ⟨c, cob, l1, l2, -, l4⟩ := hnone hlook
  have harr1 : o1.cls ≠ .array := by rw [heq1]; exact harr
  have hob1 : o1.ob.isSome = true := by rw [heq1]; simp [hob]
  have hdesc1 : ownDesc o1 key = some (reactiveDesc c) := by simp [ownDesc, harr1, l1]
  have hclval : (closureFor w a o key.toName (some v) none obr.shallow obr.mock cob).val = v := by
    have : (some v == some NO_INITIAL_VALUE) = false := by simpa using hv
    simp [closureFor, initialValue, this]
  have hclg : (closureFor w a o key.toName (some v) none obr.shallow obr.mock cob).getter
      = none := by simp [closureFor, hown]
  have hcls : (closureFor w a o key.toName (some v) none obr.shallow obr.mock cob).setter
      = none := by simp [closureFor, hown]
  have hki : (keyIn o key && !inObjectPrototype key) = false := by
    simp only [keyIn, habs, hplain]
    cases inObjectPrototype key <;> simp
  have hctrl : o.ob.bind (fun i => w.observers[i]?) = some obr := by simp [hob, hobr]
  have hsetN : ∀ fuel, N ≤ fuel → set fuel w (.obj a) key v = .ok (v, notify wd obr.dep) := by
    intro fuel hf
    have h1 := hN fuel hf
    simp only at h1
    have hisArr : isArray w (.obj a) = false := by simp [isArray, World.objOf, ho, harr]
    have hisRo : isReadonly w (.obj a) = false := by simp [isReadonly, World.objOf, ho, hro]
    simp only [set, ho, hisRo, hisArr, hki, hctrl, hvue, hvm, hvalue, h1]
    simp
  -- the world after `set`
  have hheapN : (notify wd obr.dep).heap = wd.heap := rfl
  have hiN : Inv (notify wd obr.dep) := Inv.of_heap_eq hheapN (hextd.inv hi)
  have hsh : (closureFor w a o key.toName (some v) none obr.shallow obr.mock cob).shallow
      = obr.shallow := rfl
  obtain ⟨w2, hread, -, -, -, -, wF, -, -, hset, -, hlogF, -⟩ :=
    reactive_property (notify wd obr.dep) a o1 key c
      (closureFor w a o key.toName (some v) none obr.shallow obr.mock cob) r x n hiN ho1 harr1
      hob1 l1 l2 hclg hcls rfl l4
      (by
        rw [hclval, hsh]
        rcases href with h | h
        · exact Or.inl (by rw [isRef_congr hheapN, hextd.isRef]; exact h)
        · exact Or.inr h)
      (by
        rw [hclval, nestedWithin_congr (isArray_congr hheapN) (elemsOf_congr hheapN),
          elemsOf_congr hheapN, nestedWithin_congr hextd.isArray hextd.elemsOf, hextd.elemsOf]
        exact hnest)
      (by rw [hclval]; exact hx)
      (by
        rw [hsh]
        rcases hxr with h | h
        · exact Or.inl (by rw [isRef_congr hheapN, hextd.isRef]; exact h)
        · exact Or.inr h)
  refine ⟨notify wd obr.dep, c, ⟨N, hsetN⟩, ?_, ?_, ?_, ⟨w2, wF, w.deps.length, ?_, hset, hlogF⟩,
    ?_⟩
  · show (wd.heap[a]?).bind (fun o1 => ownDesc o1 key) = _
    rw [ho1]; exact hdesc1
  · intro j
    rw [getProp_reactive (j + 1) { notify wd obr.dep with target := none } a o1 key c ho1 hdesc1]
    have := reactive_getter_untracked j { notify wd obr.dep with target := none } c
      (closureFor w a o key.toName (some v) none obr.shallow obr.mock cob) l2 rfl hclg
      (by
        rw [hclval, hsh]
        rcases href with h | h
        · left
          have e1 : isRef { notify wd obr.dep with target := none } v = isRef wd v :=
            @isRef_congr wd { notify wd obr.dep with target := none } rfl v
          exact (e1.trans (hextd.isRef v)).trans h
        · exact Or.inr h)
    rw [this, hclval]
  · have hsubs : subsOf wd obr.dep = subsOf w obr.dep := by
      rw [hdep]
      exact prefix_getD hextd.deps hd0 []
    simp only [notify, hextd.log, hsubs]
  · have := hread
    rw [hclval] at this
    exact this
  · refine ⟨w.setObj a { o with props := o.props ++ [(key.toName, .data v true true true)] },
      fun j => ?_, rfl⟩
    simp [setProp, ho, harr, hlook, hext]

/-- On the observed `{ a: 1 }`: `set(o, 'k', 3)`, then the reader 7 reads `o.k`, then
`o.k = 4`. -/
theorem set_adds_reactive_key_witness :
    ∃ w1 c, Conv (fun f => set f worldObserved (.obj 1) (.name "k") (.num 3)) (.num 3, w1) ∧
      (w1.heap[1]?).bind (fun o1 => ownDesc o1 (.name "k")) = some (reactiveDesc c) ∧
      (∀ j, getProp (j + 2) { w1 with target := none } 1 (.name "k") =
        .ok (.num 3, { w1 with target := none })) ∧
      w1.log = worldObserved.log ++ [Event.notify (.dep 0)] ++
        (subsOf worldObserved (.dep 0)).map Event.update ∧
      (∃ w2 wF dk,
        Conv (fun f => getProp f { w1 with target := some 7 } 1 (.name "k")) (.num 3, w2) ∧
        Conv (fun f => setProp f w2 1 (.name "k") (.num 4)) wF ∧
        wF.log = w1.log ++ [Event.notify (.dep dk), Event.update 7]) ∧
      (∃ wA, (∀ j, setProp (j + 1) worldObserved 1 (.name "k") (.num 3) = .ok wA) ∧
        wA.log = worldObserved.log) :=
  set_adds_reactive_key worldObserved 1
    { (plainObj [("a", .accessor (some (.reactive 0)) (some (.reactive 0)) true true)]) with
      ob := some 0 }
    ⟨1, false, false, .dep 0, 0⟩ 0 (.name "k") (.num 3) 0 7 (.num 4) 0
    (by decide) (by decide) (by decide) (by decide) (by decide) (by decide) (by decide)
    (by decide) (by decide) (by decide) (by decide) (by decide) (by decide) (by decide)
    (Or.inl (by decide)) (by decide) (by decide) (Or.inl (by decide))

/-! ## C7: `set` on an array -/

theorem splice_eq_setElem (es : List (Option Val)) (k : Nat) (v : Val) :
    (setLength es (max es.length k)).take (spliceStart (setLength es (max es.length k)).length k)
      ++ [some v] ++
      (setLength es (max es.length k)).drop
        (spliceStart (setLength es (max es.length k)).length k +
          spliceCount (setLength es (max es.length k)).length
            (spliceStart (setLength es (max es.length k)).length k) (some 1)) =
      setElem es k v ∧
    ((setLength es (max es.length k)).drop
        (spliceStart (setLength es (max es.length k)).length k)).take
        (spliceCount (setLength es (max es.length k)).length
          (spliceStart (setLength es (max es.length k)).length k) (some 1)) =
      (es.drop k).take 1 := by
  by_cases hk : k < es.length
  · have h1 : max es.length k = es.length := by omega
    have h2 : setLength es es.length = es := by simp [setLength]
    have h3 : spliceStart es.length (k : Int) = k := by
      unfold spliceStart
      rw [if_neg (by omega)]
      simp only [Int.toNat_ofNat]
      exact Nat.min_eq_left (by omega)
    have h4 : spliceCount es.length k (some 1) = 1 := by
      simp only [spliceCount]
      exact Nat.min_eq_left (by omega)
    rw [h1, h2, h3, h4]
    refine ⟨?_, rfl⟩
    simp [setElem, hk, List.set_eq_take_append_cons_drop]
  · have h1 : max es.length k = k := by omega
    have h2 : setLength es k = es ++ List.replicate (k - es.length) none := by
      simp only [setLength]
      split
      · have : k = es.length := by omega
        subst this
        simp
      · rfl
    have hlen : (es ++ List.replicate (k - es.length) (none : Option Val)).length = k := by
      simp; omega
    have h3 : spliceStart k (k : Int) = k := by
      unfold spliceStart
      rw [if_neg (by omega)]
      simp
    have h4 : spliceCount k k (some 1) = 0 := by simp [spliceCount]
    rw [h1, h2, hlen, h3, h4]
    constructor
    · have ht : (es ++ List.replicate (k - es.length) (none : Option Val)).take k =
          es ++ List.replicate (k - es.length) none := by
        apply List.take_of_length_le; omega
      have hd : (es ++ List.replicate (k - es.length) (none : Option Val)).drop (k + 0) = [] := by
        apply List.drop_of_length_le; omega
      rw [ht, hd]
      simp [setElem, hk]
    · have : es.drop k = [] := List.drop_of_length_le (by omega)
      simp [this]

theorem setElem_spec (es : List (Option Val)) (k : Nat) (v : Val) :
    (setElem es k v).length = max es.length (k + 1) ∧
    (setElem es k v)[k]? = some (some v) ∧
    (∀ i, i < es.length → i ≠ k → (setElem es k v)[i]? = es[i]?) ∧
    (∀ i, es.length ≤ i → i < k → (setElem es k v)[i]? = some none) := by
  by_cases hk : k < es.length
  · simp only [setElem, hk, if_true]
    refine ⟨by simp; omega, by simp [hk], ?_, ?_⟩
    · intro i _ hne
      exact List.getElem?_set_ne (Ne.symm hne)
    · intro i h1 h2; omega
  · simp only [setElem, hk, if_false]
    have hl : (es ++ List.replicate (k - es.length) (none : Option Val)).length = k := by
      simp; omega
    refine ⟨by simp; omega, ?_, ?_, ?_⟩
    · rw [List.getElem?_append_right (by rw [hl]), hl]
      simp
    · intro i hi _
      rw [List.append_assoc, List.getElem?_append_left hi]
    · intro i h1 h2
      rw [List.getElem?_append_left (by rw [hl]; exact h2), List.getElem?_append_right h1]
      have : i - es.length < k - es.length := by omega
      simp [List.getElem?_replicate, this]

theorem set_append_set {α : Type} (l t : List α) (a : Nat) (x y : α) (h : a < l.length) :
    (l.set a x ++ t).set a y = (l ++ t).set a y := by
  rw [List.set_append_left _ _ (by simpa using h), List.set_append_left _ _ h, List.set_set]

theorem nativeApply_set_splice (w : World) (a : Nat) (o : Obj) (k : Nat) (v : Val)
    (ho : w.heap[a]? = some o) (hext : o.extensible = true) (hk : k < maxArrayLength)
    (hlen : o.elems.length ≤ maxArrayLength) :
    nativeApply (w.setObj a { o with elems := setLength o.elems (max o.elems.length k) }) a
      (.splice k (some 1) [v]) = .ok (.obj w.heap.length, afterSplice w a o k v) := by
  have hlt : a < w.heap.length := (List.getElem?_eq_some.1 ho).1
  obtain ⟨h1, h2⟩ := splice_eq_setElem o.elems k v
  have hl : (setElem o.elems k v).length ≤ maxArrayLength := by
    rw [(setElem_spec o.elems k v).1]
    exact max_le hlen hk
  have hA : ¬ maxArrayLength < (setElem o.elems k v).length := Nat.not_lt.2 hl
  have hB : ¬ maxSafeInteger < (setElem o.elems k v).length := by
    have : maxArrayLength ≤ maxSafeInteger := by decide
    omega
  simp only [nativeApply, World.setObj, List.getElem?_set_self hlt, hext, Bool.not_true,
    Bool.false_and, Bool.false_eq_true, if_false, List.map_cons, List.map_nil]
  rw [h1, h2]
  simp [afterSplice, set_append_set _ _ _ _ _ hlt, hext, hA, hB]

/-- Beyond the greatest index the `splice` of `set` fails at the assignment of the new
length. -/
theorem nativeApply_set_splice_limit (w : World) (a : Nat) (o : Obj) (v : Val)
    (ho : w.heap[a]? = some o) (hext : o.extensible = true)
    (hlen : o.elems.length ≤ maxArrayLength) :
    nativeApply (w.setObj a
        { o with elems := setLength o.elems (max o.elems.length maxArrayLength) }) a
      (.splice maxArrayLength (some 1) [v]) = .err .rangeError := by
  have hlt : a < w.heap.length := (List.getElem?_eq_some.1 ho).1
  obtain ⟨h1, -⟩ := splice_eq_setElem o.elems maxArrayLength v
  have hl : (setElem o.elems maxArrayLength v).length = maxArrayLength + 1 := by
    rw [(setElem_spec o.elems maxArrayLength v).1]
    omega
  have hA : maxArrayLength < (setElem o.elems maxArrayLength v).length := by omega
  have hB : ¬ maxSafeInteger < (setElem o.elems maxArrayLength v).length := by
    rw [hl]
    decide
  simp only [nativeApply, World.setObj, List.getElem?_set_self hlt, hext, Bool.not_true,
    Bool.false_and, Bool.false_eq_true, if_false, List.map_cons, List.map_nil]
  rw [h1]
  simp [hA, hB]

theorem afterSplice_get (w : World) (a : Nat) (o : Obj) (k : Nat) (v : Val)
    (ho : w.heap[a]? = some o) :
    (afterSplice w a o k v).heap[a]? = some { o with elems := setElem o.elems k v } := by
  have hlt : a < w.heap.length := (List.getElem?_eq_some.1 ho).1
  have : a < (w.heap ++ [emptyArray ((o.elems.drop k).take 1)]).length := by
    simp; omega
  simp [afterSplice, List.getElem?_set_self this]

theorem afterSplice_inv (w : World) (a : Nat) (o : Obj) (k : Nat) (v : Val)
    (ho : w.heap[a]? = some o) (hi : Inv w) : Inv (afterSplice w a o k v) := by
  apply List.all_eq_true.2
  intro x hx
  simp only [afterSplice] at hx
  rcases List.mem_or_eq_of_mem_set hx with h | h
  · rcases List.mem_append.1 h with h | h
    · exact (List.all_eq_true.1 hi) x h
    · simp at h
      subst h
      simp [emptyArray, Obj.rawProps]
  · subst h
    have := (List.all_eq_true.1 hi) o (List.getElem?_mem ho)
    simpa [Obj.rawProps] using this

/-- C7 (counterexample): the array of `worldMockArray` carries an Observer (created in mock
mode under server rendering); `set(array, 0, 9)` returns 9 and leaves `[9, 2, 3]`, and
nothing is notified: the log stays empty. -/
theorem set_mock_array_not_notified :
    observe 9 worldMockRaw (.obj 1) false true = .ok (some 0, worldMockArray) ∧
    (set 9 worldMockArray (.obj 1) (.idx 0) (.num 9)).get?.map
      (fun r => (r.1, obOf r.2 (.obj 1), elemsOf r.2 (.obj 1), r.2.log)) =
      some (.num 9, some 0, [some (.num 9), some (.num 2), some (.num 3)], []) := by
  constructor <;> decide

/-- The `splice(k, 1, v)` of `set` on an extensible array, through the bridge where it is
installed. -/
theorem bridge_splice_conv (w : World) (a : Nat) (o : Obj) (k : Nat) (v : Val) (hi : Inv w)
    (ho : w.heap[a]? = some o) (hext : o.extensible = true) (hk : k < maxArrayLength)
    (hlen : o.elems.length ≤ maxArrayLength) :
    ∃ w2, Conv (fun f => callArrayMethod f
        (w.setObj a { o with elems := setLength o.elems (max o.elems.length k) }) a
        (.splice k (some 1) [v])) (.obj w.heap.length, w2) ∧
      w2.heap[a]? = some { o with elems := setElem o.elems k v } ∧ Inv w2 ∧
      w.observers <+: w2.observers ∧ w.deps <+: w2.deps ∧
      (o.patched = true → ∀ obr d, controllerOf w o = some obr → obr.dep = .dep d →
        d < w.deps.length →
        w2.log = w.log ++ [Event.notify (.dep d)] ++ (w.deps.getD d []).map Event.update) ∧
      (o.patched = false → w2.log = w.log) := by
  have hlt : a < w.heap.length := (List.getElem?_eq_some.1 ho).1
  have ho1 : (w.setObj a { o with elems := setLength o.elems (max o.elems.length k) }).heap[a]?
      = some { o with elems := setLength o.elems (max o.elems.length k) } := by
    simp [World.setObj, List.getElem?_set_self hlt]
  have hnat := nativeApply_set_splice w a o k v ho hext hk hlen
  have hgetN := afterSplice_get w a o k v ho
  have hiN := afterSplice_inv w a o k v ho hi
  have hobN : obOf (afterSplice w a o k v) (.obj a) = o.ob := by
    simp [obOf, World.objOf, hgetN]
  have hcall : ∀ fuel, callArrayMethod fuel
      (w.setObj a { o with elems := setLength o.elems (max o.elems.length k) }) a
      (.splice k (some 1) [v]) =
      if o.patched then mutator fuel
        (w.setObj a { o with elems := setLength o.elems (max o.elems.length k) }) a
        (.splice k (some 1) [v])
      else .ok (.obj w.heap.length, afterSplice w a o k v) := by
    intro fuel
    simp only [callArrayMethod, ho1, hnat]
  by_cases hp : o.patched = true
  · obtain hob | ⟨id, hob⟩ : o.ob = none ∨ ∃ id, o.ob = some id := by
      cases o.ob <;> simp
    · have hobN2 : obOf (afterSplice w a o k v) (.obj a) = none := hobN.trans hob
      refine ⟨afterSplice w a o k v, ⟨0, fun fuel _ => ?_⟩, hgetN, hiN, List.prefix_refl _,
        List.prefix_refl _, ?_, fun h => rfl⟩
      · show callArrayMethod fuel _ a _ = _
        rw [hcall, if_pos hp]
        simp only [mutator, hnat, Res.ok_bind, hobN2, inserted]
      · intro _ obr d hc
        simp [controllerOf, hob] at hc
    · have hobN2 : obOf (afterSplice w a o k v) (.obj a) = some id := hobN.trans hob
      have IH : ∀ w0 v0 sh mock, Inv w0 → unobserved w0 ≤ unobserved (afterSplice w a o k v) →
          ∃ r w1, Conv (fun f => observe f w0 v0 sh mock) (r, w1) ∧ Ext none w0 w1 := by
        intro w0 v0 sh mock h1 h2
        obtain ⟨r, w1, c, e, -⟩ := observe_conv_aux _ w0 v0 sh mock h1 h2
        exact ⟨r, w1, c, e⟩
      obtain ⟨w3, ⟨N, hN⟩, e⟩ := observeArray_conv _ IH
        (((afterSplice w a o k v).observers[id]?).elim false (fun x => x.mock)) [some v]
        (afterSplice w a o k v) hiN (le_refl _)
      refine ⟨notify w3 (obDep w3 id), ⟨N, fun fuel hf => ?_⟩, ?_, ?_, e.observers, e.deps, ?_,
        fun h => ?_⟩
      · have := hN fuel hf
        simp only at this
        show callArrayMethod fuel _ a _ = _
        rw [hcall, if_pos hp]
        simp only [mutator, hnat, Res.ok_bind, hobN2, inserted, List.map_cons, List.map_nil, this]
      · exact e.obs_eq hgetN (by simp [hob])
      · exact Inv.of_heap_eq rfl (e.inv hiN)
      · intro _ obr d hc hd hdl
        have hobr : w.observers[id]? = some obr := by simpa [controllerOf, hob] using hc
        have hobr3 : w3.observers[id]? = some obr := prefix_getElem? e.observers hobr
        have hdep3 : obDep w3 id = .dep d := by simp [obDep, hobr3, hd]
        have hsubs : w3.deps.getD d [] = w.deps.getD d [] := prefix_getD e.deps hdl []
        simp only [notify, hdep3, subsOf, hsubs, e.log]
        rfl
      · rw [h] at hp
        cases hp
  · have hp2 : o.patched = false := by simpa using hp
    refine ⟨afterSplice w a o k v, ⟨0, fun fuel _ => ?_⟩, hgetN, hiN, List.prefix_refl _,
      List.prefix_refl _, fun h => absurd h hp, fun _ => rfl⟩
    show callArrayMethod fuel _ a _ = _
    rw [hcall]
    simp [hp2]

/-- C7 (as amended): for every extensible array `a` that is not read-only, of length `n`
(at most `2^32 - 1`, as the length of every array is), and every value `v`.  For every
valid index `k` below `2^32 - 1`: `set(a, k, v)` returns `v` and leaves `a` with length
`max(n, k + 1)`, `a[k] = v`, every other index below `n` holding what it held before and
the indices from `n` up to `k` empty.  The write is one `splice` call: where the array
methods are patched (an array observed outside mock mode) the Dep of the controller is
notified exactly once; where they are not (an unobserved array, or one observed in mock
mode) nothing is notified.  For every `k` from `2^32 - 1` on, `set(a, k, v)` throws a
`RangeError`: the array cannot be that long. -/
theorem set_array_index (w : World) (a : Nat) (o : Obj) (k : Nat) (v : Val) (hi : Inv w)
    (ho : w.heap[a]? = some o) (harr : o.cls = .array) (hro : o.vIsReadonly = false)
    (hext : o.extensible = true) (hlen : o.elems.length ≤ maxArrayLength) :
    (k < maxArrayLength →
      ∃ w1 o1, Conv (fun f => set f w (.obj a) (.idx k) v) (v, w1) ∧
        w1.heap[a]? = some o1 ∧ SetElems o.elems o1.elems k v ∧
        (o.patched = true → ∀ obr d, controllerOf w o = some obr → obr.dep = .dep d →
          d < w.deps.length →
          w1.log = w.log ++ [Event.notify (.dep d)] ++ (w.deps.getD d []).map Event.update) ∧
        (o.patched = false → w1.log = w.log)) ∧
    (maxArrayLength ≤ k → ∀ fuel, set fuel w (.obj a) (.idx k) v = .err .rangeError) := by
  have hisArr : isArray w (.obj a) = true := by simp [isArray, World.objOf, ho, harr]
  have hisRo : isReadonly w (.obj a) = false := by simp [isReadonly, World.objOf, ho, hro]
  have hlt : a < w.heap.length := (List.getElem?_eq_some.1 ho).1
  constructor
  · intro hk
    obtain ⟨w2, ⟨N, hN⟩, hget2, hi2, -, -, hlogp, hlogn⟩ :=
      bridge_splice_conv w a o k v hi ho hext hk hlen
    have hspec : SetElems o.elems (setElem o.elems k v) k v := setElem_spec o.elems k v
    have hmax : ¬ maxArrayLength < max o.elems.length k := by
      have := max_le hlen (Nat.le_of_lt hk)
      omega
    have hset : ∀ fuel, N ≤ fuel → set fuel w (.obj a) (.idx k) v =
        (match o.ob.bind (fun id => w2.observers[id]?) with
          | some obr =>
            if !obr.shallow && obr.mock then
              observe fuel w2 v false true >>= fun r => Res.ok (v, r.2)
            else Res.ok (v, w2)
          | none => Res.ok (v, w2)) := by
      intro fuel hf
      have := hN fuel hf
      simp only at this
      simp only [set, ho, hisRo, hisArr, isValidArrayIndex, Key.index, Bool.and_self,
        Bool.false_eq_true, if_false, if_true, hmax, this, Res.ok_bind]
    cases hc : o.ob.bind (fun id => w2.observers[id]?) with
    | none =>
      refine ⟨w2, _, ⟨N, fun fuel hf => ?_⟩, hget2, hspec, hlogp, hlogn⟩
      show set fuel w (.obj a) (.idx k) v = _
      rw [hset fuel hf, hc]
    | some obr =>
      by_cases hm : (!obr.shallow && obr.mock) = true
      · obtain ⟨r3, w3, ⟨N3, hN3⟩, e3, -⟩ := observe_conv w2 v false true hi2
        have hobsome : o.ob.isSome = true := by
          cases h : o.ob with
          | none => simp [h] at hc
          | some id => rfl
        refine ⟨w3, _, ⟨max N N3, fun fuel hf => ?_⟩, e3.obs_eq hget2 hobsome, hspec, ?_, ?_⟩
        · have h3 := hN3 fuel (le_trans (le_max_right _ _) hf)
          simp only at h3
          show set fuel w (.obj a) (.idx k) v = _
          rw [hset fuel (le_trans (le_max_left _ _) hf), hc]
          simp only [hm, if_true, h3, Res.ok_bind]
        · intro hp obr1 d h1 h2 h3
          rw [e3.log]
          exact hlogp hp obr1 d h1 h2 h3
        · intro hp
          rw [e3.log]
          exact hlogn hp
      · refine ⟨w2, _, ⟨N, fun fuel hf => ?_⟩, hget2, hspec, hlogp, hlogn⟩
        show set fuel w (.obj a) (.idx k) v = _
        rw [hset fuel hf, hc]
        exact if_neg hm
  · intro hk fuel
    by_cases hgt : maxArrayLength < max o.elems.length k
    · simp [set, ho, hisRo, hisArr, isValidArrayIndex, Key.index, hgt]
    · have hkeq : k = maxArrayLength := by
        have := le_max_right o.elems.length k
        omega
      subst hkeq
      have hnat := nativeApply_set_splice_limit w a o v ho hext hlen
      have ho1 : (w.setObj a
          { o with elems := setLength o.elems (max o.elems.length maxArrayLength) }).heap[a]? =
          some { o with elems := setLength o.elems (max o.elems.length maxArrayLength) } := by
        simp [World.setObj, List.getElem?_set_self hlt]
      have hcall : callArrayMethod fuel (w.setObj a
          { o with elems := setLength o.elems (max o.elems.length maxArrayLength) }) a
          (.splice maxArrayLength (some 1) [v]) = .err .rangeError := by
        simp only [callArrayMethod, ho1, hnat]
        split
        · simp [mutator, hnat]
        · rfl
      simp only [set, ho, hisRo, hisArr, isValidArrayIndex, Key.index, Bool.and_self,
        Bool.false_eq_true, if_false, if_true, hgt, hcall]
      rfl

/-- C7 (as amended), at a concrete input: in `worldList` the array at address 2 is
`[obj 3]`, observed and patched, with the Dep 2 on its controller; `set(array, 2, 9)`
returns 9, leaves an array of length 3 with index 1 empty and 9 at index 2, and logs one
notification of Dep 2; `set(array, 4294967295, 9)` throws a `RangeError`. -/
theorem set_array_index_witness :
    (∃ w1 o1, Conv (fun f => set f worldList (.obj 2) (.idx 2) (.num 9)) (.num 9, w1) ∧
      w1.heap[2]? = some o1 ∧ o1.elems.length = 3 ∧ o1.elems[2]? = some (some (.num 9)) ∧
      o1.elems[0]? = some (some (.obj 3)) ∧ o1.elems[1]? = some none ∧
      w1.log = [Event.notify (.dep 2)]) ∧
    (∀ fuel, set fuel worldList (.obj 2) (.idx 4294967295) (.num 9) = .err .rangeError) := by
  constructor
  · obtain ⟨w1, o1, h1, h2, ⟨h3, h4, h5, h6⟩, h7, -⟩ := (set_array_index worldList 2
      { (emptyArray [some (.obj 3)]) with ob := some 1, patched := true } 2 (.num 9)
      (by decide) rfl rfl rfl rfl (by decide)).1 (by decide)
    exact ⟨w1, o1, h1, h2, h3.trans (by decide), h4, (h5 0 (by decide) (by decide)).trans rfl,
      h6 1 (by decide) (by decide),
      (h7 rfl ⟨2, false, false, .dep 2, 0⟩ 2 (by decide) rfl (by decide)).trans (by decide)⟩
  · exact (set_array_index worldList 2
      { (emptyArray [some (.obj 3)]) with ob := some 1, patched := true } 4294967295 (.num 9)
      (by decide) rfl rfl rfl rfl (by decide)).2 (by decide)

/-! ## C11: shallow observation -/

theorem FrameAt.frefl (a : Nat) (w : World) : FrameAt a w w := ⟨fun _ _ => rfl, rfl⟩

theorem FrameAt.ftrans {a : Nat} {w w1 w2 : World} (h1 : FrameAt a w w1)
    (h2 : FrameAt a w1 w2) : FrameAt a w w2 :=
  ⟨fun n hn => (h2.1 n hn).trans (h1.1 n hn), h2.2.trans h1.2⟩

theorem FrameAt.ofSame {a : Nat} {w w1 : World} (h : SameButDeps w w1) : FrameAt a w w1 := by
  unfold SameButDeps at h
  rw [h]
  exact ⟨fun _ _ => rfl, rfl⟩

theorem FrameAt.ofSetObj (a : Nat) (w : World) (o : Obj) : FrameAt a w (w.setObj a o) := by
  refine ⟨fun n hn => ?_, rfl⟩
  simp only [World.setObj]
  rw [List.getElem?_set_ne (Ne.symm hn)]

/-- In shallow mode `defineReactive` touches no object but its own and makes no Observer. -/
theorem defineReactive_shallow_frame (fuel : Nat) (w : World) (a : Nat) (key : String)
    (val : Option Val) (hook : Option Nat) (mock : Bool) (r : Option Nat) (w1 : World)
    (h : defineReactive fuel w a key val hook true mock = .ok (r, w1)) : FrameAt a w w1 := by
  cases fuel with
  | zero => simp [defineReactive] at h
  | succ k =>
    simp only [defineReactive] at h
    split at h
    · simp at h
    · rename_i o ho
      split at h
      · cases h
        exact ⟨fun _ _ => rfl, rfl⟩
      · simp only [Res.bind_eq_ok] at h
        obtain ⟨⟨v, w2⟩, h2, ⟨cob, w3⟩, h3, w5, h5, h6⟩ := h
        cases h6
        have f2 : FrameAt a (newDep w).2 w2 := by
          split at h2
          · exact FrameAt.ofSame ((read_frame k).1 _ _ _ _ _ h2)
          · cases h2
            exact FrameAt.frefl _ _
        simp only [if_true] at h3
        cases h3
        simp only [defineProperty] at h5
        split at h5
        · simp at h5
        · split at h5
          · cases h5
            exact FrameAt.ftrans (FrameAt.ftrans ⟨fun _ _ => rfl, rfl⟩ f2)
              (FrameAt.ftrans ⟨fun _ _ => rfl, rfl⟩ (FrameAt.ofSetObj a _ _))
          · simp at h5

theorem walk_shallow_frame (a : Nat) (mock : Bool) :
    ∀ (keys : List String) (fuel : Nat) (w w1 : World),
      walk fuel w a keys true mock = .ok w1 → FrameAt a w w1
  | _, 0, _, _, h => by simp [walk] at h
  | [], _ + 1, w, w1, h => by
    simp only [walk] at h
    cases h
    exact FrameAt.frefl _ _
  | key :: rest, k + 1, w, w1, h => by
    simp only [walk, Res.bind_eq_ok] at h
    obtain ⟨⟨r, w2⟩, h2, h3⟩ := h
    exact FrameAt.ftrans (defineReactive_shallow_frame k w a key _ none mock r w2 h2)
      (walk_shallow_frame a mock rest k w2 w1 h3)

/-- Shallow observation of an object that is not an array changes no other object and makes
one Observer. -/
theorem observe_shallow_frame (fuel : Nat) (w : World) (a : Nat) (o : Obj) (mock : Bool)
    (r : Option Nat) (w1 : World) (ho : w.heap[a]? = some o) (harr : o.cls ≠ .array)
    (hob : o.ob = none) (h : observe fuel w (.obj a) true mock = .ok (r, w1)) :
    (∀ n, n ≠ a → w1.heap[n]? = w.heap[n]?) ∧ w1.observers.length ≤ w.observers.length + 1 := by
  cases fuel with
  | zero => simp [observe] at h
  | succ k =>
    have hobn : obOf w (.obj a) = none := by simp [obOf, World.objOf, ho, hob]
    simp only [observe, hobn] at h
    split at h
    · simp only [Res.bind_eq_ok] at h
      obtain ⟨⟨id, w2⟩, h2, h3⟩ := h
      cases h3
      cases k with
      | zero => simp [newObserver] at h2
      | succ j =>
        rw [newObserver_object j w a o true mock ho harr] at h2
        simp only [Res.bind_eq_ok] at h2
        obtain ⟨w5, h5, h6⟩ := h2
        cases h6
        obtain ⟨f1, f2⟩ := walk_shallow_frame a mock _ _ _ _ h5
        refine ⟨fun n hn => ?_, ?_⟩
        · rw [f1 n hn]
          simp only [afterHead]
          rw [List.getElem?_set_ne (Ne.symm hn)]
        · rw [f2]
          simp [afterHead]
    · cases h
      exact ⟨fun _ _ => rfl, Nat.le_succ _⟩

/-- A changed assignment to a shallow reactive data property: the value is stored, the
child Observer is the one the value already carries, the Dep is notified; nothing else. -/
theorem setter_shallow (w : World) (c : Nat) (cl : Closure) (x : Val) (fuel : Nat)
    (hcl : w.closures[c]? = some cl) (hg : cl.getter = none) (hs : cl.setter = none)
    (hcs : cl.customSetter = none) (hsh : cl.shallow = true)
    (hx : hasChanged cl.val x = true) :
    callSetter (fuel + 1) w (.reactive c) x =
      .ok (notify (updClosure (updClosure w c (fun y => { y with val := x })) c
        (fun y => { y with childOb := obOf w x })) (.dep cl.dep)) := by
  have e : obOf (updClosure w c (fun y => { y with val := x })) x = obOf w x :=
    obOf_congr (updClosure_heap w c _) x
  simp [callSetter, hcl, hg, hs, hcs, hsh, hx, e]

theorem dataOnly_lookup {o : Obj} (h : o.dataOnly = true) {k : String} {g : Option Getter}
    {s : Option Setter} {e c : Bool} : lookupProp k o.props ≠ some (.accessor g s e c) := by
  intro hl
  have := (List.all_eq_true.1 h) _ (lookupProp_mem hl)
  simp at this

/-- An assignment to a property of an object that has data properties only either throws
or returns with nothing added to the log and no Dep changed. -/
theorem setProp_data_frame (w : World) (n : Nat) (o : Obj) (key : Key) (v : Val) (fuel : Nat)
    (ho : w.heap[n]? = some o) (hd : o.dataOnly = true) :
    (∃ wM, setProp (fuel + 1) w n key v = .ok wM ∧ wM.log = w.log ∧ wM.deps = w.deps) ∨
      setProp (fuel + 1) w n key v = .err .typeError ∨
      setProp (fuel + 1) w n key v = .err .rangeError := by
  simp only [setProp, ho]
  repeat' split
  all_goals first
    | exact Or.inl ⟨_, rfl, rfl, rfl⟩
    | exact Or.inr (Or.inl rfl)
    | exact Or.inr (Or.inr rfl)
    | (rename_i h; exact absurd h (dataOnly_lookup hd))

/-- C11 (counterexample): the key `self` of the plain object at address 1 holds that very
object, a plain object not yet observed; after `observe(o, true)` the value of `self`
carries the controller 0. -/
theorem shallow_observe_self_reference :
    (worldSelf.heap[1]?).map (fun o => (o.cls, o.ob, lookupProp "self" o.props)) =
      some (.plain, none, some (.data (.obj 1) true true true)) ∧
    (observe 9 worldSelf (.obj 1) true false).get?.map (fun r => (r.1, obOf r.2 (.obj 1))) =
      some (some 0, some 0) := by
  constructor <;> decide

/-- C11 (as amended): for every plain object `o` that `observe` accepts, observed with
`shallow = true`, and every enumerable configurable data key `k` of `o` holding a
not-yet-observed object or array `n` other than `o` itself: after `observe(o, true)` the
object `n` is exactly what it was, so it carries no controller and every property of it
has the descriptor it had (where these are data properties, an assignment to a property
of `n` either throws or returns with nothing notified and no Dep changed); while a changed
assignment to `o.k` notifies the Dep of `k` exactly once and does not instrument the newly
assigned value: the heap and the Observers stay as they were, the closure of `k` holds the
new value and the controller that value already carried, if any. -/
theorem shallow_observe (w : World) (a : Nat) (o : Obj) (k : String) (n : Nat) (inner : Obj)
    (wr : Bool) (x : Val) (hi : Inv w) (ho : w.heap[a]? = some o) (hplain : o.cls = .plain)
    (hob : o.ob = none) (hobs : observable w (.obj a) false = true)
    (hk : lookupProp k o.props = some (.data (.obj n) wr true true))
    (hna : n ≠ a) (hon : w.heap[n]? = some inner) (hnob : inner.ob = none)
    (hx : hasChanged (.obj n) x = true) :
    ∃ id w1 c d, Conv (fun f => observe f w (.obj a) true false) (some id, w1) ∧
      w1.heap[n]? = some inner ∧ obOf w1 (.obj n) = none ∧
      (inner.dataOnly = true → ∀ key v fuel,
        (∃ wM, setProp (fuel + 1) w1 n key v = .ok wM ∧ wM.log = w1.log ∧
          wM.deps = w1.deps) ∨ setProp (fuel + 1) w1 n key v = .err .typeError ∨
          setProp (fuel + 1) w1 n key v = .err .rangeError) ∧
      (w1.heap[a]?).bind (fun o1 => ownDesc o1 (.name k)) = some (reactiveDesc c) ∧
      (w1.closures[c]?).map Closure.dep = some d ∧
      ∃ wF, (∀ fuel, setProp (fuel + 2) w1 a (.name k) x = .ok wF) ∧
        wF.log = w.log ++ [Event.notify (.dep d)] ∧
        wF.heap = w1.heap ∧ wF.observers = w1.observers ∧
        (wF.closures[c]?).map (fun cl => (cl.val, cl.childOb)) = some (x, obOf w1 x) := by
  have hobn : obOf w (.obj a) = none := by simp [obOf, World.objOf, ho, hob]
  have harr : o.cls ≠ .array := by rw [hplain]; decide
  obtain ⟨r0, w1, hconv, hext, -, -, hpost⟩ := observe_conv w (.obj a) true false hi
  obtain ⟨a1, o0, o1, heq, ho0, hr0, -, -, ho1, hob1, heq1, -, hobj⟩ := hpost hobn hobs
  cases heq
  rw [ho] at ho0
  cases ho0
  subst hr0
  obtain ⟨-, hkeys⟩ := hobj harr
  obtain ⟨c, cob0, dep, l1, l2, -, -, l5⟩ := hkeys k _ hk rfl rfl
  have harr1 : o1.cls ≠ .array := by rw [heq1]; exact harr
  have hval : (closureFor w a o k (some NO_INITIAL_VALUE) none true false cob0).val = .obj n := by
    simp [closureFor, initialValue, rawValue, ownDesc_name_of_not_array o k harr, hk,
      PropDesc.getter]
  obtain ⟨N, hN⟩ := hconv
  have hfr := (observe_shallow_frame N w a o false _ _ ho harr hob (hN N le_rfl)).1 n hna
  have hon1 : w1.heap[n]? = some inner := hfr.trans hon
  have hset := fun fuel => (setProp_reactive (fuel + 1) w1 a o1 (.name k) c x ho1 harr1 l1).trans
    (setter_shallow w1 c _ x fuel l2
      (by simp [closureFor, ownDesc_name_of_not_array o k harr, hk, PropDesc.getter])
      (by simp [closureFor, ownDesc_name_of_not_array o k harr, hk, PropDesc.setter])
      rfl rfl (by
        show hasChanged
          (closureFor w a o k (some NO_INITIAL_VALUE) none true false cob0).val x = true
        rw [hval]; exact hx))
  refine ⟨w.observers.length, w1, c, dep, ⟨N, hN⟩, hon1, ?_, ?_, ?_, by rw [l2]; rfl,
    _, hset, ?_, ?_, ?_, ?_⟩
  · simp [obOf, World.objOf, hon1, hnob]
  · intro hd key v fuel
    exact setProp_data_frame w1 n inner key v fuel hon1 hd
  · rw [ho1]
    simp [ownDesc_name_of_not_array o1 k harr1, l1]
  · simp [notify, subsOf, updClosure_deps, updClosure_log, hext.log, l5]
  · simp [notify, updClosure_heap]
  · simp [notify, updClosure_observers]
  · simp only [notify]
    rw [updClosure_get _ c _ _ (updClosure_get w1 c _ _ l2)]
    rfl

/-- C11 (as amended), at a concrete input: `{ k: { x: 1 } }` observed shallowly.  The nested
object is untouched, `nested.x = 2` returns with the log as it was, and `o.k = 5` logs
one notification of the Dep of `k` and leaves the heap and the Observers alone. -/
theorem shallow_observe_witness :
    ∃ id w1 d, Conv (fun f => observe f worldNested (.obj 1) true false) (some id, w1) ∧
      w1.heap[2]? = some (plainObj [("x", .data (.num 1) true true true)]) ∧
      obOf w1 (.obj 2) = none ∧
      (∃ wM, setProp 1 w1 2 (.name "x") (.num 2) = .ok wM ∧ wM.log = w1.log) ∧
      ∃ wF, (∀ fuel, setProp (fuel + 2) w1 1 (.name "k") (.num 5) = .ok wF) ∧
        wF.log = [Event.notify (.dep d)] ∧ wF.heap = w1.heap ∧
        wF.observers = w1.observers := by
  obtain ⟨id, w1, c, d, h1, h2, h3, h4, -, -, wF, h5, h6, h7, h8, -⟩ :=
    shallow_observe worldNested 1 (plainObj [("k", .data (.obj 2) true true true)]) "k" 2
      (plainObj [("x", .data (.num 1) true true true)]) true (.num 5)
      (by decide) rfl rfl rfl (by decide) rfl (by decide) rfl rfl (by decide)
  refine ⟨id, w1, d, h1, h2, h3, ?_, wF, h5, h6, h7, h8⟩
  rcases h4 (by decide) (.name "x") (.num 2) 0 with ⟨wM, e1, e2, -⟩ | e | e
  · exact ⟨wM, e1, e2⟩
  · simp [setProp, h2, plainObj, lookupProp, Key.toName] at e
  · simp [setProp, h2, plainObj, lookupProp, Key.toName] at e

/-! ## C13: write-through to a ref -/

theorem afterHook_heap (w : World) (cl : Closure) : (afterHook w cl).heap = w.heap := by
  unfold afterHook
  split
  · split <;> rfl
  · rfl

theorem afterHook_closures (w : World) (cl : Closure) :
    (afterHook w cl).closures = w.closures := by
  unfold afterHook
  split
  · split <;> rfl
  · rfl

/-- C13 (counterexample): `worldRefHeld` is what `observe` and a read of `a` by the reader
7 make of `{ a: ref }`.  The assignment `o.a = 9` sets the inner value of the ref to 9,
the slot of `a` still holds the ref, and nothing is logged: the Dep of `a`, on which 7 is
subscribed, is not notified and 7 is not re-run. -/
theorem ref_write_through_no_notify :
    ((observe 9 worldHoldsRef (.obj 1) false false).bind (fun r1 =>
      getProp 9 { r1.2 with target := some 7 } 1 (.name "a"))).get?.map
        (fun r => (r.1, { r.2 with target := none })) = some (.num 5, worldRefHeld) ∧
    isRef worldRefHeld (.obj 2) = true ∧
    (setProp 9 worldRefHeld 1 (.name "a") (.num 9)).get?.map
      (fun w => (w.log, w.closures.map Closure.val, w.deps,
        (w.heap[2]?).map (fun o => lookupProp "value" o.props))) =
      some ([], [.obj 2], [[], [7]], some (some (.data (.num 9) true true true))) :=
  ⟨rfl, rfl, rfl⟩

/-- C13 (as amended): for every reactive data property (no original accessor) outside
shallow mode whose current value is a ref, assigning a changed value that is not a ref is
the assignment `wrapper.value = newVal` (after the custom hook of a development build) and
nothing more.  Where `value` is a writable data property of the wrapper, the assignment
returns, the inner value is the new value, the property slot still holds the same wrapper
(no closure has changed), no Dep has changed, and nothing is added to the log beyond the
hook: the Dep of this property is not notified. -/
theorem ref_write_through (w : World) (c : Nat) (cl : Closure) (r : Nat) (ro : Obj) (x : Val)
    (hcl : w.closures[c]? = some cl) (hg : cl.getter = none) (hs : cl.setter = none)
    (hsh : cl.shallow = false) (hval : cl.val = .obj r) (hr : w.heap[r]? = some ro)
    (href : ro.vIsRef = true) (hx : hasChanged (.obj r) x = true)
    (hxr : isRef w x = false) :
    (∀ fuel, callSetter (fuel + 1) w (.reactive c) x =
      setProp fuel (afterHook w cl) r (.name "value") x) ∧
    (∀ v0 e cf, ro.cls ≠ .array → lookupProp "value" ro.props = some (.data v0 true e cf) →
      ∃ wF, (∀ fuel, callSetter (fuel + 2) w (.reactive c) x = .ok wF) ∧
        wF.heap[r]? = some { ro with props := defineProp "value" (.data x true e cf) ro.props } ∧
        wF.closures = w.closures ∧ wF.deps = w.deps ∧ wF.log = (afterHook w cl).log ∧
        wF.log.count (Event.notify (.dep cl.dep)) = w.log.count (Event.notify (.dep cl.dep))) := by
  have hh : (afterHook w cl).heap = w.heap := afterHook_heap w cl
  have hr2 : (afterHook w cl).heap[r]? = some ro := by rw [hh]; exact hr
  have e1 : isRef (afterHook w cl) (.obj r) = true := by
    simp [isRef, World.objOf, hr2, href]
  have e2 : isRef (afterHook w cl) x = false := (isRef_congr hh x).trans hxr
  have hstep : ∀ fuel, callSetter (fuel + 1) w (.reactive c) x =
      setProp fuel (afterHook w cl) r (.name "value") x := by
    intro fuel
    simp only [callSetter, hcl, hg, hs, hval, hx, Res.ok_bind]
    change (if (!cl.shallow && isRef (afterHook w cl) (.obj r) && !isRef (afterHook w cl) x) = true
      then _ else _) >>= _ = _
    simp [hsh, e1, e2]
    change ((setProp fuel (afterHook w cl) r (.name "value") x >>=
      fun w3 => Res.ok (false, w3)) >>= _) = _
    cases setProp fuel (afterHook w cl) r (.name "value") x <;> rfl
  refine ⟨hstep, ?_⟩
  intro v0 e cf harr hv
  refine ⟨(afterHook w cl).setObj r
    { ro with props := defineProp "value" (.data x true e cf) ro.props }, ?_, ?_, ?_, ?_, rfl, ?_⟩
  · intro fuel
    rw [hstep (fuel + 1)]
    simp [setProp, hr2, harr, Key.toName, hv]
  · have hlt : r < (afterHook w cl).heap.length := (List.getElem?_eq_some.1 hr2).1
    simp [World.setObj, hlt]
  · exact afterHook_closures w cl
  · unfold afterHook
    split
    · split <;> rfl
    · rfl
  · show (afterHook w cl).log.count _ = _
    unfold afterHook
    split
    · split
      · simp [World.emit]
      · rfl
    · rfl

/-- C13 (as amended), at a concrete input: in `worldRefHeld` the assignment `o.a = 9` is
the assignment `ref.value = 9`; it returns, no closure has changed and the log is empty. -/
theorem ref_write_through_witness :
    (∀ fuel, callSetter (fuel + 1) worldRefHeld (.reactive 0) (.num 9) =
      setProp fuel worldRefHeld 2 (.name "value") (.num 9)) ∧
    ∃ wF, (∀ fuel, callSetter (fuel + 2) worldRefHeld (.reactive 0) (.num 9) = .ok wF) ∧
      (wF.heap[2]?).map (fun o => lookupProp "value" o.props) =
        some (some (.data (.num 9) true true true)) ∧
      wF.closures = worldRefHeld.closures ∧ wF.log = [] := by
  obtain ⟨h1, h2⟩ := ref_write_through worldRefHeld 0
    ⟨1, "a", 1, .obj 2, none, none, none, none, false, false⟩ 2
    { (plainObj [("value", .data (.num 5) true true true)]) with vIsRef := true } (.num 9)
    rfl rfl rfl rfl rfl rfl rfl (by decide) (by decide)
  obtain ⟨wF, a1, a2, a3, -, a5, -⟩ := h2 (.num 5) true true (by decide) rfl
  exact ⟨h1, wF, a1, by rw [a2]; rfl, a3, a5⟩

/-! ## C12: the mutation bridge -/

/-- What a native array method leaves: the elements of the array are replaced, and
nothing else of the world that was there changes. -/
theorem nativePost_setObj (w : World) (a : Nat) (o : Obj) (es : List (Option Val))
    (ho : w.heap[a]? = some o) :
    ∃ o0 es0, w.heap[a]? = some o0 ∧
      (w.setObj a { o with elems := es }).heap[a]? = some { o0 with elems := es0 } ∧
      (Inv w → Inv (w.setObj a { o with elems := es })) ∧
      (w.setObj a { o with elems := es }).observers = w.observers ∧
      (w.setObj a { o with elems := es }).deps = w.deps ∧
      (w.setObj a { o with elems := es }).log = w.log := by
  have hlt : a < w.heap.length := (List.getElem?_eq_some.1 ho).1
  refine ⟨o, es, ho, by simp [World.setObj, hlt], ?_, rfl, rfl, rfl⟩
  intro hi
  apply List.all_eq_true.2
  intro x hx
  rcases List.mem_or_eq_of_mem_set hx with h | h
  · exact (List.all_eq_true.1 hi) x h
  · subst h
    have := (List.all_eq_true.1 hi) o (List.getElem?_mem ho)
    simpa [Obj.rawProps] using this

theorem nativePost_alloc (w : World) (a : Nat) (o : Obj) (es rem : List (Option Val))
    (ho : w.heap[a]? = some o) :
    ∃ o0 es0, w.heap[a]? = some o0 ∧
      (World.setObj { w with heap := w.heap ++ [emptyArray rem] } a
        { o with elems := es }).heap[a]? = some { o0 with elems := es0 } ∧
      (Inv w → Inv (World.setObj { w with heap := w.heap ++ [emptyArray rem] } a
        { o with elems := es })) ∧
      (World.setObj { w with heap := w.heap ++ [emptyArray rem] } a
        { o with elems := es }).observers = w.observers ∧
      (World.setObj { w with heap := w.heap ++ [emptyArray rem] } a
        { o with elems := es }).deps = w.deps ∧
      (World.setObj { w with heap := w.heap ++ [emptyArray rem] } a
        { o with elems := es }).log = w.log := by
  have hlt : a < w.heap.length := (List.getElem?_eq_some.1 ho).1
  have hlt2 : a < (w.heap ++ [emptyArray rem]).length := by simp; omega
  refine ⟨o, es, ho, by simp [World.setObj, List.getElem?_set_self hlt2], ?_, rfl, rfl, rfl⟩
  intro hi
  apply List.all_eq_true.2
  intro x hx
  rcases List.mem_or_eq_of_mem_set hx with h | h
  · rcases List.mem_append.1 h with h | h
    · exact (List.all_eq_true.1 hi) x h
    · simp at h
      subst h
      simp [emptyArray, Obj.rawProps]
  · subst h
    have := (List.all_eq_true.1 hi) o (List.getElem?_mem ho)
    simpa [Obj.rawProps] using this

theorem nativeApply_post (w : World) (a : Nat) (call : ArrayCall) (r : Val) (w1 : World)
    (h : nativeApply w a call = .ok (r, w1)) :
    ∃ o es, w.heap[a]? = some o ∧ w1.heap[a]? = some { o with elems := es } ∧
      (Inv w → Inv w1) ∧ w1.observers = w.observers ∧ w1.deps = w.deps ∧ w1.log = w.log := by
  simp only [nativeApply] at h
  split at h
  · simp at h
  · rename_i o ho
    have hsame : ∃ o0 es0, w.heap[a]? = some o0 ∧ w.heap[a]? = some { o0 with elems := es0 } ∧
        (Inv w → Inv w) ∧ w.observers = w.observers ∧ w.deps = w.deps ∧ w.log = w.log :=
      ⟨o, o.elems, ho, ho, id, rfl, rfl, rfl⟩
    cases call with
    | push items =>
      simp only at h
      split at h
      · simp at h
      · split at h
        · simp at h
        · split at h
          · simp at h
          · cases h; exact nativePost_setObj w a o _ ho
    | pop =>
      simp only at h
      split at h
      · cases h; exact hsame
      · split at h
        · simp at h
        · cases h; exact nativePost_setObj w a o _ ho
    | shift =>
      simp only at h
      split at h
      · cases h; exact hsame
      · split at h
        · simp at h
        · cases h; exact nativePost_setObj w a o _ ho
    | unshift items =>
      simp only at h
      split at h
      · simp at h
      · split at h
        · simp at h
        · split at h
          · simp at h
          · cases h; exact nativePost_setObj w a o _ ho
    | splice start deleteCount items =>
      simp only at h
      split at h
      · simp at h
      · split at h
        · simp at h
        · split at h
          · simp at h
          · cases h; exact nativePost_alloc w a o _ _ ho
    | sort comparefn =>
      simp only at h
      split at h
      · simp at h
      · cases h; exact nativePost_setObj w a o _ ho
    | reverse =>
      simp only at h
      split at h
      · simp at h
      · cases h; exact nativePost_setObj w a o _ ho

/-- The bridge of the source after the native call, on an array that carries the Observer
`id`: the inserted elements of the specification are observed, then the Dep is notified. -/
theorem mutator_eq (fuel : Nat) (w : World) (a : Nat) (call : ArrayCall) (r : Val)
    (w1 : World) (id : Nat) (hnat : nativeApply w a call = .ok (r, w1))
    (hob1 : obOf w1 (.obj a) = some id) :
    mutator fuel w a call =
      ((match insertedSpec call with
        | [] => Res.ok w1
        | i :: is => observeArray fuel w1 ((i :: is).map some)
            ((w1.observers[id]?).elim false (fun x => x.mock))) >>=
        fun w2 => Res.ok (r, notify w2 (obDep w2 id))) := by
  simp only [mutator, hnat, Res.ok_bind, hob1]
  cases call with
  | push items => cases items <;> rfl
  | unshift items => cases items <;> rfl
  | splice s dc items => cases items <;> rfl
  | pop => rfl
  | shift => rfl
  | sort c => rfl
  | reverse => rfl

theorem bridgeSpec_eq (fuel : Nat) (w : World) (a : Nat) (call : ArrayCall) (r : Val)
    (w1 : World) (obr : Observer) (hnat : nativeApply w a call = .ok (r, w1)) :
    bridgeSpec fuel w a call obr =
      ((match insertedSpec call with
        | [] => Res.ok w1
        | i :: is => observeArray fuel w1 ((i :: is).map some) obr.mock) >>=
        fun w2 => Res.ok (r, notify w2 obr.dep)) := by
  simp only [bridgeSpec, hnat, Res.ok_bind]
  cases insertedSpec call <;> simp

/-- C12: for each of the seven bridged operations, every array that carries a controller
`obr` and every argument list: the inserted elements of the source are those of the
specification; where the native operation throws, the wrapped operation throws the same;
where the native operation returns `r` and leaves the world `w1`, the wrapped operation
returns `r`, as the bridge of the specification does, in the world that results from
`observeArray` on exactly the inserted elements (`w1` itself where there are none)
followed by one `notify` on the Dep of the controller: the array is as the native operation
left it, and the log has grown by that one `notify` and the re-runs of its subscribers. -/
theorem bridge_refines_native (w : World) (a : Nat) (call : ArrayCall) (id : Nat)
    (obr : Observer) (hi : Inv w) (hob : obOf w (.obj a) = some id)
    (hobr : w.observers[id]? = some obr) :
    (inserted call).getD [] = insertedSpec call ∧
    (∀ e, nativeApply w a call = .err e →
      ∀ fuel, mutator fuel w a call = .err e ∧ bridgeSpec fuel w a call obr = .err e) ∧
    (∀ r w1, nativeApply w a call = .ok (r, w1) →
      ∃ w2, Conv (fun f => if insertedSpec call = [] then Res.ok w1
            else observeArray f w1 ((insertedSpec call).map some) obr.mock) w2 ∧
        Conv (fun f => mutator f w a call) (r, notify w2 obr.dep) ∧
        Conv (fun f => bridgeSpec f w a call obr) (r, notify w2 obr.dep) ∧
        (notify w2 obr.dep).heap[a]? = w1.heap[a]? ∧
        (notify w2 obr.dep).log =
          w.log ++ [Event.notify obr.dep] ++ (subsOf w2 obr.dep).map Event.update ∧
        (notify w2 obr.dep).log.count (Event.notify obr.dep) =
          w.log.count (Event.notify obr.dep) + 1 ∧
        w.deps <+: w2.deps) := by
  refine ⟨by cases call <;> rfl, ?_, ?_⟩
  · intro e he fuel
    simp [mutator, bridgeSpec, he]
  · intro r w1 hnat
    obtain ⟨o, es, ho, ho1, hinv, hobs, hdeps, hlog⟩ := nativeApply_post w a call r w1 hnat
    have hoid : o.ob = some id := by simpa [obOf, World.objOf, ho] using hob
    have hob1 : obOf w1 (.obj a) = some id := by simp [obOf, World.objOf, ho1, hoid]
    have hobr1 : w1.observers[id]? = some obr := by rw [hobs]; exact hobr
    have hm := fun fuel => mutator_eq fuel w a call r w1 id hnat hob1
    have hb := fun fuel => bridgeSpec_eq fuel w a call r w1 obr hnat
    have hfinal : ∀ w2 : World, w2.log = w.log →
        (notify w2 obr.dep).log =
          w.log ++ [Event.notify obr.dep] ++ (subsOf w2 obr.dep).map Event.update ∧
        (notify w2 obr.dep).log.count (Event.notify obr.dep) =
          w.log.count (Event.notify obr.dep) + 1 := by
      intro w2 h2
      refine ⟨by simp [notify, h2], ?_⟩
      simp [notify, h2, List.count_append, count_notify_updates]
    have hfin : ∀ w2 : World, w2.log = w.log → w.deps <+: w2.deps →
        (notify w2 obr.dep).log =
          w.log ++ [Event.notify obr.dep] ++ (subsOf w2 obr.dep).map Event.update ∧
        (notify w2 obr.dep).log.count (Event.notify obr.dep) =
          w.log.count (Event.notify obr.dep) + 1 ∧ w.deps <+: w2.deps :=
      fun w2 h2 h3 => ⟨(hfinal w2 h2).1, (hfinal w2 h2).2, h3⟩
    cases hins : insertedSpec call with
    | nil =>
      refine ⟨w1, ⟨0, fun fuel _ => ?_⟩, ⟨0, fun fuel _ => ?_⟩, ⟨0, fun fuel _ => ?_⟩, rfl,
        hfin w1 hlog (by rw [hdeps])⟩
      · simp
      · show mutator fuel w a call = _
        rw [hm fuel, hins]
        simp [obDep, hobr1]
      · show bridgeSpec fuel w a call obr = _
        rw [hb fuel, hins]
        simp
    | cons i is =>
      have IH : ∀ w0 v0 sh mock, Inv w0 → unobserved w0 ≤ unobserved w1 →
          ∃ r w1, Conv (fun f => observe f w0 v0 sh mock) (r, w1) ∧ Ext none w0 w1 := by
        intro w0 v0 sh mock h1 h2
        obtain ⟨r, w1, c, e, -⟩ := observe_conv_aux _ w0 v0 sh mock h1 h2
        exact ⟨r, w1, c, e⟩
      obtain ⟨w2, ⟨N, hN⟩, e⟩ := observeArray_conv _ IH obr.mock ((i :: is).map some) w1
        (hinv hi) (le_refl _)
      have hobr2 : w2.observers[id]? = some obr := prefix_getElem? e.observers hobr1
      have hN2 : ∀ fuel, N ≤ fuel →
          observeArray fuel w1 (some i :: is.map some) obr.mock = .ok w2 := hN
      refine ⟨w2, ⟨N, fun fuel hf => ?_⟩, ⟨N, fun fuel hf => ?_⟩, ⟨N, fun fuel hf => ?_⟩, ?_,
        hfin w2 (e.log.trans hlog) (by rw [← hdeps]; exact e.deps)⟩
      · simp [hN2 fuel hf]
      · show mutator fuel w a call = _
        rw [hm fuel, hins]
        simp [hobr1, hN2 fuel hf, obDep, hobr2]
      · show bridgeSpec fuel w a call obr = _
        rw [hb fuel, hins]
        simp [hN2 fuel hf]
      · show w2.heap[a]? = w1.heap[a]?
        rw [ho1]
        exact e.obs_eq ho1 (by simp [hoid])

/-- C12, at a concrete input: `push(obj)` on the observed array `[3, 1, 2]` of
`worldBridge`, whose Dep has the subscriber 7.  The bridge returns 4, as the native `push`
does, leaves `[3, 1, 2, obj]`, and logs one `notify` of the Dep. -/
theorem bridge_refines_native_witness :
    ∃ w2, Conv (fun f => mutator f worldBridge 1 (.push [.obj 2])) (.num 4, notify w2 (.dep 0)) ∧
      elemsOf (notify w2 (.dep 0)) (.obj 1) =
        [some (.num 3), some (.num 1), some (.num 2), some (.obj 2)] ∧
      (notify w2 (.dep 0)).log.count (Event.notify (.dep 0)) = 1 := by
  obtain ⟨w2, -, h2, -, h4, -, h6, -⟩ :=
    (bridge_refines_native worldBridge 1 (.push [.obj 2]) 0
      ⟨1, false, false, .dep 0, 0⟩ (by decide) rfl rfl).2.2 (.num 4)
      (worldBridge.setObj 1
        { (emptyArray [some (.num 3), some (.num 1), some (.num 2), some (.obj 2)]) with
          ob := some 0, patched := true }) rfl
  refine ⟨w2, h2, ?_, h6⟩
  simp only [elemsOf, World.objOf]
  rw [h4]
  rfl

/-- The seven operations through the bridge on `[3, 1, 2]`: each returns what the native
method returns, leaves what the native method leaves, and logs one `notify` and the re-run
of the subscriber 7. -/
theorem bridge_examples :
    [ArrayCall.push [.num 4], .pop, .shift, .unshift [.num 0], .splice 1 (some 1) [.str "n"],
      .sort none, .reverse].map (fun call =>
        ((mutator 3 worldBridge 1 call).get?.map
          (fun r => (r.1, elemsOf r.2 (.obj 1), r.2.log)),
         (nativeApply worldBridge 1 call).get?.map (fun r => (r.1, elemsOf r.2 (.obj 1))))) =
    ([(Val.num 4, [some (Val.num 3), some (.num 1), some (.num 2), some (.num 4)]),
      (.num 2, [some (.num 3), some (.num 1)]),
      (.num 3, [some (.num 1), some (.num 2)]),
      (.num 4, [some (.num 0), some (.num 3), some (.num 1), some (.num 2)]),
      (.obj 3, [some (.num 3), some (.str "n"), some (.num 2)]),
      (.obj 1, [some (.num 1), some (.num 2), some (.num 3)]),
      (.obj 1, [some (.num 2), some (.num 1), some (.num 3)])] :
        List (Val × List (Option Val))).map (fun p =>
          (some (p.1, p.2, [Event.notify (.dep 0), Event.update 7]), some p)) := by
  rfl

end VueObserver

namespace TemplateParser

open VueObserver

/-! ## C14: template to AST -/

theorem parseEndTag_init (st : HtmlState) (tagName : String) :
    (parseEndTag parseOptions st tagName ParseState.init).2 = ParseState.init := by
  unfold parseEndTag
  split
  · simp only
    generalize ((st.stack.drop _).reverse) = l
    induction l with
    | nil => rfl
    | cons i l ih =>
      rw [List.foldl_cons]
      exact ih
  · rfl

theorem textStep_init (st : HtmlState) (textEnd : Option Nat) :
    (textStep parseOptions st textEnd ParseState.init).2 = ParseState.init := by
  simp only [textStep, parseOptions]
  split <;> rfl

/-- The callbacks of `parse` never leave its initial state: `parseHTML` does not call
`start`, and `end` and `chars` do nothing while the stack is empty and there is no
current parent. -/
theorem parseLoop_init : ∀ (fuel : Nat) (st st1 : HtmlState) (u : ParseState),
    parseLoop parseOptions fuel st ParseState.init = .ok (st1, u) → u = ParseState.init
  | 0, _, _, _, h => by simp [parseLoop] at h
  | fuel + 1, st, st1, u, h => by
    simp only [parseLoop] at h
    split at h
    · cases h
      rfl
    · split at h
      · split at h
        · rw [parseEndTag_init] at h
          exact parseLoop_init fuel _ _ _ h
        · split at h
          · simp at h
          · exact parseLoop_init fuel _ _ _ h
          · rw [textStep_init] at h
            exact parseLoop_init fuel _ _ _ h
      · rw [textStep_init] at h
        exact parseLoop_init fuel _ _ _ h

/-- Whatever the template, `parse` returns no node where it returns. -/
theorem parse_never_returns_root (fuel : Nat) (template : String)
    (r : Option Nat × List ASTNode) (h : parse fuel template = .ok r) : r = (none, []) := by
  simp only [parse, parseHTML, Res.bind_eq_ok] at h
  obtain ⟨⟨root, nodes, s⟩, ⟨⟨st, u⟩, h1, h2⟩, h3⟩ := h
  have := parseLoop_init fuel _ _ _ h1
  subst this
  cases h2
  cases h3
  rfl

/-- C14 (the failing input): `parse('<div>Hello World</div>')` returns `null` (no node at
all), and so does a template with attributes.  `parseHTML` itself builds the `div`
element, with no child, and hands the text to `chars`; its result is dropped by `parse`,
whose own `root` is only set by the callback `start`, which `parseHTML` never calls. -/
theorem parse_hello_world_returns_null :
    parse 9 "<div>Hello World</div>" = .ok (none, []) ∧
    parse 9 "<div class=container id=app>Hello World</div>" = .ok (none, []) ∧
    (parseHTML 9 "<div>Hello World</div>".toList noOptions ()).get?.map (fun r => (r.1, r.2.1)) =
      some (some 0, [.element
        { tag := "div", attrsList := [], attrsMap := [], parent := none, children := [] }]) ∧
    (parseHTML 9 "<div class=container id=app>Hello World</div>".toList noOptions ()).get?.map
      (fun r => (r.1, r.2.1)) =
      some (some 0, [.element
        { tag := "div", attrsList := [("class", "container"), ("id", "app")],
          attrsMap := [("class", "container"), ("id", "app")], parent := none,
          children := [] }]) := by
  refine ⟨?_, ?_, ?_, ?_⟩ <;> decide

end TemplateParser
